import Mathlib

/-!
# Puits couronne (Eu-152 dose in water rings): event tracking, run accumulation, dose normalisation

A shallow embedding of the Geant4 user actions of the repository:

* `RunAction` follows `src/RunAction.cc` and `include/RunAction.hh`;
* `DetectorConstruction` follows the ring radii and ring masses of
  `src/DetectorConstruction.cc`;
* `PuitsCouronne23.PrimaryGeneratorAction` follows
  `geant4_billes/23_12_2025/puits_couronne/src/PrimaryGeneratorAction.cc`, the calls of
  `G4UniformRand()` being read from a stream of draws;
* `PuitsCouronne23.EventAction` follows
  `geant4_billes/23_12_2025/puits_couronne/src/EventAction.cc` (absolute keV tolerance);
* `Filtre5mmWPETG.EventAction` follows
  `README/29_12_2025/Filtre5mmWPETG/EventAction.cc` (relative tolerance).

Conventions of the embedding.

* `G4double` is an arbitrary linearly ordered field `K` (exact arithmetic); every definition
  is computable and can be run at `K = ℚ`, and is used at `K = ℝ` where a cosine is needed.
* `G4int` and `size_t` are `Int` and `Nat`; the model covers executions in which no counter
  leaves the 32-bit range (signed overflow is undefined behaviour in C++).
* A division whose divisor is not a non-zero literal goes through `fdiv`, which yields
  `none` when the divisor is zero.  A value the source only prints is kept as an `Option`.
* Library functions (`std::cos`, `std::sqrt`, ...) and the unit constants of
  `G4SystemOfUnits.hh` are not part of the repository; they are parameters.
* Output to `G4cout`, the `Logger` and `G4AnalysisManager` is not modelled.
-/

set_option autoImplicit false

namespace PuitsCouronne

/-- The number of water rings, `DetectorConstruction::kNbWaterRings`. -/
abbrev kNbWaterRings : Nat := 5

/-- Floating division with the divisor tested: `none` stands for a division by zero. -/
def fdiv {K : Type} [LinearOrderedField K] (a b : K) : Option K :=
  if b = 0 then none else some (a / b)

/-- The C++ test `ringIndex >= 0 && ringIndex < kNbWaterRings` together with the array
slot it selects. -/
def ringSlot (ringIndex : Int) : Option (Fin kNbWaterRings) :=
  if h : 0 ≤ ringIndex ∧ ringIndex < (kNbWaterRings : Int) then
    some ⟨ringIndex.toNat, by omega⟩
  else none

/-- The data members of `RunAction` (`include/RunAction.hh`, lines 87-143).  The `G4int`
counters are integers: the methods below describe the source as long as every counter stays
within the 32-bit range (`InG4intRange`), which the theorems on the event counters assume
or establish. -/
structure RunAction (K : Type) where
  fRingTotalEnergy : Fin kNbWaterRings → K
  fRingTotalEnergy2 : Fin kNbWaterRings → K
  fRingEventCount : Fin kNbWaterRings → Int
  fRingMasses : Fin kNbWaterRings → K
  fActivity4pi : K
  fConeAngle : K
  fSourcePosZ : K
  fMeanGammasPerDecay : K
  fTotalPrimariesGenerated : Int
  fTotalEventsWithZeroGamma : Int
  fTotalTransmitted : Int
  fTotalAbsorbed : Int
  fTotalEvents : Int
  fTotalWaterEnergy : K
  fTotalWaterEventCount : Int
  fGammasEnteringFilter : Int
  fGammasExitingFilter : Int
  fGammasEnteringContainer : Int
  fGammasEnteringWater : Int
  fElectronsInWater : Int
  fGammasPreFilterPlane : Int
  fGammasPostFilterPlane : Int
  fGammasPreWaterPlane : Int
  fGammasPostWaterPlane : Int
  fOutputFileName : String

namespace RunAction

variable {K : Type} [LinearOrderedField K]

/-- The constructor `RunAction::RunAction()` (`src/RunAction.cc`, lines 12-43); `deg` and
`cm` are the unit constants. -/
def ctor (deg cm : K) : RunAction K where
  fRingTotalEnergy := fun _ => 0
  fRingTotalEnergy2 := fun _ => 0
  fRingEventCount := fun _ => 0
  fRingMasses := fun _ => 0
  fActivity4pi := 44000
  fConeAngle := 20 * deg
  fSourcePosZ := 2 * cm
  fMeanGammasPerDecay := 1924 / 1000
  fTotalPrimariesGenerated := 0
  fTotalEventsWithZeroGamma := 0
  fTotalTransmitted := 0
  fTotalAbsorbed := 0
  fTotalEvents := 0
  fTotalWaterEnergy := 0
  fTotalWaterEventCount := 0
  fGammasEnteringFilter := 0
  fGammasExitingFilter := 0
  fGammasEnteringContainer := 0
  fGammasEnteringWater := 0
  fElectronsInWater := 0
  fGammasPreFilterPlane := 0
  fGammasPostFilterPlane := 0
  fGammasPreWaterPlane := 0
  fGammasPostWaterPlane := 0
  fOutputFileName := "puits_couronne_output"

/-- The setter `SetConeAngle` (`include/RunAction.hh`, line 44). -/
def SetConeAngle (r : RunAction K) (angle : K) : RunAction K :=
  { r with fConeAngle := angle }

/-- The setter `SetActivity4pi` (`include/RunAction.hh`, line 47). -/
def SetActivity4pi (r : RunAction K) (activity : K) : RunAction K :=
  { r with fActivity4pi := activity }

/-- The inline `GetSolidAngleFraction` (`include/RunAction.hh`, line 54):
`(1.0 - std::cos(fConeAngle)) / 2.0`. -/
def GetSolidAngleFraction (cos : K → K) (r : RunAction K) : K :=
  (1 - cos r.fConeAngle) / 2

/-- The method `CalculateIrradiationTime` (`src/RunAction.cc`, lines 64-89). -/
def CalculateIrradiationTime (cos : K → K) (r : RunAction K) (nEvents : Int) : Option K :=
  let f := GetSolidAngleFraction cos r
  if f ≤ 0 ∨ r.fActivity4pi ≤ 0 then some 0
  else fdiv (nEvents : K) (f * r.fActivity4pi)

/-- The method `CalculateDoseRate` (`src/RunAction.cc`, lines 91-110). -/
def CalculateDoseRate (cos : K → K) (r : RunAction K) (totalDose_Gy : K) (nEvents : Int) :
    Option K :=
  (CalculateIrradiationTime cos r nEvents).bind fun T_irr =>
    if T_irr ≤ 0 then some 0 else fdiv totalDose_Gy T_irr

/-- The method `BeginOfRunAction` (`src/RunAction.cc`, lines 126-163): the accumulators and
counters are reset; the ring masses are read from the detector when one is registered
(`detector` holds `GetRingMass`), and kept otherwise. -/
def BeginOfRunAction (r : RunAction K) (detector : Option (Fin kNbWaterRings → K)) :
    RunAction K :=
  { r with
    fRingTotalEnergy := fun _ => 0
    fRingTotalEnergy2 := fun _ => 0
    fRingEventCount := fun _ => 0
    fTotalPrimariesGenerated := 0
    fTotalEventsWithZeroGamma := 0
    fTotalTransmitted := 0
    fTotalAbsorbed := 0
    fTotalEvents := 0
    fTotalWaterEnergy := 0
    fTotalWaterEventCount := 0
    fGammasEnteringFilter := 0
    fGammasExitingFilter := 0
    fGammasEnteringContainer := 0
    fGammasEnteringWater := 0
    fElectronsInWater := 0
    fGammasPreFilterPlane := 0
    fGammasPostFilterPlane := 0
    fGammasPreWaterPlane := 0
    fGammasPostWaterPlane := 0
    fRingMasses :=
      match detector with
      | some mass => mass
      | none => r.fRingMasses }

/-- The method `AddRingEnergy` (`src/RunAction.cc`, lines 259-273). -/
def AddRingEnergy (r : RunAction K) (ringIndex : Int) (edep : K) : RunAction K :=
  let r1 : RunAction K :=
    match ringSlot ringIndex with
    | some i =>
      { r with
        fRingTotalEnergy := Function.update r.fRingTotalEnergy i (r.fRingTotalEnergy i + edep)
        fRingTotalEnergy2 :=
          Function.update r.fRingTotalEnergy2 i (r.fRingTotalEnergy2 i + edep * edep)
        fRingEventCount := Function.update r.fRingEventCount i (r.fRingEventCount i + 1) }
    | none => r
  { r1 with fTotalWaterEnergy := r1.fTotalWaterEnergy + edep }

/-- The method `RecordEventStatistics` (`src/RunAction.cc`, lines 275-311); the energies
are only used to fill histograms. -/
def RecordEventStatistics (r : RunAction K) (nPrimaries : Int) (_primaryEnergies : List K)
    (nTransmitted nAbsorbed : Int) (totalDeposit : K) : RunAction K :=
  { r with
    fTotalEvents := r.fTotalEvents + 1
    fTotalPrimariesGenerated := r.fTotalPrimariesGenerated + nPrimaries
    fTotalTransmitted := r.fTotalTransmitted + nTransmitted
    fTotalAbsorbed := r.fTotalAbsorbed + nAbsorbed
    fTotalEventsWithZeroGamma :=
      if nPrimaries = 0 then r.fTotalEventsWithZeroGamma + 1 else r.fTotalEventsWithZeroGamma
    fTotalWaterEventCount :=
      if totalDeposit > 0 then r.fTotalWaterEventCount + 1 else r.fTotalWaterEventCount }

end RunAction

/-- What `EndOfRunAction` computes for one ring (`src/RunAction.cc`, lines 445-477). -/
structure RingReport (K : Type) where
  dose_Gy : Option K
  doseRate_nGyPerH : Option K
  convergence : Option K
  doseRateError : Option K

/-- The quantities `EndOfRunAction` computes (`src/RunAction.cc`, lines 327-351, 383-403
and 442-484).  A ratio printed under a guard is `none` when the guard fails and
`some q` when the quotient is computed. -/
structure RunSummary (K : Type) where
  meanGammasPerEvent : Option K
  fractionZeroGamma : Option K
  transmissionRate : Option K
  absorptionRate : Option K
  solidAngleFraction : K
  N_4pi : Option K
  simulatedTime_s : Option K
  simulatedTime_min : Option K
  simulatedTime_h : Option K
  timePerEvent_ms : Option K
  filterTransmission : Option (Option K)
  waterReach : Option (Option K)
  transFilter : Option (Option K)
  transWater : Option (Option K)
  rings : Fin kNbWaterRings → RingReport K
  totalMass : K
  totalDose_Gy : Option K
  avgDose_Gy : Option K
  totalDoseRate_nGyPerH : Option K
  totalConvergence : Option K

/-- The ring indices in the order of the loop `for (i = 0; i < kNbWaterRings; ++i)`. -/
def ringIndices : List (Fin kNbWaterRings) := [0, 1, 2, 3, 4]

namespace RunAction

variable {K : Type} [LinearOrderedField K]

/-- A percentage `100.0 * num / den` of two counters, printed only when `den > 0`
(`src/RunAction.cc`, lines 383-390 and 397-404). -/
def guardedPercent (num den : Int) : Option (Option K) :=
  if den > 0 then some (fdiv (100 * (num : K)) (den : K)) else none

/-- The statistical error `100.0 / std::sqrt((G4double)count)` of a counter, `0` when the
counter is not positive (`src/RunAction.cc`, lines 462-463 and 483-484). -/
def convergenceOf (sqrt : K → K) (count : Int) : Option K :=
  if count > 0 then fdiv 100 (sqrt (count : K)) else some 0

/-- The dose of ring `i` in gray (`src/RunAction.cc`, lines 450-453). -/
def ringDose_Gy (gray : K) (r : RunAction K) (i : Fin kNbWaterRings) : Option K :=
  if r.fRingMasses i > 0 then
    (fdiv (r.fRingTotalEnergy i) (r.fRingMasses i)).bind fun q => fdiv q gray
  else some 0

/-- A dose rate in nGy/h from a dose and the irradiation time
(`src/RunAction.cc`, lines 456-459 and 481-482). -/
def doseRate_nGyPerH (dose simulatedTime_s : Option K) : Option K :=
  dose.bind fun d =>
    simulatedTime_s.bind fun t =>
      if t > 0 then (fdiv d t).map fun q => q * 3600 * 1000000000 else some 0

/-- The body of the ring loop of `EndOfRunAction` (`src/RunAction.cc`, lines 445-477). -/
def ringReport (sqrt : K → K) (gray : K) (r : RunAction K) (simulatedTime_s : Option K)
    (i : Fin kNbWaterRings) : RingReport K :=
  let dose_Gy := ringDose_Gy gray r i
  let rate := doseRate_nGyPerH dose_Gy simulatedTime_s
  let convergence := convergenceOf sqrt (r.fRingEventCount i)
  { dose_Gy := dose_Gy
    doseRate_nGyPerH := rate
    convergence := convergence
    doseRateError := rate.bind fun x => convergence.map fun c => x * c / 100 }

/-- The method `EndOfRunAction` (`src/RunAction.cc`, lines 313-638) with `nofEvents` the
number of events of the run: `none` is the early return on an empty run. -/
def EndOfRunAction (cos sqrt : K → K) (gray : K) (r : RunAction K) (nofEvents : Int) :
    Option (RunSummary K) :=
  if nofEvents = 0 then none
  else
    let solidAngleFraction := GetSolidAngleFraction cos r
    let simulatedTime_s := CalculateIrradiationTime cos r nofEvents
    let totalMass := ringIndices.foldl (fun acc i => acc + r.fRingMasses i) 0
    let totalDose_Gy : Option K :=
      ringIndices.foldl
        (fun acc i => acc.bind fun t =>
          (ringDose_Gy gray r i).map fun d => t + d * r.fRingMasses i)
        (some 0)
    let avgDose_Gy : Option K :=
      if totalMass > 0 then totalDose_Gy.bind fun t => fdiv t totalMass else some 0
    some
      { meanGammasPerEvent := fdiv (r.fTotalPrimariesGenerated : K) (nofEvents : K)
        fractionZeroGamma := fdiv (100 * (r.fTotalEventsWithZeroGamma : K)) (nofEvents : K)
        transmissionRate :=
          if r.fTotalPrimariesGenerated > 0 then
            fdiv (100 * (r.fTotalTransmitted : K)) (r.fTotalPrimariesGenerated : K)
          else some 0
        absorptionRate :=
          if r.fTotalPrimariesGenerated > 0 then
            fdiv (100 * (r.fTotalAbsorbed : K)) (r.fTotalPrimariesGenerated : K)
          else some 0
        solidAngleFraction := solidAngleFraction
        N_4pi := fdiv (nofEvents : K) solidAngleFraction
        simulatedTime_s := simulatedTime_s
        simulatedTime_min := simulatedTime_s.map fun t => t / 60
        simulatedTime_h := simulatedTime_s.map fun t => t / 3600
        timePerEvent_ms :=
          if nofEvents > 0 then simulatedTime_s.bind fun t => fdiv (t * 1000) (nofEvents : K)
          else some 0
        filterTransmission := guardedPercent r.fGammasExitingFilter r.fGammasEnteringFilter
        waterReach := guardedPercent r.fGammasEnteringWater r.fGammasExitingFilter
        transFilter := guardedPercent r.fGammasPostFilterPlane r.fGammasPreFilterPlane
        transWater := guardedPercent r.fGammasPostWaterPlane r.fGammasPreWaterPlane
        rings := ringReport sqrt gray r simulatedTime_s
        totalMass := totalMass
        totalDose_Gy := totalDose_Gy
        avgDose_Gy := avgDose_Gy
        totalDoseRate_nGyPerH := doseRate_nGyPerH avgDose_Gy simulatedTime_s
        totalConvergence := convergenceOf sqrt r.fTotalWaterEventCount }

end RunAction

/-- A primary particle of a `G4Event` as the event actions read it: PDG code, kinetic
energy and momentum direction. -/
structure G4PrimaryParticle (K : Type) where
  PDGcode : Int
  kineticEnergy : K
  momentumX : K
  momentumY : K
  momentumZ : K

/-- A `G4Event` as the event actions read it: its identifier and its primary vertices, each
with its particles in order (`GetPrimaryVertex(i)` is non-null for `i` below the count). -/
structure G4Event (K : Type) where
  eventID : Int
  primaryVertices : List (List (G4PrimaryParticle K))

/-- The struct `SecondaryParticleInfo` (`EventAction.hh`), the same in both variants. -/
structure SecondaryParticleInfo (K : Type) where
  trackID : Int
  parentID : Int
  pdgCode : Int
  energy : K
  creatorProcess : String

/-- Whether the first list of characters starts the second. -/
def startsWith : List Char → List Char → Bool
  | [], _ => true
  | _ :: _, [] => false
  | a :: as, b :: bs => a == b && startsWith as bs

/-- The test `hay.find(needle) != std::string::npos` on character lists. -/
def containsSubstring (needle : List Char) : List Char → Bool
  | [] => needle.isEmpty
  | c :: cs => startsWith needle (c :: cs) || containsSubstring needle cs

namespace Filtre5mmWPETG

/-- The number of gamma lines, `EventAction::kNbGammaLines`. -/
abbrev kNbGammaLines : Nat := 11

/-- The struct `EventAction::PrimaryGammaInfo` (`EventAction.hh`, lines 28-43). -/
structure PrimaryGammaInfo (K : Type) where
  trackID : Int
  energyInitial : K
  gammaLineIndex : Int
  energyUpstream : K
  energyDownstream : K
  theta : K
  phi : K
  detectedUpstream : Bool
  detectedDownstream : Bool
  transmitted : Bool
  absorbedInFilter : Bool
  absorbedInWater : Bool
  exitedFilter : Bool
  enteredWater : Bool

/-- The struct `PreContainerPlaneData` (`EventAction.hh`, lines 53-57). -/
structure PreContainerPlaneData (K : Type) where
  nPhotons : Int
  sumEPhotons : K

/-- The struct `PostContainerPlaneData` (`EventAction.hh`, lines 59-71). -/
structure PostContainerPlaneData (K : Type) where
  nPhotons_backward : Int
  sumEPhotons_backward : K
  nElectrons_backward : Int
  sumEElectrons_backward : K
  nElectrons_forward : Int
  sumEElectrons_forward : K

/-- The data members of `EventAction` (`EventAction.hh`, lines 108-122).  The map
`fTrackIDtoIndex` is its lookup function; the run action behind `fRunAction` is outside
the state and receives the calls listed by `EndOfEventAction`. -/
structure EventAction (K : Type) where
  fPrimaryGammas : List (PrimaryGammaInfo K)
  fSecondariesDownstream : List (SecondaryParticleInfo K)
  fTrackIDtoIndex : Int → Option Nat
  fRingEnergyDeposit : Fin kNbWaterRings → K
  fRingEnergyByLine : Fin kNbWaterRings → Fin kNbGammaLines → K
  fPreContainerData : PreContainerPlaneData K
  fPostContainerData : PostContainerPlaneData K
  fTransmissionTolerance : K
  fVerboseLevel : Int

/-- A call `EndOfEventAction` makes on the run action (of which this variant of the
repository holds only the call sites). -/
inductive RunActionCall (K : Type) where
  | RecordGammaLineStatistics (lineIndex : Int)
      (exitedFilter absorbedInFilter enteredWater absorbedInWater : Bool)
  | AddRingEnergy (ringIndex : Int) (edep : K)
  | AddRingEnergyByLine (ringIndex lineIndex : Int) (edep : K)
  | RecordEventStatistics (nPrimaries : Int) (primaryEnergies : List K)
      (nTransmitted nAbsorbed : Int) (totalDeposit : K)
      (ringEnergyDeposit : Fin kNbWaterRings → K)
  | RecordPreContainerPlaneData (data : PreContainerPlaneData K)
  | RecordPostContainerPlaneData (data : PostContainerPlaneData K)

/-- The gamma line indices in the order of the loop `for (j = 0; j < kNbGammaLines; ++j)`. -/
def lineIndices : List (Fin kNbGammaLines) := [0, 1, 2, 3, 4, 5, 6, 7, 8, 9, 10]

namespace EventAction

variable {K : Type} [LinearOrderedField K]

/-- The table `kGammaLineEnergies` (`EventAction.cc`, lines 10-13), in keV. -/
def kGammaLineEnergies : List K :=
  [12178 / 100, 24470 / 100, 34428 / 100, 41112 / 100, 44397 / 100, 77890 / 100,
   86738 / 100, 96408 / 100, 108587 / 100, 111207 / 100, 140801 / 100]

/-- The loop of `GetGammaLineIndex` from line `i` on. -/
def gammaLineLoop (keV energy : K) : List K → Int → Int
  | [], _ => -1
  | e :: es, i => if |energy - e * keV| < 1 / 2 * keV then i else gammaLineLoop keV energy es (i + 1)

/-- The static `GetGammaLineIndex` (`EventAction.cc`, lines 37-46). -/
def GetGammaLineIndex (keV energy : K) : Int :=
  gammaLineLoop keV energy kGammaLineEnergies 0

/-- The constructor `EventAction::EventAction` (`EventAction.cc`, lines 20-32); the
vectors and the map start empty. -/
def ctor : EventAction K where
  fPrimaryGammas := []
  fSecondariesDownstream := []
  fTrackIDtoIndex := fun _ => none
  fRingEnergyDeposit := fun _ => 0
  fRingEnergyByLine := fun _ _ => 0
  fPreContainerData := { nPhotons := 0, sumEPhotons := 0 }
  fPostContainerData :=
    { nPhotons_backward := 0, sumEPhotons_backward := 0, nElectrons_backward := 0,
      sumEElectrons_backward := 0, nElectrons_forward := 0, sumEElectrons_forward := 0 }
  fTransmissionTolerance := 1 / 100
  fVerboseLevel := 1

/-- The body of the particle loop of `BeginOfEventAction` (`EventAction.cc`,
lines 85-109): a gamma (PDG code 22) is appended to the table and entered in the map. -/
def registerPrimary (keV : K) (acos : K → K) (atan2 : K → K → K) (s : EventAction K)
    (primary : G4PrimaryParticle K) : EventAction K :=
  if primary.PDGcode = 22 then
    let info : PrimaryGammaInfo K :=
      { trackID := (s.fPrimaryGammas.length : Int) + 1
        energyInitial := primary.kineticEnergy
        gammaLineIndex := GetGammaLineIndex keV primary.kineticEnergy
        energyUpstream := 0
        energyDownstream := 0
        theta := acos primary.momentumZ
        phi := atan2 primary.momentumY primary.momentumX
        detectedUpstream := false
        detectedDownstream := false
        transmitted := false
        absorbedInFilter := false
        absorbedInWater := false
        exitedFilter := false
        enteredWater := false }
    { s with
      fTrackIDtoIndex :=
        Function.update s.fTrackIDtoIndex info.trackID (some s.fPrimaryGammas.length)
      fPrimaryGammas := s.fPrimaryGammas ++ [info] }
  else s

/-- The clearing part of `BeginOfEventAction` (`EventAction.cc`, lines 66-76). -/
def clearEvent (s : EventAction K) : EventAction K :=
  { s with
    fPrimaryGammas := []
    fSecondariesDownstream := []
    fTrackIDtoIndex := fun _ => none
    fRingEnergyDeposit := fun _ => 0
    fRingEnergyByLine := fun _ _ => 0
    fPreContainerData := { nPhotons := 0, sumEPhotons := 0 }
    fPostContainerData :=
      { nPhotons_backward := 0, sumEPhotons_backward := 0, nElectrons_backward := 0,
        sumEElectrons_backward := 0, nElectrons_forward := 0, sumEElectrons_forward := 0 } }

/-- The method `BeginOfEventAction` (`EventAction.cc`, lines 64-112). -/
def BeginOfEventAction (keV : K) (acos : K → K) (atan2 : K → K → K) (s : EventAction K)
    (event : G4Event K) : EventAction K :=
  event.primaryVertices.foldl
    (fun s1 vertex => vertex.foldl (registerPrimary keV acos atan2) s1) (clearEvent s)

/-- The pattern shared by the identity-keyed recording methods: `find` the track in
`fTrackIDtoIndex`; when found, rewrite `fPrimaryGammas[it->second]`.  The result is `none`
when that access is out of bounds. -/
def withPrimary (s : EventAction K) (trackID : Int)
    (f : PrimaryGammaInfo K → PrimaryGammaInfo K) : Option (EventAction K) :=
  match s.fTrackIDtoIndex trackID with
  | none => some s
  | some index =>
    match s.fPrimaryGammas[index]? with
    | none => none
    | some g => some { s with fPrimaryGammas := s.fPrimaryGammas.set index (f g) }

/-- The method `RecordPrimaryUpstream` (`EventAction.cc`, lines 200-207). -/
def RecordPrimaryUpstream (s : EventAction K) (trackID : Int) (energy : K) :
    Option (EventAction K) :=
  withPrimary s trackID fun g => { g with detectedUpstream := true, energyUpstream := energy }

/-- The method `RecordPrimaryDownstream` (`EventAction.cc`, lines 209-216). -/
def RecordPrimaryDownstream (s : EventAction K) (trackID : Int) (energy : K) :
    Option (EventAction K) :=
  withPrimary s trackID fun g =>
    { g with detectedDownstream := true, energyDownstream := energy }

/-- The method `RecordFilterExit` (`EventAction.cc`, lines 218-224). -/
def RecordFilterExit (s : EventAction K) (trackID : Int) (_energy : K) :
    Option (EventAction K) :=
  withPrimary s trackID fun g => { g with exitedFilter := true }

/-- The method `RecordWaterEntry` (`EventAction.cc`, lines 226-232). -/
def RecordWaterEntry (s : EventAction K) (trackID : Int) (_energy : K) :
    Option (EventAction K) :=
  withPrimary s trackID fun g => { g with enteredWater := true }

/-- The method `RecordGammaAbsorbed` (`EventAction.cc`, lines 234-244). -/
def RecordGammaAbsorbed (s : EventAction K) (trackID : Int) (volumeName : String) :
    Option (EventAction K) :=
  withPrimary s trackID fun g =>
    if containsSubstring "Filter".toList volumeName.toList then
      { g with absorbedInFilter := true }
    else if containsSubstring "Water".toList volumeName.toList then
      { g with absorbedInWater := true }
    else g

/-- The method `RecordSecondaryDownstream` (`EventAction.cc`, lines 246-257). -/
def RecordSecondaryDownstream (s : EventAction K) (trackID parentID pdgCode : Int)
    (energy : K) (process : String) : EventAction K :=
  { s with
    fSecondariesDownstream :=
      s.fSecondariesDownstream ++
        [{ trackID := trackID, parentID := parentID, pdgCode := pdgCode, energy := energy,
           creatorProcess := process }] }

/-- The method `AddRingEnergy` (`EventAction.cc`, lines 283-288). -/
def AddRingEnergy (s : EventAction K) (ringIndex : Int) (edep : K) : EventAction K :=
  match ringSlot ringIndex with
  | some i =>
    { s with
      fRingEnergyDeposit :=
        Function.update s.fRingEnergyDeposit i (s.fRingEnergyDeposit i + edep) }
  | none => s

/-- The method `GetNumberTransmitted` (`EventAction.cc`, lines 315-322). -/
def GetNumberTransmitted (s : EventAction K) : Int :=
  s.fPrimaryGammas.foldl (fun count gamma => if gamma.transmitted then count + 1 else count) 0

/-- The method `GetNumberAbsorbed` (`EventAction.cc`, lines 324-331). -/
def GetNumberAbsorbed (s : EventAction K) : Int :=
  s.fPrimaryGammas.foldl
    (fun count gamma => if !gamma.detectedDownstream then count + 1 else count) 0

/-- The method `IsPrimaryTrack` (`EventAction.cc`, lines 333-336). -/
def IsPrimaryTrack (s : EventAction K) (trackID : Int) : Bool :=
  (s.fTrackIDtoIndex trackID).isSome

/-- The body of the first loop of `EndOfEventAction` (`EventAction.cc`, lines 119-131):
the fate of one primary.  When `energyUpstream` is zero the quotient of the source is an
IEEE infinity or NaN, and the comparison holds exactly for a positive `energyDownstream`. -/
def finalizeGamma (fTransmissionTolerance : K) (gamma : PrimaryGammaInfo K) :
    PrimaryGammaInfo K :=
  let gamma1 : PrimaryGammaInfo K :=
    if gamma.detectedUpstream && gamma.detectedDownstream then
      { gamma with
        transmitted :=
          match fdiv gamma.energyDownstream gamma.energyUpstream with
          | some ratio => decide (ratio > 1 - fTransmissionTolerance)
          | none => decide (gamma.energyDownstream > 0) }
    else gamma
  if !gamma1.detectedDownstream then
    if gamma1.exitedFilter && !gamma1.enteredWater then gamma1
    else if !gamma1.exitedFilter then { gamma1 with absorbedInFilter := true }
    else if gamma1.enteredWater then { gamma1 with absorbedInWater := true }
    else gamma1
  else gamma1

/-- The ring loop of `EndOfEventAction` (`EventAction.cc`, lines 149-161): the calls made
for the rings with a positive deposit, and `totalDeposit`. -/
def ringCalls (s : EventAction K) : List (RunActionCall K) × K :=
  ringIndices.foldl
    (fun acc i =>
      if s.fRingEnergyDeposit i > 0 then
        (acc.1 ++ [RunActionCall.AddRingEnergy (i : Nat) (s.fRingEnergyDeposit i)] ++
            (lineIndices.filter fun j => decide (s.fRingEnergyByLine i j > 0)).map
              (fun j => RunActionCall.AddRingEnergyByLine (i : Nat) (j : Nat)
                (s.fRingEnergyByLine i j)),
          acc.2 + s.fRingEnergyDeposit i)
      else acc)
    ([], 0)

/-- The method `EndOfEventAction` (`EventAction.cc`, lines 114-198): the state with the
fates resolved, and the calls made on the run action, in order. -/
def EndOfEventAction (s : EventAction K) : EventAction K × List (RunActionCall K) :=
  let s1 : EventAction K :=
    { s with fPrimaryGammas := s.fPrimaryGammas.map (finalizeGamma s.fTransmissionTolerance) }
  let lineCalls : List (RunActionCall K) :=
    (s1.fPrimaryGammas.filter fun gamma => decide (gamma.gammaLineIndex ≥ 0)).map fun gamma =>
      RunActionCall.RecordGammaLineStatistics gamma.gammaLineIndex gamma.exitedFilter
        gamma.absorbedInFilter gamma.enteredWater gamma.absorbedInWater
  let rings := ringCalls s1
  (s1,
    lineCalls ++ rings.1 ++
      [RunActionCall.RecordEventStatistics (s1.fPrimaryGammas.length : Int)
          (s1.fPrimaryGammas.map fun gamma => gamma.energyInitial)
          (GetNumberTransmitted s1) (GetNumberAbsorbed s1) rings.2 s1.fRingEnergyDeposit,
        RunActionCall.RecordPreContainerPlaneData s1.fPreContainerData,
        RunActionCall.RecordPostContainerPlaneData s1.fPostContainerData])

end EventAction

end Filtre5mmWPETG

namespace PuitsCouronne23

/-- The struct `EventAction::PrimaryGammaInfo` of the absolute-tolerance variant
(`include/EventAction.hh`, lines 31-41). -/
structure PrimaryGammaInfo (K : Type) where
  trackID : Int
  energyInitial : K
  energyUpstream : K
  energyDownstream : K
  theta : K
  phi : K
  detectedUpstream : Bool
  detectedDownstream : Bool
  transmitted : Bool

/-- The data members of `EventAction` (`include/EventAction.hh`, lines 97-116); the run
action behind the pointer `fRunAction` is passed to `EndOfEventAction`. -/
structure EventAction (K : Type) where
  fPrimaryGammas : List (PrimaryGammaInfo K)
  fSecondariesDownstream : List (SecondaryParticleInfo K)
  fTrackIDtoIndex : Int → Option Nat
  fRingEnergyDeposit : Fin kNbWaterRings → K
  fTransmissionTolerance : K
  fVerboseLevel : Int

namespace EventAction

variable {K : Type} [LinearOrderedField K]

/-- The constructor `EventAction::EventAction` (`src/EventAction.cc`, lines 12-22). -/
def ctor (keV : K) : EventAction K where
  fPrimaryGammas := []
  fSecondariesDownstream := []
  fTrackIDtoIndex := fun _ => none
  fRingEnergyDeposit := fun _ => 0
  fTransmissionTolerance := 1 * keV
  fVerboseLevel := 1

/-- The body of the `while (primary)` loop of `BeginOfEventAction`
(`src/EventAction.cc`, lines 54-84); the second component is `expectedTrackID`. -/
def registerPrimary (acos : K → K) (atan2 : K → K → K) (acc : EventAction K × Int)
    (primary : G4PrimaryParticle K) : EventAction K × Int :=
  let s := acc.1
  let expectedTrackID := acc.2
  let info : PrimaryGammaInfo K :=
    { trackID := expectedTrackID
      energyInitial := primary.kineticEnergy
      energyUpstream := 0
      energyDownstream := 0
      theta := acos primary.momentumZ
      phi := atan2 primary.momentumY primary.momentumX
      detectedUpstream := false
      detectedDownstream := false
      transmitted := false }
  ({ s with
      fTrackIDtoIndex :=
        Function.update s.fTrackIDtoIndex expectedTrackID (some s.fPrimaryGammas.length)
      fPrimaryGammas := s.fPrimaryGammas ++ [info] },
    expectedTrackID + 1)

/-- The clearing part of `BeginOfEventAction` (`src/EventAction.cc`, lines 32-39). -/
def clearEvent (s : EventAction K) : EventAction K :=
  { s with
    fPrimaryGammas := []
    fSecondariesDownstream := []
    fTrackIDtoIndex := fun _ => none
    fRingEnergyDeposit := fun _ => 0 }

/-- The method `BeginOfEventAction` (`src/EventAction.cc`, lines 27-92). -/
def BeginOfEventAction (acos : K → K) (atan2 : K → K → K) (s : EventAction K)
    (event : G4Event K) : EventAction K :=
  (event.primaryVertices.foldl
    (fun acc vertex => vertex.foldl (registerPrimary acos atan2) acc) (clearEvent s, 1)).1

/-- The lookup shared by the recording methods: `find` the track in `fTrackIDtoIndex`;
when found, rewrite `fPrimaryGammas[index]`.  The result is `none` when that access is out
of bounds. -/
def withPrimary (s : EventAction K) (trackID : Int)
    (f : PrimaryGammaInfo K → PrimaryGammaInfo K) : Option (EventAction K) :=
  match s.fTrackIDtoIndex trackID with
  | none => some s
  | some index =>
    match s.fPrimaryGammas[index]? with
    | none => none
    | some g => some { s with fPrimaryGammas := s.fPrimaryGammas.set index (f g) }

/-- The method `RecordPrimaryUpstream` (`src/EventAction.cc`, lines 213-221). -/
def RecordPrimaryUpstream (s : EventAction K) (trackID : Int) (energy : K) :
    Option (EventAction K) :=
  withPrimary s trackID fun g => { g with energyUpstream := energy, detectedUpstream := true }

/-- The method `RecordPrimaryDownstream` (`src/EventAction.cc`, lines 223-236). -/
def RecordPrimaryDownstream (s : EventAction K) (trackID : Int) (energy : K) :
    Option (EventAction K) :=
  withPrimary s trackID fun g =>
    let g1 : PrimaryGammaInfo K := { g with energyDownstream := energy, detectedDownstream := true }
    if |g1.energyUpstream - energy| < s.fTransmissionTolerance then
      { g1 with transmitted := true }
    else g1

/-- The method `RecordSecondaryDownstream` (`src/EventAction.cc`, lines 238-250). -/
def RecordSecondaryDownstream (s : EventAction K) (trackID parentID pdgCode : Int)
    (energy : K) (process : String) : EventAction K :=
  { s with
    fSecondariesDownstream :=
      s.fSecondariesDownstream ++
        [{ trackID := trackID, parentID := parentID, pdgCode := pdgCode, energy := energy,
           creatorProcess := process }] }

/-- The method `AddRingEnergy` (`src/EventAction.cc`, lines 252-257). -/
def AddRingEnergy (s : EventAction K) (ringIndex : Int) (edep : K) : EventAction K :=
  match ringSlot ringIndex with
  | some i =>
    { s with
      fRingEnergyDeposit :=
        Function.update s.fRingEnergyDeposit i (s.fRingEnergyDeposit i + edep) }
  | none => s

/-- The method `GetTotalWaterEnergy` (`src/EventAction.cc`, lines 267-274). -/
def GetTotalWaterEnergy (s : EventAction K) : K :=
  ringIndices.foldl (fun total i => total + s.fRingEnergyDeposit i) 0

/-- The counters `nTransmitted`, `nAbsorbed` and `nScattered` of one primary in the loop
of `EndOfEventAction` (`src/EventAction.cc`, lines 113-119). -/
def classify (acc : Int × Int × Int) (g : PrimaryGammaInfo K) : Int × Int × Int :=
  if g.transmitted then (acc.1 + 1, acc.2.1, acc.2.2)
  else if g.detectedUpstream && g.detectedDownstream then (acc.1, acc.2.1, acc.2.2 + 1)
  else if g.detectedUpstream && !g.detectedDownstream then (acc.1, acc.2.1 + 1, acc.2.2)
  else acc

/-- The hand-over of `EndOfEventAction` to a run action (`src/EventAction.cc`,
lines 164-173): the statistics of the event, then the deposit of each ring that has one. -/
def handOver (s : EventAction K) (run : RunAction K) : RunAction K :=
  let counts := s.fPrimaryGammas.foldl classify (0, 0, 0)
  let run1 :=
    RunAction.RecordEventStatistics run (s.fPrimaryGammas.length : Int)
      (s.fPrimaryGammas.map fun g => g.energyInitial) counts.1 counts.2.1
      (GetTotalWaterEnergy s)
  ringIndices.foldl
    (fun acc i =>
      if s.fRingEnergyDeposit i > 0 then
        RunAction.AddRingEnergy acc (i : Nat) (s.fRingEnergyDeposit i)
      else acc)
    run1

/-- The method `EndOfEventAction` (`src/EventAction.cc`, lines 94-211) as it acts on the
run action: nothing is handed over when the pointer `fRunAction` is null. -/
def EndOfEventAction (s : EventAction K) (fRunAction : Option (RunAction K)) :
    Option (RunAction K) :=
  fRunAction.map (handOver s)

end EventAction

end PuitsCouronne23

/-- The numeric data members of `DetectorConstruction` (`src/DetectorConstruction.cc`,
lines 16-36); `fRingMasses` has `kNbWaterRings` entries. -/
structure DetectorConstruction (K : Type) where
  fFilterRadius : K
  fFilterThickness : K
  fFilterPosZ : K
  fContainerInnerRadius : K
  fContainerInnerHeight : K
  fContainerWallThickness : K
  fContainerPosZ : K
  fWaterThickness : K
  fRingWidth : K
  fRingMasses : Fin kNbWaterRings → K

namespace DetectorConstruction

variable {K : Type} [LinearOrderedField K]

/-- The constructor `DetectorConstruction::DetectorConstruction()`
(`src/DetectorConstruction.cc`, lines 16-36); `mm` and `cm` are the unit constants. -/
def ctor (mm cm : K) : DetectorConstruction K where
  fFilterRadius := 25 / 10 * cm
  fFilterThickness := 5 * mm
  fFilterPosZ := 4 * cm
  fContainerInnerRadius := 25 / 10 * cm
  fContainerInnerHeight := 7 * mm
  fContainerWallThickness := 2 * mm
  fContainerPosZ := 10 * cm
  fWaterThickness := 5 * mm
  fRingWidth := 5 * mm
  fRingMasses := fun _ => 0

/-- The static `GetRingInnerRadius` (`src/DetectorConstruction.cc`, lines 46-51):
`ringIndex * 5.0 * mm`. -/
def GetRingInnerRadius (mm : K) (ringIndex : Int) : K :=
  (ringIndex : K) * 5 * mm

/-- The static `GetRingOuterRadius` (`src/DetectorConstruction.cc`, lines 53-57):
`(ringIndex + 1) * 5.0 * mm`. -/
def GetRingOuterRadius (mm : K) (ringIndex : Int) : K :=
  ((ringIndex + 1 : Int) : K) * 5 * mm

/-- The mass of ring `i` as the ring loop of `Construct` computes it
(`src/DetectorConstruction.cc`, lines 368-369 and 398-399); `pi` is `M_PI`. -/
def ringMass (pi mm waterDensity : K) (d : DetectorConstruction K) (i : Fin kNbWaterRings) :
    K :=
  let rIn := GetRingInnerRadius mm ((i : Nat) : Int)
  let rOut := GetRingOuterRadius mm ((i : Nat) : Int)
  let ringVolume := pi * (rOut * rOut - rIn * rIn) * d.fWaterThickness
  ringVolume * waterDensity

/-- The part of `Construct` that fills `fRingMasses` and sums them into `totalWaterMass`
(`src/DetectorConstruction.cc`, lines 367-412); `waterDensity` is `fWater->GetDensity()`.
The volumes and placements handed to Geant4 are not modelled. -/
def Construct (pi mm waterDensity : K) (d : DetectorConstruction K) :
    DetectorConstruction K × K :=
  let d1 : DetectorConstruction K := { d with fRingMasses := ringMass pi mm waterDensity d }
  (d1, ringIndices.foldl (fun totalWaterMass i => totalWaterMass + d1.fRingMasses i) 0)

/-- The accessor `GetRingMass` (`include/DetectorConstruction.hh`). -/
def GetRingMass (d : DetectorConstruction K) (i : Fin kNbWaterRings) : K :=
  d.fRingMasses i

end DetectorConstruction

namespace PuitsCouronne23

/-- The data members of `PrimaryGeneratorAction` that `GeneratePrimaries` uses
(`src/PrimaryGeneratorAction.cc`, lines 14-57). -/
structure PrimaryGeneratorAction (K : Type) where
  fGammaEnergies : List K
  fGammaIntensities : List K
  fGammaProbabilities : List K
  fLastEventGammaCount : Int
  fConeAngle : K
  fSourcePosition : K × K × K

namespace PrimaryGeneratorAction

variable {K : Type} [LinearOrderedField K]

/-- The table `fGammaIntensities` of the constructor (`src/PrimaryGeneratorAction.cc`,
lines 43-46), in percent. -/
def intensities : List K :=
  [377 / 10, 208 / 10, 285 / 10, 76 / 10, 265 / 10, 22 / 10, 28 / 10, 129 / 10, 42 / 10,
   146 / 10, 136 / 10, 210 / 10]

/-- The constructor `PrimaryGeneratorAction::PrimaryGeneratorAction()`
(`src/PrimaryGeneratorAction.cc`, lines 14-57): the probabilities are the intensities
divided by 100. -/
def ctor (deg mm cm : K) : PrimaryGeneratorAction K where
  fGammaEnergies :=
    [4012 / 100, 3952 / 100, 12178 / 100, 24470 / 100, 34428 / 100, 41112 / 100,
     44396 / 100, 77890 / 100, 86738 / 100, 96408 / 100, 111207 / 100, 140801 / 100]
  fGammaIntensities := intensities
  fGammaProbabilities := intensities.map fun intensity => intensity / 100
  fLastEventGammaCount := 0
  fConeAngle := 60 * deg
  fSourcePosition := (0 * mm, 0 * mm, 2 * cm)

/-- The method `GenerateDirectionInCone` (`src/PrimaryGeneratorAction.cc`, lines 98-118);
`u1` and `u2` are the values of its two calls of `G4UniformRand()`, in order, and `pi` is
`M_PI`.  The result is `(theta, phi, direction)`. -/
def GenerateDirectionInCone (cos acos sin : K → K) (pi : K) (coneAngle u1 u2 : K) :
    K × K × (K × K × K) :=
  let cosTheta := 1 - u1 * (1 - cos coneAngle)
  let theta := acos cosTheta
  let phi := u2 * 2 * pi
  let sinTheta := sin theta
  let u_x := sinTheta * cos phi
  let u_y := sinTheta * sin phi
  let u_z := cosTheta
  (theta, phi, (u_x, u_y, u_z))

end PrimaryGeneratorAction

end PuitsCouronne23

namespace Filtre5mmWPETG

/-- A crossing of a reference plane reported by the stepping action: which plane, for
which track, at which energy. -/
inductive Crossing (K : Type) where
  | upstream (trackID : Int) (energy : K)
  | downstream (trackID : Int) (energy : K)

namespace EventAction

variable {K : Type} [LinearOrderedField K]

/-- The recording call made for one crossing. -/
def recordCrossing (s : EventAction K) : Crossing K → Option (EventAction K)
  | Crossing.upstream trackID energy => RecordPrimaryUpstream s trackID energy
  | Crossing.downstream trackID energy => RecordPrimaryDownstream s trackID energy

/-- The recording calls made for a sequence of crossings, in order. -/
def recordCrossings (s : EventAction K) : List (Crossing K) → Option (EventAction K)
  | [] => some s
  | c :: cs => (recordCrossing s c).bind fun s1 => recordCrossings s1 cs

end EventAction

end Filtre5mmWPETG

/-- What `EndOfEventAction` hands to the run action for one event
(`geant4_billes/23_12_2025/puits_couronne/src/EventAction.cc`, lines 164-173): the
arguments of `RecordEventStatistics` and the deposit of each ring. -/
structure EventReport (K : Type) where
  nPrimaries : Int
  primaryEnergies : List K
  nTransmitted : Int
  nAbsorbed : Int
  totalDeposit : K
  ringDeposit : Fin kNbWaterRings → K

namespace RunAction

variable {K : Type} [LinearOrderedField K]

/-- One step of the ring loop of the hand-over (`EventAction.cc`, lines 169-173). -/
def addRingDeposit (d : Fin kNbWaterRings → K) (acc : RunAction K)
    (i : Fin kNbWaterRings) : RunAction K :=
  if d i > 0 then AddRingEnergy acc (i : Nat) (d i) else acc

/-- The ingestion of one event report: `RecordEventStatistics`, then `AddRingEnergy` for
each ring with a positive deposit. -/
def ingest (r : RunAction K) (report : EventReport K) : RunAction K :=
  ringIndices.foldl (addRingDeposit report.ringDeposit)
    (RecordEventStatistics r report.nPrimaries report.primaryEnergies report.nTransmitted
      report.nAbsorbed report.totalDeposit)

end RunAction

namespace PuitsCouronne23

namespace EventAction

variable {K : Type} [LinearOrderedField K]

/-- The report of the event held by `s`, as `EndOfEventAction` computes it
(`src/EventAction.cc`, lines 97-136). -/
def report (s : EventAction K) : EventReport K where
  nPrimaries := (s.fPrimaryGammas.length : Int)
  primaryEnergies := s.fPrimaryGammas.map fun g => g.energyInitial
  nTransmitted := (s.fPrimaryGammas.foldl classify (0, 0, 0)).1
  nAbsorbed := (s.fPrimaryGammas.foldl classify (0, 0, 0)).2.1
  totalDeposit := GetTotalWaterEnergy s
  ringDeposit := s.fRingEnergyDeposit

/-- The step deposits of one event: `AddRingEnergy` called once per step, in order, with
the ring index and the deposit of the step. -/
def depositSteps (s : EventAction K) (steps : List (Int × K)) : EventAction K :=
  steps.foldl (fun a c => AddRingEnergy a c.1 c.2) s

/-- A run: the events are finalized one after the other through `EndOfEventAction` with
the run action registered. -/
def finalizeEvents (run : RunAction K) (events : List (EventAction K)) : RunAction K :=
  events.foldl (fun r s => handOver s r) run

end EventAction

end PuitsCouronne23

namespace PuitsCouronne23

namespace EventAction

variable {K : Type} [LinearOrderedField K]

/-- The recording call made for one crossing in the absolute-tolerance variant. -/
def recordCrossing (s : EventAction K) :
    Filtre5mmWPETG.Crossing K → Option (EventAction K)
  | Filtre5mmWPETG.Crossing.upstream trackID energy => RecordPrimaryUpstream s trackID energy
  | Filtre5mmWPETG.Crossing.downstream trackID energy =>
    RecordPrimaryDownstream s trackID energy

/-- The recording calls made for a sequence of crossings, in order. -/
def recordCrossings (s : EventAction K) :
    List (Filtre5mmWPETG.Crossing K) → Option (EventAction K)
  | [] => some s
  | c :: cs => (recordCrossing s c).bind fun s1 => recordCrossings s1 cs

end EventAction

end PuitsCouronne23

namespace Filtre5mmWPETG

/-- The C++ test `lineIndex >= 0 && lineIndex < kNbGammaLines` together with the array slot
it selects. -/
def lineSlot (lineIndex : Int) : Option (Fin kNbGammaLines) :=
  if h : 0 ≤ lineIndex ∧ lineIndex < (kNbGammaLines : Int) then
    some ⟨lineIndex.toNat, by omega⟩
  else none

/-- A call made on the tracker during its life: `BeginOfEventAction`, one of the recording
operations, or `EndOfEventAction`. -/
inductive TrackerCall (K : Type) where
  | beginOfEventAction (event : G4Event K)
  | recordPrimaryUpstream (trackID : Int) (energy : K)
  | recordPrimaryDownstream (trackID : Int) (energy : K)
  | recordFilterExit (trackID : Int) (energy : K)
  | recordWaterEntry (trackID : Int) (energy : K)
  | recordGammaAbsorbed (trackID : Int) (volumeName : String)
  | recordSecondaryDownstream (trackID parentID pdgCode : Int) (energy : K) (process : String)
  | recordPreContainerPhoton (energy : K)
  | recordPostContainerPhotonBackward (energy : K)
  | recordPostContainerElectronBackward (energy : K)
  | recordPostContainerElectronForward (energy : K)
  | addRingEnergy (ringIndex : Int) (edep : K)
  | addRingEnergyByLine (ringIndex lineIndex : Int) (edep : K)
  | endOfEventAction

namespace EventAction

variable {K : Type} [LinearOrderedField K]

/-- The method `RecordPreContainerPhoton` (`EventAction.cc`, lines 259-263). -/
def RecordPreContainerPhoton (s : EventAction K) (energy : K) : EventAction K :=
  { s with
    fPreContainerData :=
      { nPhotons := s.fPreContainerData.nPhotons + 1
        sumEPhotons := s.fPreContainerData.sumEPhotons + energy } }

/-- The method `RecordPostContainerPhotonBackward` (`EventAction.cc`, lines 265-269). -/
def RecordPostContainerPhotonBackward (s : EventAction K) (energy : K) : EventAction K :=
  { s with
    fPostContainerData :=
      { s.fPostContainerData with
        nPhotons_backward := s.fPostContainerData.nPhotons_backward + 1
        sumEPhotons_backward := s.fPostContainerData.sumEPhotons_backward + energy } }

/-- The method `RecordPostContainerElectronBackward` (`EventAction.cc`, lines 271-275). -/
def RecordPostContainerElectronBackward (s : EventAction K) (energy : K) : EventAction K :=
  { s with
    fPostContainerData :=
      { s.fPostContainerData with
        nElectrons_backward := s.fPostContainerData.nElectrons_backward + 1
        sumEElectrons_backward := s.fPostContainerData.sumEElectrons_backward + energy } }

/-- The method `RecordPostContainerElectronForward` (`EventAction.cc`, lines 277-281). -/
def RecordPostContainerElectronForward (s : EventAction K) (energy : K) : EventAction K :=
  { s with
    fPostContainerData :=
      { s.fPostContainerData with
        nElectrons_forward := s.fPostContainerData.nElectrons_forward + 1
        sumEElectrons_forward := s.fPostContainerData.sumEElectrons_forward + energy } }

/-- The method `AddRingEnergyByLine` (`EventAction.cc`, lines 290-296). -/
def AddRingEnergyByLine (s : EventAction K) (ringIndex lineIndex : Int) (edep : K) :
    EventAction K :=
  match ringSlot ringIndex, lineSlot lineIndex with
  | some i, some j =>
    { s with
      fRingEnergyByLine :=
        Function.update s.fRingEnergyByLine i
          (Function.update (s.fRingEnergyByLine i) j (s.fRingEnergyByLine i j + edep)) }
  | _, _ => s

/-- The method `GetGammaLineForTrack` (`EventAction.cc`, lines 338-345); `none` when
`fPrimaryGammas[it->second]` is out of bounds. -/
def GetGammaLineForTrack (s : EventAction K) (trackID : Int) : Option Int :=
  match s.fTrackIDtoIndex trackID with
  | none => some (-1)
  | some index => (s.fPrimaryGammas[index]?).map fun g => g.gammaLineIndex

/-- One call on the tracker; `none` when an access to `fPrimaryGammas` is out of bounds.
Of `EndOfEventAction` the state it leaves is kept. -/
def call (keV : K) (acos : K → K) (atan2 : K → K → K) (s : EventAction K) :
    TrackerCall K → Option (EventAction K)
  | TrackerCall.beginOfEventAction event => some (BeginOfEventAction keV acos atan2 s event)
  | TrackerCall.recordPrimaryUpstream trackID energy => RecordPrimaryUpstream s trackID energy
  | TrackerCall.recordPrimaryDownstream trackID energy =>
    RecordPrimaryDownstream s trackID energy
  | TrackerCall.recordFilterExit trackID energy => RecordFilterExit s trackID energy
  | TrackerCall.recordWaterEntry trackID energy => RecordWaterEntry s trackID energy
  | TrackerCall.recordGammaAbsorbed trackID volumeName =>
    RecordGammaAbsorbed s trackID volumeName
  | TrackerCall.recordSecondaryDownstream trackID parentID pdgCode energy process =>
    some (RecordSecondaryDownstream s trackID parentID pdgCode energy process)
  | TrackerCall.recordPreContainerPhoton energy => some (RecordPreContainerPhoton s energy)
  | TrackerCall.recordPostContainerPhotonBackward energy =>
    some (RecordPostContainerPhotonBackward s energy)
  | TrackerCall.recordPostContainerElectronBackward energy =>
    some (RecordPostContainerElectronBackward s energy)
  | TrackerCall.recordPostContainerElectronForward energy =>
    some (RecordPostContainerElectronForward s energy)
  | TrackerCall.addRingEnergy ringIndex edep => some (AddRingEnergy s ringIndex edep)
  | TrackerCall.addRingEnergyByLine ringIndex lineIndex edep =>
    some (AddRingEnergyByLine s ringIndex lineIndex edep)
  | TrackerCall.endOfEventAction => some (EndOfEventAction s).1

/-- A sequence of calls on the tracker, in order. -/
def calls (keV : K) (acos : K → K) (atan2 : K → K → K) (s : EventAction K) :
    List (TrackerCall K) → Option (EventAction K)
  | [] => some s
  | c :: cs => (call keV acos atan2 s c).bind fun s1 => calls keV acos atan2 s1 cs

end EventAction

end Filtre5mmWPETG

/-! ## Concrete inputs -/

namespace Examples

/-- A primary of the relative-tolerance tracker whose two crossings were recorded with the
given energies, before finalization. -/
def crossedGamma (energyUpstream energyDownstream : ℚ) : Filtre5mmWPETG.PrimaryGammaInfo ℚ where
  trackID := 1
  energyInitial := energyUpstream
  gammaLineIndex := -1
  energyUpstream := energyUpstream
  energyDownstream := energyDownstream
  theta := 0
  phi := 0
  detectedUpstream := true
  detectedDownstream := true
  transmitted := false
  absorbedInFilter := false
  absorbedInWater := false
  exitedFilter := true
  enteredWater := true

/-- A tracker of the relative-tolerance variant (tolerance 0.01) holding that one primary. -/
def crossedEvent (energyUpstream energyDownstream : ℚ) : Filtre5mmWPETG.EventAction ℚ :=
  { (Filtre5mmWPETG.EventAction.ctor : Filtre5mmWPETG.EventAction ℚ) with
    fPrimaryGammas := [crossedGamma energyUpstream energyDownstream]
    fTrackIDtoIndex := Function.update (fun _ => none) 1 (some 0) }

/-- A run accumulator after `BeginOfRunAction` with rings of mass 2 and one deposit of 3 in
ring 1. -/
def sampleRun : RunAction ℚ :=
  RunAction.AddRingEnergy
    (RunAction.BeginOfRunAction (RunAction.ctor (1 / 57) 10) (some fun _ => 2)) 1 3

/-- The arguments, other than `nPrimaries = 0`, of three calls of `RecordEventStatistics`. -/
def threeEmptyEvents : List (List ℚ × Int × Int × ℚ) :=
  [([], 0, 0, 0), ([], 0, 0, 0), ([], 0, 0, 0)]

/-- An event with one vertex carrying two gammas (121.78 keV and 344.28 keV, in MeV). -/
def twoGammaEvent : G4Event ℚ where
  eventID := 0
  primaryVertices :=
    [[{ PDGcode := 22, kineticEnergy := 12178 / 100000, momentumX := 0, momentumY := 0,
        momentumZ := 1 },
      { PDGcode := 22, kineticEnergy := 34428 / 100000, momentumX := 0, momentumY := 0,
        momentumZ := 1 }]]

/-- A primary of the relative-tolerance tracker seen upstream only: it never exited the
filter, never entered the water, and carries no absorption label yet. -/
def lostGamma : Filtre5mmWPETG.PrimaryGammaInfo ℚ where
  trackID := 1
  energyInitial := 122
  gammaLineIndex := 0
  energyUpstream := 122
  energyDownstream := 0
  theta := 0
  phi := 0
  detectedUpstream := true
  detectedDownstream := false
  transmitted := false
  absorbedInFilter := false
  absorbedInWater := false
  exitedFilter := false
  enteredWater := false

/-- A tracker of the relative-tolerance variant holding that one primary. -/
def lostEvent : Filtre5mmWPETG.EventAction ℚ :=
  { (Filtre5mmWPETG.EventAction.ctor : Filtre5mmWPETG.EventAction ℚ) with
    fPrimaryGammas := [lostGamma]
    fTrackIDtoIndex := Function.update (fun _ => none) 1 (some 0) }

/-- Track 1 crosses upstream at 50 and again at 60, then downstream at 59. -/
def crossingsInOrder : List (Filtre5mmWPETG.Crossing ℚ) :=
  [Filtre5mmWPETG.Crossing.upstream 1 50, Filtre5mmWPETG.Crossing.upstream 1 60,
   Filtre5mmWPETG.Crossing.downstream 1 59]

/-- Track 1 reported downstream at 59 first, then upstream at 60 only. -/
def crossingsSwapped : List (Filtre5mmWPETG.Crossing ℚ) :=
  [Filtre5mmWPETG.Crossing.downstream 1 59, Filtre5mmWPETG.Crossing.upstream 1 60]

/-- The accumulator `sampleRun` over any carrier: rings of mass 2 and one deposit of 3 in
ring 1 after `BeginOfRunAction`. -/
def ringRun {K : Type} [LinearOrderedField K] : RunAction K :=
  RunAction.AddRingEnergy
    (RunAction.BeginOfRunAction (RunAction.ctor (1 / 57) 10) (some fun _ => 2)) 1 3

/-- The report of an event with two primaries, one transmitted, and 3 deposited in ring 1. -/
def reportA : EventReport ℚ where
  nPrimaries := 2
  primaryEnergies := [100, 200]
  nTransmitted := 1
  nAbsorbed := 0
  totalDeposit := 3
  ringDeposit := fun i => if i = 1 then 3 else 0

/-- The report of an event without primaries, with 2 in ring 1 and 5 in ring 4. -/
def reportB : EventReport ℚ where
  nPrimaries := 0
  primaryEnergies := []
  nTransmitted := 0
  nAbsorbed := 0
  totalDeposit := 7
  ringDeposit := fun i => if i = 1 then 2 else if i = 4 then 5 else 0

/-- The steps of one event: 3 and 2 in ring 1, and 1 for a ring index that does not exist. -/
def depositList : List (Int × ℚ) := [(1, 3), (1, 2), (7, 1)]

/-- The tracker after these steps, from a cleared state. -/
def depositEvent : PuitsCouronne23.EventAction ℚ :=
  PuitsCouronne23.EventAction.depositSteps
    (PuitsCouronne23.EventAction.clearEvent (PuitsCouronne23.EventAction.ctor 1)) depositList

/-- An event with one vertex carrying one gamma of energy 100. -/
def oneGammaEvent : G4Event ℚ where
  eventID := 0
  primaryVertices :=
    [[{ PDGcode := 22, kineticEnergy := 100, momentumX := 0, momentumY := 0, momentumZ := 1 }]]

/-- The tracker of the absolute-tolerance variant (tolerance 1) at the beginning of that
event; the angles of the primary are not computed. -/
def oneGammaTracker : PuitsCouronne23.EventAction ℚ :=
  PuitsCouronne23.EventAction.BeginOfEventAction (fun _ => 0) (fun _ _ => 0)
    (PuitsCouronne23.EventAction.ctor 1) oneGammaEvent

/-- What is read of a record of the absolute-tolerance variant: the two detection flags,
the two energies and the flag `transmitted`. -/
def crossingSummary (g : PuitsCouronne23.PrimaryGammaInfo ℚ) : Bool × Bool × ℚ × ℚ × Bool :=
  (g.detectedUpstream, g.detectedDownstream, g.energyUpstream, g.energyDownstream,
    g.transmitted)

end Examples

/-! ## Specification predicates -/

/-- The table and the identity map of a relative-tolerance tracker are those freshly built
for the gammas `gs`: entry `k` is the untouched record of `gs[k]` with track `k + 1`, and the
map sends exactly the tracks `1..n` to `0..n-1`. -/
def Filtre5mmWPETG.Registered {K : Type} [Zero K] (st : Filtre5mmWPETG.EventAction K)
    (gs : List (G4PrimaryParticle K)) : Prop :=
  st.fPrimaryGammas.length = gs.length ∧
  (∀ (k : Nat) (p : G4PrimaryParticle K), gs[k]? = some p →
    ∃ g, st.fPrimaryGammas[k]? = some g ∧ g.trackID = (k : Int) + 1 ∧
      g.energyInitial = p.kineticEnergy ∧ g.energyUpstream = 0 ∧ g.energyDownstream = 0 ∧
      g.detectedUpstream = false ∧ g.detectedDownstream = false ∧ g.transmitted = false ∧
      g.absorbedInFilter = false ∧ g.absorbedInWater = false ∧ g.exitedFilter = false ∧
      g.enteredWater = false) ∧
  (∀ k : Int, st.fTrackIDtoIndex k =
    if 1 ≤ k ∧ k ≤ (gs.length : Int) then some (k - 1).toNat else none)

/-- The table and the identity map of an absolute-tolerance tracker are those freshly built
for the primaries `gs`. -/
def PuitsCouronne23.Registered {K : Type} [Zero K] (st : PuitsCouronne23.EventAction K)
    (gs : List (G4PrimaryParticle K)) : Prop :=
  st.fPrimaryGammas.length = gs.length ∧
  (∀ (k : Nat) (p : G4PrimaryParticle K), gs[k]? = some p →
    ∃ g, st.fPrimaryGammas[k]? = some g ∧ g.trackID = (k : Int) + 1 ∧
      g.energyInitial = p.kineticEnergy ∧ g.energyUpstream = 0 ∧ g.energyDownstream = 0 ∧
      g.detectedUpstream = false ∧ g.detectedDownstream = false ∧ g.transmitted = false) ∧
  (∀ k : Int, st.fTrackIDtoIndex k =
    if 1 ≤ k ∧ k ≤ (gs.length : Int) then some (k - 1).toNat else none)

/-- Every entry `(trackID, index)` of the identity map of a relative-tolerance tracker
points at a record of the table, and that record carries `trackID`. -/
def Filtre5mmWPETG.TableConsistent {K : Type} (s : Filtre5mmWPETG.EventAction K) : Prop :=
  ∀ (k : Int) (i : Nat), s.fTrackIDtoIndex k = some i →
    ∃ g, s.fPrimaryGammas[i]? = some g ∧ g.trackID = k

/-- The energy of the last upstream crossing reported for `trackID`, if there is one. -/
def Filtre5mmWPETG.lastUpstream {K : Type} (trackID : Int) :
    List (Filtre5mmWPETG.Crossing K) → Option K
  | [] => none
  | c :: cs =>
    match Filtre5mmWPETG.lastUpstream trackID cs with
    | some e => some e
    | none =>
      match c with
      | Filtre5mmWPETG.Crossing.upstream t e => if t = trackID then some e else none
      | Filtre5mmWPETG.Crossing.downstream _ _ => none

/-- The energy of the last downstream crossing reported for `trackID`, if there is one. -/
def Filtre5mmWPETG.lastDownstream {K : Type} (trackID : Int) :
    List (Filtre5mmWPETG.Crossing K) → Option K
  | [] => none
  | c :: cs =>
    match Filtre5mmWPETG.lastDownstream trackID cs with
    | some e => some e
    | none =>
      match c with
      | Filtre5mmWPETG.Crossing.upstream _ _ => none
      | Filtre5mmWPETG.Crossing.downstream t e => if t = trackID then some e else none

/-- The record `g` with the last crossings written in: a plane that reported a crossing is
detected with the last energy reported; a plane that reported none is as in `g`. -/
def Filtre5mmWPETG.withLastCrossings {K : Type} (g : Filtre5mmWPETG.PrimaryGammaInfo K)
    (up down : Option K) : Filtre5mmWPETG.PrimaryGammaInfo K :=
  { g with
    detectedUpstream := g.detectedUpstream || up.isSome
    energyUpstream := up.getD g.energyUpstream
    detectedDownstream := g.detectedDownstream || down.isSome
    energyDownstream := down.getD g.energyDownstream }

/-- The ring deposits held by the tracker `s` are those of an event whose recorded step
deposits are not negative: they result from `AddRingEnergy` calls with such deposits, made
after the clearing of `BeginOfEventAction`. -/
def PuitsCouronne23.NonNegativeSteps {K : Type} [LinearOrderedField K]
    (s : PuitsCouronne23.EventAction K) : Prop :=
  ∃ (s0 : PuitsCouronne23.EventAction K) (steps : List (Int × K)),
    (∀ c ∈ steps, 0 ≤ c.2) ∧
    s.fRingEnergyDeposit =
      (PuitsCouronne23.EventAction.depositSteps
        (PuitsCouronne23.EventAction.clearEvent s0) steps).fRingEnergyDeposit

/-- The track a crossing is reported for. -/
def Filtre5mmWPETG.Crossing.track {K : Type} : Filtre5mmWPETG.Crossing K → Int
  | Filtre5mmWPETG.Crossing.upstream trackID _ => trackID
  | Filtre5mmWPETG.Crossing.downstream trackID _ => trackID

/-- Whether a crossing is a crossing of the downstream plane. -/
def Filtre5mmWPETG.Crossing.isDownstream {K : Type} : Filtre5mmWPETG.Crossing K → Bool
  | Filtre5mmWPETG.Crossing.upstream _ _ => false
  | Filtre5mmWPETG.Crossing.downstream _ _ => true

/-- What the recording call for a crossing writes in the record it finds, in the
absolute-tolerance variant with tolerance `tolerance`. -/
def PuitsCouronne23.crossingEffect {K : Type} [LinearOrderedField K] (tolerance : K) :
    Filtre5mmWPETG.Crossing K → PuitsCouronne23.PrimaryGammaInfo K →
      PuitsCouronne23.PrimaryGammaInfo K
  | Filtre5mmWPETG.Crossing.upstream _ energy, g =>
    { g with energyUpstream := energy, detectedUpstream := true }
  | Filtre5mmWPETG.Crossing.downstream _ energy, g =>
    let g1 : PuitsCouronne23.PrimaryGammaInfo K :=
      { g with energyDownstream := energy, detectedDownstream := true }
    if |g1.energyUpstream - energy| < tolerance then { g1 with transmitted := true } else g1

/-- A primary flagged transmitted has been detected downstream, for every record of the
table. -/
def Filtre5mmWPETG.TransmittedDetected {K : Type} (s : Filtre5mmWPETG.EventAction K) : Prop :=
  ∀ g ∈ s.fPrimaryGammas, g.transmitted = true → g.detectedDownstream = true

/-- The integer `n` is a value of a `G4int` (32 bits, signed). -/
def InG4intRange (n : Int) : Prop :=
  -(2 ^ 31) ≤ n ∧ n < 2 ^ 31

/-! ## Theorems -/

section Lemmas

variable {K : Type} [LinearOrderedField K]

theorem fdiv_of_ne_zero (a : K) {b : K} (hb : b ≠ 0) : fdiv a b = some (a / b) := by
  simp [fdiv, hb]

theorem RunAction.CalculateIrradiationTime_of_pos (cos : K → K) (r : RunAction K) (n : Int)
    (hf : 0 < RunAction.GetSolidAngleFraction cos r) (hA : 0 < r.fActivity4pi) :
    RunAction.CalculateIrradiationTime cos r n =
      some ((n : K) / (RunAction.GetSolidAngleFraction cos r * r.fActivity4pi)) := by
  have hne : RunAction.GetSolidAngleFraction cos r * r.fActivity4pi ≠ 0 :=
    (mul_pos hf hA).ne.symm
  simp only [RunAction.CalculateIrradiationTime]
  rw [if_neg (by simp [not_or, hf, hA]), fdiv_of_ne_zero _ hne]

theorem RunAction.CalculateIrradiationTime_of_not_pos (cos : K → K) (r : RunAction K)
    (n : Int) (h : ¬ (0 < RunAction.GetSolidAngleFraction cos r ∧ 0 < r.fActivity4pi)) :
    RunAction.CalculateIrradiationTime cos r n = some 0 := by
  simp only [RunAction.CalculateIrradiationTime]
  rw [if_pos]
  by_contra hc
  simp only [not_or, not_le] at hc
  exact h hc

theorem RunAction.doseRate_nGyPerH_eq (cos : K → K) (r : RunAction K) (d : K) (n : Int) :
    RunAction.doseRate_nGyPerH (some d) (RunAction.CalculateIrradiationTime cos r n) =
      (RunAction.CalculateDoseRate cos r d n).map fun q => q * 3600 * 1000000000 := by
  unfold RunAction.doseRate_nGyPerH RunAction.CalculateDoseRate
  cases RunAction.CalculateIrradiationTime cos r n with
  | none => rfl
  | some t =>
    by_cases ht : t > 0
    · simp [ht, not_le.mpr ht]
    · simp [ht, not_lt.mp ht]

theorem RunAction.ringDose_Gy_eq (gray : K) (hgray : gray ≠ 0) (r : RunAction K)
    (i : Fin kNbWaterRings) :
    RunAction.ringDose_Gy gray r i =
      some (if r.fRingMasses i > 0 then r.fRingTotalEnergy i / r.fRingMasses i / gray else 0) := by
  unfold RunAction.ringDose_Gy
  by_cases hm : r.fRingMasses i > 0
  · simp [hm, fdiv_of_ne_zero _ hm.ne.symm, fdiv_of_ne_zero _ hgray]
  · simp [hm]

theorem ringSlot_coe (j : Fin kNbWaterRings) : ringSlot ((j : Nat) : Int) = some j := by
  have h : 0 ≤ ((j : Nat) : Int) ∧ ((j : Nat) : Int) < (kNbWaterRings : Int) := by
    have := j.isLt
    omega
  simp [ringSlot, h]

theorem ringSlot_eq_none {ringIndex : Int} (h : ringIndex < 0 ∨ (kNbWaterRings : Int) ≤ ringIndex) :
    ringSlot ringIndex = none := by
  have hn : ¬ (0 ≤ ringIndex ∧ ringIndex < (kNbWaterRings : Int)) := by omega
  unfold ringSlot
  rw [dif_neg hn]

theorem mem_ringIndices (i : Fin kNbWaterRings) : i ∈ ringIndices := by
  revert i
  decide

theorem nodup_ringIndices : ringIndices.Nodup := by
  decide

theorem ringSlot_eq_some {ringIndex : Int} {i : Fin kNbWaterRings}
    (h : ringSlot ringIndex = some i) : ((i : Nat) : Int) = ringIndex := by
  unfold ringSlot at h
  split at h
  · rename_i hr
    have hi : i = ⟨ringIndex.toNat, by omega⟩ := (Option.some.inj h).symm
    rw [hi]
    simp only []
    omega
  · exact absurd h (by simp)

/-- The ring loop of the hand-over, started from any accumulator: ring `i` receives its
deposit exactly when that deposit is positive and `i` is among the rings visited. -/
theorem RunAction.foldl_AddRingEnergy (d : Fin kNbWaterRings → K)
    (l : List (Fin kNbWaterRings)) (hl : l.Nodup) (acc : RunAction K)
    (i : Fin kNbWaterRings) :
    let out := l.foldl
      (fun a j => if d j > 0 then RunAction.AddRingEnergy a ((j : Nat) : Int) (d j) else a) acc
    out.fRingTotalEnergy i =
        (if i ∈ l ∧ d i > 0 then acc.fRingTotalEnergy i + d i else acc.fRingTotalEnergy i) ∧
    out.fRingTotalEnergy2 i =
        (if i ∈ l ∧ d i > 0 then acc.fRingTotalEnergy2 i + d i * d i
          else acc.fRingTotalEnergy2 i) ∧
    out.fRingEventCount i =
        (if i ∈ l ∧ d i > 0 then acc.fRingEventCount i + 1 else acc.fRingEventCount i) := by
  induction l generalizing acc with
  | nil => simp
  | cons j l ih =>
    have hj : j ∉ l := (List.nodup_cons.mp hl).1
    have hl1 : l.Nodup := (List.nodup_cons.mp hl).2
    simp only [List.foldl_cons]
    have h := ih hl1 (if d j > 0 then RunAction.AddRingEnergy acc ((j : Nat) : Int) (d j) else acc)
    simp only at h
    obtain ⟨h1, h2, h3⟩ := h
    rw [h1, h2, h3]
    by_cases hij : i = j
    · subst hij
      by_cases hd : d i > 0
      · simp [hj, hd, RunAction.AddRingEnergy, ringSlot_coe]
      · simp [hj, hd]
    · by_cases hd : d j > 0
      · simp [hij, hd, RunAction.AddRingEnergy, ringSlot_coe, Function.update_noteq hij]
      · simp [hij, hd]

/-- Events without primaries recorded one after the other from any accumulator. -/
theorem RunAction.foldl_RecordEventStatistics_zero (calls : List (List K × Int × Int × K))
    (acc : RunAction K) :
    let out := calls.foldl
      (fun r c => RunAction.RecordEventStatistics r 0 c.1 c.2.1 c.2.2.1 c.2.2.2) acc
    out.fTotalEventsWithZeroGamma = acc.fTotalEventsWithZeroGamma + (calls.length : Int) ∧
    out.fTotalEvents = acc.fTotalEvents + (calls.length : Int) ∧
    out.fTotalPrimariesGenerated = acc.fTotalPrimariesGenerated := by
  induction calls generalizing acc with
  | nil => simp
  | cons c calls ih =>
    have h := ih (RunAction.RecordEventStatistics acc 0 c.1 c.2.1 c.2.2.1 c.2.2.2)
    simp only at h
    obtain ⟨h1, h2, h3⟩ := h
    simp only [List.foldl_cons, List.length_cons, Nat.cast_add, Nat.cast_one]
    rw [h1, h2, h3]
    simp only [RunAction.RecordEventStatistics, if_true, add_zero]
    refine ⟨?_, ?_, trivial⟩ <;> ring

/-- The identity map after one more registration. -/
theorem update_identity_map (m : Int → Option Nat) (n : Nat)
    (hm : ∀ k : Int, m k = if 1 ≤ k ∧ k ≤ (n : Int) then some (k - 1).toNat else none)
    (k : Int) :
    Function.update m ((n : Int) + 1) (some n) k =
      if 1 ≤ k ∧ k ≤ ((n + 1 : Nat) : Int) then some (k - 1).toNat else none := by
  by_cases hk : k = (n : Int) + 1
  · subst hk
    have h1 : 1 ≤ (n : Int) + 1 ∧ (n : Int) + 1 ≤ ((n + 1 : Nat) : Int) := by
      constructor
      · omega
      · push_cast
        omega
    rw [Function.update_same, if_pos h1]
    congr 1
    omega
  · rw [Function.update_noteq hk, hm k]
    by_cases h1 : 1 ≤ k ∧ k ≤ (n : Int)
    · have h2 : 1 ≤ k ∧ k ≤ ((n + 1 : Nat) : Int) := by
        push_cast
        omega
      rw [if_pos h1, if_pos h2]
    · have h2 : ¬ (1 ≤ k ∧ k ≤ ((n + 1 : Nat) : Int)) := by
        push_cast
        omega
      rw [if_neg h1, if_neg h2]

theorem Filtre5mmWPETG.EventAction.registerPrimary_of_not_gamma (keV : K) (acos : K → K)
    (atan2 : K → K → K) (st : Filtre5mmWPETG.EventAction K) (p : G4PrimaryParticle K)
    (hp : p.PDGcode ≠ 22) :
    Filtre5mmWPETG.EventAction.registerPrimary keV acos atan2 st p = st := by
  simp [Filtre5mmWPETG.EventAction.registerPrimary, hp]

theorem Filtre5mmWPETG.EventAction.registered_registerPrimary (keV : K) (acos : K → K)
    (atan2 : K → K → K) (st : Filtre5mmWPETG.EventAction K) (gs : List (G4PrimaryParticle K))
    (p : G4PrimaryParticle K) (hp : p.PDGcode = 22) (h : Filtre5mmWPETG.Registered st gs) :
    Filtre5mmWPETG.Registered
      (Filtre5mmWPETG.EventAction.registerPrimary keV acos atan2 st p) (gs ++ [p]) := by
  obtain ⟨hlen, hent, hmap⟩ := h
  refine ⟨?_, ?_, ?_⟩
  · simp [Filtre5mmWPETG.EventAction.registerPrimary, hp, hlen]
  · intro k q hq
    simp only [Filtre5mmWPETG.EventAction.registerPrimary, if_pos hp]
    by_cases hk : k < gs.length
    · rw [List.getElem?_append_left hk] at hq
      rw [List.getElem?_append_left (by rw [hlen]; exact hk)]
      exact hent k q hq
    · have hk1 : gs.length ≤ k := not_lt.mp hk
      rw [List.getElem?_append_right hk1] at hq
      rw [List.getElem?_append_right (by rw [hlen]; exact hk1), hlen]
      cases hd : k - gs.length with
      | zero =>
        rw [hd] at hq
        have hqp : p = q := by simpa using hq
        subst hqp
        have hkeq : k = gs.length := by omega
        refine ⟨_, rfl, ?_, rfl, rfl, rfl, rfl, rfl, rfl, rfl, rfl, rfl, rfl⟩
        simp [hlen, hkeq]
      | succ d =>
        rw [hd] at hq
        simp at hq
  · intro k
    simp only [Filtre5mmWPETG.EventAction.registerPrimary, if_pos hp, List.length_append,
      List.length_singleton, hlen]
    exact update_identity_map st.fTrackIDtoIndex gs.length hmap k

theorem Filtre5mmWPETG.EventAction.registered_foldl (keV : K) (acos : K → K)
    (atan2 : K → K → K) (ps : List (G4PrimaryParticle K)) (st : Filtre5mmWPETG.EventAction K)
    (gs : List (G4PrimaryParticle K)) (h : Filtre5mmWPETG.Registered st gs) :
    Filtre5mmWPETG.Registered
      (ps.foldl (Filtre5mmWPETG.EventAction.registerPrimary keV acos atan2) st)
      (gs ++ ps.filter fun p => decide (p.PDGcode = 22)) := by
  induction ps generalizing st gs with
  | nil => simpa using h
  | cons p ps ih =>
    simp only [List.foldl_cons]
    by_cases hp : p.PDGcode = 22
    · have h1 := ih _ _
        (Filtre5mmWPETG.EventAction.registered_registerPrimary keV acos atan2 st gs p hp h)
      simpa [List.filter_cons, hp] using h1
    · rw [Filtre5mmWPETG.EventAction.registerPrimary_of_not_gamma keV acos atan2 st p hp]
      simpa [List.filter_cons, hp] using ih st gs h

theorem Filtre5mmWPETG.EventAction.registered_vertices (keV : K) (acos : K → K)
    (atan2 : K → K → K) (vs : List (List (G4PrimaryParticle K)))
    (st : Filtre5mmWPETG.EventAction K) (gs : List (G4PrimaryParticle K))
    (h : Filtre5mmWPETG.Registered st gs) :
    Filtre5mmWPETG.Registered
      (vs.foldl
        (fun s1 vertex => vertex.foldl (Filtre5mmWPETG.EventAction.registerPrimary keV acos atan2) s1)
        st)
      (gs ++ vs.flatten.filter fun p => decide (p.PDGcode = 22)) := by
  induction vs generalizing st gs with
  | nil => simpa using h
  | cons v vs ih =>
    simp only [List.foldl_cons, List.flatten_cons, List.filter_append]
    rw [← List.append_assoc]
    exact ih _ _ (Filtre5mmWPETG.EventAction.registered_foldl keV acos atan2 v st gs h)

/-- Registration touches the table and the identity map only. -/
theorem Filtre5mmWPETG.EventAction.frame_vertices (keV : K) (acos : K → K)
    (atan2 : K → K → K) (vs : List (List (G4PrimaryParticle K)))
    (st : Filtre5mmWPETG.EventAction K) :
    ∃ table map,
      vs.foldl
        (fun s1 vertex => vertex.foldl (Filtre5mmWPETG.EventAction.registerPrimary keV acos atan2) s1)
        st = { st with fPrimaryGammas := table, fTrackIDtoIndex := map } := by
  have hstep : ∀ (ps : List (G4PrimaryParticle K)) (st1 : Filtre5mmWPETG.EventAction K),
      ∃ table map, ps.foldl (Filtre5mmWPETG.EventAction.registerPrimary keV acos atan2) st1 =
        { st1 with fPrimaryGammas := table, fTrackIDtoIndex := map } := by
    intro ps
    induction ps with
    | nil => exact fun st1 => ⟨st1.fPrimaryGammas, st1.fTrackIDtoIndex, rfl⟩
    | cons p ps ih =>
      intro st1
      simp only [List.foldl_cons]
      obtain ⟨table, map, h⟩ := ih (Filtre5mmWPETG.EventAction.registerPrimary keV acos atan2 st1 p)
      refine ⟨table, map, ?_⟩
      rw [h]
      unfold Filtre5mmWPETG.EventAction.registerPrimary
      split <;> rfl
  induction vs generalizing st with
  | nil => exact ⟨st.fPrimaryGammas, st.fTrackIDtoIndex, rfl⟩
  | cons v vs ih =>
    simp only [List.foldl_cons]
    obtain ⟨table1, map1, h1⟩ := hstep v st
    obtain ⟨table, map, h⟩ :=
      ih (v.foldl (Filtre5mmWPETG.EventAction.registerPrimary keV acos atan2) st)
    refine ⟨table, map, ?_⟩
    rw [h, h1]

/-- Registration reads the prior state through the table and the identity map only. -/
theorem Filtre5mmWPETG.EventAction.agree_vertices (keV : K) (acos : K → K)
    (atan2 : K → K → K) (vs : List (List (G4PrimaryParticle K)))
    (st1 st2 : Filtre5mmWPETG.EventAction K)
    (h : st1.fPrimaryGammas = st2.fPrimaryGammas ∧ st1.fTrackIDtoIndex = st2.fTrackIDtoIndex) :
    (vs.foldl
      (fun s1 vertex => vertex.foldl (Filtre5mmWPETG.EventAction.registerPrimary keV acos atan2) s1)
      st1).fPrimaryGammas =
    (vs.foldl
      (fun s1 vertex => vertex.foldl (Filtre5mmWPETG.EventAction.registerPrimary keV acos atan2) s1)
      st2).fPrimaryGammas ∧
    (vs.foldl
      (fun s1 vertex => vertex.foldl (Filtre5mmWPETG.EventAction.registerPrimary keV acos atan2) s1)
      st1).fTrackIDtoIndex =
    (vs.foldl
      (fun s1 vertex => vertex.foldl (Filtre5mmWPETG.EventAction.registerPrimary keV acos atan2) s1)
      st2).fTrackIDtoIndex := by
  have hstep : ∀ (ps : List (G4PrimaryParticle K)) (a b : Filtre5mmWPETG.EventAction K),
      (a.fPrimaryGammas = b.fPrimaryGammas ∧ a.fTrackIDtoIndex = b.fTrackIDtoIndex) →
      ((ps.foldl (Filtre5mmWPETG.EventAction.registerPrimary keV acos atan2) a).fPrimaryGammas =
        (ps.foldl (Filtre5mmWPETG.EventAction.registerPrimary keV acos atan2) b).fPrimaryGammas ∧
      (ps.foldl (Filtre5mmWPETG.EventAction.registerPrimary keV acos atan2) a).fTrackIDtoIndex =
        (ps.foldl (Filtre5mmWPETG.EventAction.registerPrimary keV acos atan2) b).fTrackIDtoIndex) := by
    intro ps
    induction ps with
    | nil => exact fun a b hab => hab
    | cons p ps ih =>
      intro a b hab
      simp only [List.foldl_cons]
      apply ih
      unfold Filtre5mmWPETG.EventAction.registerPrimary
      split
      · simp [hab.1, hab.2]
      · exact hab
  induction vs generalizing st1 st2 with
  | nil => exact h
  | cons v vs ih =>
    simp only [List.foldl_cons]
    exact ih _ _ (hstep v st1 st2 h)

theorem PuitsCouronne23.EventAction.registered_step_absolute (acos : K → K)
    (atan2 : K → K → K) (acc : PuitsCouronne23.EventAction K × Int)
    (gs : List (G4PrimaryParticle K)) (p : G4PrimaryParticle K)
    (h : PuitsCouronne23.Registered acc.1 gs ∧ acc.2 = (gs.length : Int) + 1) :
    PuitsCouronne23.Registered
        (PuitsCouronne23.EventAction.registerPrimary acos atan2 acc p).1 (gs ++ [p]) ∧
      (PuitsCouronne23.EventAction.registerPrimary acos atan2 acc p).2 =
        ((gs ++ [p]).length : Int) + 1 := by
  obtain ⟨⟨hlen, hent, hmap⟩, hid⟩ := h
  refine ⟨⟨?_, ?_, ?_⟩, ?_⟩
  · simp [PuitsCouronne23.EventAction.registerPrimary, hlen]
  · intro k q hq
    simp only [PuitsCouronne23.EventAction.registerPrimary]
    by_cases hk : k < gs.length
    · rw [List.getElem?_append_left hk] at hq
      rw [List.getElem?_append_left (by rw [hlen]; exact hk)]
      exact hent k q hq
    · have hk1 : gs.length ≤ k := not_lt.mp hk
      rw [List.getElem?_append_right hk1] at hq
      rw [List.getElem?_append_right (by rw [hlen]; exact hk1), hlen]
      cases hd : k - gs.length with
      | zero =>
        rw [hd] at hq
        have hqp : p = q := by simpa using hq
        subst hqp
        have hkeq : k = gs.length := by omega
        refine ⟨_, rfl, ?_, rfl, rfl, rfl, rfl, rfl, rfl⟩
        simp [hid, hkeq]
      | succ d =>
        rw [hd] at hq
        simp at hq
  · intro k
    simp only [PuitsCouronne23.EventAction.registerPrimary, List.length_append,
      List.length_singleton, hlen, hid]
    exact update_identity_map acc.1.fTrackIDtoIndex gs.length hmap k
  · simp only [PuitsCouronne23.EventAction.registerPrimary, hid, List.length_append,
      List.length_singleton]
    push_cast
    ring

theorem PuitsCouronne23.EventAction.registered_vertices_absolute (acos : K → K) (atan2 : K → K → K)
    (vs : List (List (G4PrimaryParticle K))) (acc : PuitsCouronne23.EventAction K × Int)
    (gs : List (G4PrimaryParticle K))
    (h : PuitsCouronne23.Registered acc.1 gs ∧ acc.2 = (gs.length : Int) + 1) :
    PuitsCouronne23.Registered
      (vs.foldl
        (fun a vertex => vertex.foldl (PuitsCouronne23.EventAction.registerPrimary acos atan2) a)
        acc).1
      (gs ++ vs.flatten) := by
  have hstep : ∀ (ps : List (G4PrimaryParticle K)) (a : PuitsCouronne23.EventAction K × Int)
      (g1 : List (G4PrimaryParticle K)),
      (PuitsCouronne23.Registered a.1 g1 ∧ a.2 = (g1.length : Int) + 1) →
      (PuitsCouronne23.Registered
          (ps.foldl (PuitsCouronne23.EventAction.registerPrimary acos atan2) a).1 (g1 ++ ps) ∧
        (ps.foldl (PuitsCouronne23.EventAction.registerPrimary acos atan2) a).2 =
          ((g1 ++ ps).length : Int) + 1) := by
    intro ps
    induction ps with
    | nil =>
      intro a g1 ha
      simpa using ha
    | cons p ps ih =>
      intro a g1 ha
      simp only [List.foldl_cons]
      have h1 := ih _ _
        (PuitsCouronne23.EventAction.registered_step_absolute acos atan2 a g1 p ha)
      simpa using h1
  have hall : ∀ (ws : List (List (G4PrimaryParticle K)))
      (a : PuitsCouronne23.EventAction K × Int) (g1 : List (G4PrimaryParticle K)),
      (PuitsCouronne23.Registered a.1 g1 ∧ a.2 = (g1.length : Int) + 1) →
      (PuitsCouronne23.Registered
          (ws.foldl
            (fun a1 vertex =>
              vertex.foldl (PuitsCouronne23.EventAction.registerPrimary acos atan2) a1) a).1
          (g1 ++ ws.flatten) ∧
        (ws.foldl
            (fun a1 vertex =>
              vertex.foldl (PuitsCouronne23.EventAction.registerPrimary acos atan2) a1) a).2 =
          ((g1 ++ ws.flatten).length : Int) + 1) := by
    intro ws
    induction ws with
    | nil =>
      intro a g1 ha
      simpa using ha
    | cons v ws ih =>
      intro a g1 ha
      simp only [List.foldl_cons, List.flatten_cons]
      rw [← List.append_assoc]
      exact ih _ _ (hstep v a g1 ha)
  exact (hall vs acc gs h).1

/-- Registration in the absolute-tolerance tracker touches the table and the identity map
only, and reads the prior state through them and the next track number only. -/
theorem PuitsCouronne23.EventAction.frame_vertices_absolute (acos : K → K) (atan2 : K → K → K)
    (vs : List (List (G4PrimaryParticle K))) (st1 st2 : PuitsCouronne23.EventAction K)
    (n : Int)
    (h : st1.fPrimaryGammas = st2.fPrimaryGammas ∧ st1.fTrackIDtoIndex = st2.fTrackIDtoIndex) :
    ∃ table map next,
      vs.foldl
          (fun a vertex => vertex.foldl (PuitsCouronne23.EventAction.registerPrimary acos atan2) a)
          (st1, n) =
        ({ st1 with fPrimaryGammas := table, fTrackIDtoIndex := map }, next) ∧
      vs.foldl
          (fun a vertex => vertex.foldl (PuitsCouronne23.EventAction.registerPrimary acos atan2) a)
          (st2, n) =
        ({ st2 with fPrimaryGammas := table, fTrackIDtoIndex := map }, next) := by
  have hstep : ∀ (ps : List (G4PrimaryParticle K)) (a b : PuitsCouronne23.EventAction K)
      (m : Int) (table : List (PuitsCouronne23.PrimaryGammaInfo K)) (map : Int → Option Nat),
      ∃ table1 map1 next,
        ps.foldl (PuitsCouronne23.EventAction.registerPrimary acos atan2)
            ({ a with fPrimaryGammas := table, fTrackIDtoIndex := map }, m) =
          ({ a with fPrimaryGammas := table1, fTrackIDtoIndex := map1 }, next) ∧
        ps.foldl (PuitsCouronne23.EventAction.registerPrimary acos atan2)
            ({ b with fPrimaryGammas := table, fTrackIDtoIndex := map }, m) =
          ({ b with fPrimaryGammas := table1, fTrackIDtoIndex := map1 }, next) := by
    intro ps
    induction ps with
    | nil => exact fun a b m table map => ⟨table, map, m, rfl, rfl⟩
    | cons p ps ih =>
      intro a b m table map
      simp only [List.foldl_cons]
      exact ih a b _ _ _
  have hall : ∀ (ws : List (List (G4PrimaryParticle K))) (a b : PuitsCouronne23.EventAction K)
      (m : Int) (table : List (PuitsCouronne23.PrimaryGammaInfo K)) (map : Int → Option Nat),
      ∃ table1 map1 next,
        ws.foldl
            (fun a1 vertex =>
              vertex.foldl (PuitsCouronne23.EventAction.registerPrimary acos atan2) a1)
            ({ a with fPrimaryGammas := table, fTrackIDtoIndex := map }, m) =
          ({ a with fPrimaryGammas := table1, fTrackIDtoIndex := map1 }, next) ∧
        ws.foldl
            (fun a1 vertex =>
              vertex.foldl (PuitsCouronne23.EventAction.registerPrimary acos atan2) a1)
            ({ b with fPrimaryGammas := table, fTrackIDtoIndex := map }, m) =
          ({ b with fPrimaryGammas := table1, fTrackIDtoIndex := map1 }, next) := by
    intro ws
    induction ws with
    | nil => exact fun a b m table map => ⟨table, map, m, rfl, rfl⟩
    | cons v ws ih =>
      intro a b m table map
      simp only [List.foldl_cons]
      obtain ⟨table1, map1, next1, h1, h2⟩ := hstep v a b m table map
      rw [h1, h2]
      exact ih a b _ _ _
  obtain ⟨table, map, next, h1, h2⟩ :=
    hall vs st1 st2 n st1.fPrimaryGammas st1.fTrackIDtoIndex
  refine ⟨table, map, next, h1, ?_⟩
  rw [h.1, h.2] at h2
  exact h2

theorem Filtre5mmWPETG.EventAction.finalizeGamma_of_crossed (tolerance : K)
    (g : Filtre5mmWPETG.PrimaryGammaInfo K) (hup : g.detectedUpstream = true)
    (hdown : g.detectedDownstream = true) (hne : g.energyUpstream ≠ 0) :
    Filtre5mmWPETG.EventAction.finalizeGamma tolerance g =
      { g with
        transmitted := decide (g.energyDownstream / g.energyUpstream > 1 - tolerance) } := by
  simp [Filtre5mmWPETG.EventAction.finalizeGamma, hup, hdown, fdiv_of_ne_zero _ hne]

/-- The ring loop of `EndOfEventAction` only issues ring calls. -/
theorem Filtre5mmWPETG.EventAction.ringCalls_no_statistics (s : Filtre5mmWPETG.EventAction K)
    (c : Filtre5mmWPETG.RunActionCall K) (hc : c ∈ (Filtre5mmWPETG.EventAction.ringCalls s).1) :
    (∃ i e, c = Filtre5mmWPETG.RunActionCall.AddRingEnergy i e) ∨
      ∃ i j e, c = Filtre5mmWPETG.RunActionCall.AddRingEnergyByLine i j e := by
  have hfold : ∀ (l : List (Fin kNbWaterRings))
      (acc : List (Filtre5mmWPETG.RunActionCall K) × K),
      (∀ c ∈ acc.1, (∃ i e, c = Filtre5mmWPETG.RunActionCall.AddRingEnergy i e) ∨
        ∃ i j e, c = Filtre5mmWPETG.RunActionCall.AddRingEnergyByLine i j e) →
      ∀ c ∈ (l.foldl
          (fun acc i =>
            if s.fRingEnergyDeposit i > 0 then
              (acc.1 ++ [Filtre5mmWPETG.RunActionCall.AddRingEnergy (i : Nat)
                  (s.fRingEnergyDeposit i)] ++
                (Filtre5mmWPETG.lineIndices.filter
                  fun j => decide (s.fRingEnergyByLine i j > 0)).map
                  (fun j => Filtre5mmWPETG.RunActionCall.AddRingEnergyByLine (i : Nat) (j : Nat)
                    (s.fRingEnergyByLine i j)),
                acc.2 + s.fRingEnergyDeposit i)
            else acc) acc).1,
        (∃ i e, c = Filtre5mmWPETG.RunActionCall.AddRingEnergy i e) ∨
          ∃ i j e, c = Filtre5mmWPETG.RunActionCall.AddRingEnergyByLine i j e := by
    intro l
    induction l with
    | nil => exact fun acc hacc => hacc
    | cons i l ih =>
      intro acc hacc
      simp only [List.foldl_cons]
      apply ih
      split
      · intro c hc
        simp only [List.mem_append, List.mem_singleton, List.mem_map] at hc
        rcases hc with (hc | hc) | ⟨j, -, hc⟩
        · exact hacc c hc
        · exact Or.inl ⟨_, _, hc⟩
        · exact Or.inr ⟨_, _, _, hc.symm⟩
      · exact hacc
  exact hfold ringIndices ([], 0) (by simp) c hc

/-- The inline dose rate of `EndOfRunAction` is always computed, and is zero for a zero
dose. -/
theorem RunAction.doseRate_nGyPerH_some (cos : K → K) (r : RunAction K) (d : K) (n : Int) :
    ∃ rate, RunAction.doseRate_nGyPerH (some d) (RunAction.CalculateIrradiationTime cos r n) =
        some rate ∧ (d = 0 → rate = 0) := by
  have hT : ∃ t, RunAction.CalculateIrradiationTime cos r n = some t := by
    by_cases h : 0 < RunAction.GetSolidAngleFraction cos r ∧ 0 < r.fActivity4pi
    · exact ⟨_, RunAction.CalculateIrradiationTime_of_pos cos r n h.1 h.2⟩
    · exact ⟨_, RunAction.CalculateIrradiationTime_of_not_pos cos r n h⟩
  obtain ⟨t, ht⟩ := hT
  rw [ht]
  by_cases hpos : t > 0
  · refine ⟨d / t * 3600 * 1000000000, ?_, ?_⟩
    · simp [RunAction.doseRate_nGyPerH, hpos, fdiv_of_ne_zero _ hpos.ne.symm]
    · intro hd
      rw [hd]
      simp
  · exact ⟨0, by simp [RunAction.doseRate_nGyPerH, hpos], fun _ => rfl⟩

end Lemmas

section PlainLemmas

variable {K : Type}

theorem Filtre5mmWPETG.EventAction.withPrimary_of_none (s : Filtre5mmWPETG.EventAction K)
    (trackID : Int) (f : Filtre5mmWPETG.PrimaryGammaInfo K → Filtre5mmWPETG.PrimaryGammaInfo K)
    (h : s.fTrackIDtoIndex trackID = none) :
    Filtre5mmWPETG.EventAction.withPrimary s trackID f = some s := by
  simp [Filtre5mmWPETG.EventAction.withPrimary, h]

/-- One identity-keyed update on a consistent tracker: it succeeds, keeps the tracker
consistent, and rewrites the record of the track it names and no other. -/
theorem Filtre5mmWPETG.EventAction.withPrimary_consistent (s : Filtre5mmWPETG.EventAction K)
    (t : Int) (f : Filtre5mmWPETG.PrimaryGammaInfo K → Filtre5mmWPETG.PrimaryGammaInfo K)
    (hf : ∀ g, (f g).trackID = g.trackID) (hwf : Filtre5mmWPETG.TableConsistent s) :
    ∃ s1, Filtre5mmWPETG.EventAction.withPrimary s t f = some s1 ∧
      Filtre5mmWPETG.TableConsistent s1 ∧ s1.fTrackIDtoIndex = s.fTrackIDtoIndex ∧
      s1.fTransmissionTolerance = s.fTransmissionTolerance ∧
      ∀ (trackID : Int) (index : Nat) (g : Filtre5mmWPETG.PrimaryGammaInfo K),
        s.fTrackIDtoIndex trackID = some index → s.fPrimaryGammas[index]? = some g →
        s1.fPrimaryGammas[index]? = some (if t = trackID then f g else g) := by
  cases hmap : s.fTrackIDtoIndex t with
  | none =>
    refine ⟨s, by simp [Filtre5mmWPETG.EventAction.withPrimary, hmap], hwf, rfl, rfl, ?_⟩
    intro trackID index g hid hg
    have hne : t ≠ trackID := by
      intro hc
      rw [hc, hid] at hmap
      exact absurd hmap (by simp)
    rw [if_neg hne]
    exact hg
  | some j =>
    obtain ⟨gj, hgj, htj⟩ := hwf t j hmap
    have hjlt : j < s.fPrimaryGammas.length := by
      rcases List.getElem?_eq_some_iff.mp hgj with ⟨h, -⟩
      exact h
    refine ⟨{ s with fPrimaryGammas := s.fPrimaryGammas.set j (f gj) }, ?_, ?_, rfl, rfl, ?_⟩
    · simp [Filtre5mmWPETG.EventAction.withPrimary, hmap, hgj]
    · intro k i hk
      obtain ⟨gi, hgi, hti⟩ := hwf k i hk
      by_cases hij : j = i
      · subst hij
        have hgg : gi = gj := by
          rw [hgj] at hgi
          exact (Option.some.inj hgi).symm
        refine ⟨f gj, ?_, ?_⟩
        · show (s.fPrimaryGammas.set j (f gj))[j]? = some (f gj)
          rw [List.getElem?_set_self hjlt]
        · rw [hf gj, ← hgg, hti]
      · refine ⟨gi, ?_, hti⟩
        show (s.fPrimaryGammas.set j (f gj))[i]? = some gi
        rw [List.getElem?_set_ne hij]
        exact hgi
    · intro trackID index g hid hg
      show (s.fPrimaryGammas.set j (f gj))[index]? = some (if t = trackID then f g else g)
      by_cases ht : t = trackID
      · subst ht
        rw [hid] at hmap
        have hji : index = j := Option.some.inj hmap
        subst hji
        have hgg : g = gj := by
          rw [hgj] at hg
          exact (Option.some.inj hg).symm
        rw [if_pos rfl, List.getElem?_set_self hjlt, hgg]
      · have hji : j ≠ index := by
          intro hc
          subst hc
          apply ht
          have hgg : g = gj := by
            rw [hgj] at hg
            exact (Option.some.inj hg).symm
          obtain ⟨g0, hg0, ht0⟩ := hwf trackID j hid
          have hg0j : g0 = gj := by
            rw [hgj] at hg0
            exact (Option.some.inj hg0).symm
          rw [← htj, ← ht0, hg0j]
        rw [if_neg ht, List.getElem?_set_ne hji]
        exact hg

/-- A sequence of crossings recorded on a consistent tracker: every call succeeds, and the
record of a registered track ends with its last crossings written in. -/
theorem Filtre5mmWPETG.EventAction.recordCrossings_consistent
    (cs : List (Filtre5mmWPETG.Crossing K)) (s : Filtre5mmWPETG.EventAction K)
    (hwf : Filtre5mmWPETG.TableConsistent s) (trackID : Int) (index : Nat)
    (g : Filtre5mmWPETG.PrimaryGammaInfo K) (hid : s.fTrackIDtoIndex trackID = some index)
    (hg : s.fPrimaryGammas[index]? = some g) :
    ∃ s1, Filtre5mmWPETG.EventAction.recordCrossings s cs = some s1 ∧
      s1.fTransmissionTolerance = s.fTransmissionTolerance ∧
      s1.fPrimaryGammas[index]? =
        some (Filtre5mmWPETG.withLastCrossings g (Filtre5mmWPETG.lastUpstream trackID cs)
          (Filtre5mmWPETG.lastDownstream trackID cs)) := by
  induction cs generalizing s g with
  | nil =>
    refine ⟨s, rfl, rfl, ?_⟩
    rw [hg]
    cases g
    simp [Filtre5mmWPETG.withLastCrossings, Filtre5mmWPETG.lastUpstream,
      Filtre5mmWPETG.lastDownstream]
  | cons c cs ih =>
    cases c with
    | upstream t e =>
      obtain ⟨s1, h1, hwf1, hmap1, htol1, hrec1⟩ :=
        Filtre5mmWPETG.EventAction.withPrimary_consistent s t
          (fun g => { g with detectedUpstream := true, energyUpstream := e })
          (fun _ => rfl) hwf
      obtain ⟨s2, h2, htol2, hrec2⟩ := ih s1 hwf1 _ (by rw [hmap1]; exact hid)
        (hrec1 trackID index g hid hg)
      refine ⟨s2, ?_, by rw [htol2, htol1], ?_⟩
      · simp only [Filtre5mmWPETG.EventAction.recordCrossings,
          Filtre5mmWPETG.EventAction.recordCrossing,
          Filtre5mmWPETG.EventAction.RecordPrimaryUpstream, h1, Option.some_bind]
        exact h2
      · rw [hrec2]
        congr 1
        cases g
        by_cases ht : t = trackID
        · cases hu : Filtre5mmWPETG.lastUpstream trackID cs <;>
            cases hd : Filtre5mmWPETG.lastDownstream trackID cs <;>
            simp [Filtre5mmWPETG.withLastCrossings, Filtre5mmWPETG.lastUpstream,
              Filtre5mmWPETG.lastDownstream, ht, hu, hd]
        · cases hu : Filtre5mmWPETG.lastUpstream trackID cs <;>
            cases hd : Filtre5mmWPETG.lastDownstream trackID cs <;>
            simp [Filtre5mmWPETG.withLastCrossings, Filtre5mmWPETG.lastUpstream,
              Filtre5mmWPETG.lastDownstream, ht, hu, hd]
    | downstream t e =>
      obtain ⟨s1, h1, hwf1, hmap1, htol1, hrec1⟩ :=
        Filtre5mmWPETG.EventAction.withPrimary_consistent s t
          (fun g => { g with detectedDownstream := true, energyDownstream := e })
          (fun _ => rfl) hwf
      obtain ⟨s2, h2, htol2, hrec2⟩ := ih s1 hwf1 _ (by rw [hmap1]; exact hid)
        (hrec1 trackID index g hid hg)
      refine ⟨s2, ?_, by rw [htol2, htol1], ?_⟩
      · simp only [Filtre5mmWPETG.EventAction.recordCrossings,
          Filtre5mmWPETG.EventAction.recordCrossing,
          Filtre5mmWPETG.EventAction.RecordPrimaryDownstream, h1, Option.some_bind]
        exact h2
      · rw [hrec2]
        congr 1
        cases g
        by_cases ht : t = trackID
        · cases hu : Filtre5mmWPETG.lastUpstream trackID cs <;>
            cases hd : Filtre5mmWPETG.lastDownstream trackID cs <;>
            simp [Filtre5mmWPETG.withLastCrossings, Filtre5mmWPETG.lastUpstream,
              Filtre5mmWPETG.lastDownstream, ht, hu, hd]
        · cases hu : Filtre5mmWPETG.lastUpstream trackID cs <;>
            cases hd : Filtre5mmWPETG.lastDownstream trackID cs <;>
            simp [Filtre5mmWPETG.withLastCrossings, Filtre5mmWPETG.lastUpstream,
              Filtre5mmWPETG.lastDownstream, ht, hu, hd]

/-- A freshly registered table is consistent with its identity map. -/
theorem Filtre5mmWPETG.tableConsistent_of_registered [Zero K]
    (s : Filtre5mmWPETG.EventAction K) (gs : List (G4PrimaryParticle K))
    (h : Filtre5mmWPETG.Registered s gs) : Filtre5mmWPETG.TableConsistent s := by
  obtain ⟨hlen, hent, hmap⟩ := h
  intro k i hk
  rw [hmap k] at hk
  by_cases hr : 1 ≤ k ∧ k ≤ (gs.length : Int)
  · rw [if_pos hr] at hk
    have hi : i = (k - 1).toNat := (Option.some.inj hk).symm
    have hlt : i < gs.length := by omega
    obtain ⟨g, hg, ht, -⟩ := hent i (gs.get ⟨i, hlt⟩) (List.getElem?_eq_getElem hlt)
    refine ⟨g, hg, ?_⟩
    rw [ht]
    omega
  · rw [if_neg hr] at hk
    exact absurd hk (by simp)

/-- What a recording method of the absolute-tolerance variant does to a state whose map
entries are within bounds: it returns, keeps the map, the tolerance and the size of the
table, and rewrites the record of the track when the track is known. -/
theorem PuitsCouronne23.EventAction.withPrimary_effect (s : PuitsCouronne23.EventAction K)
    (trackID : Int) (f : PuitsCouronne23.PrimaryGammaInfo K → PuitsCouronne23.PrimaryGammaInfo K)
    (hb : ∀ (k : Int) (i : Nat), s.fTrackIDtoIndex k = some i → i < s.fPrimaryGammas.length) :
    ∃ out, PuitsCouronne23.EventAction.withPrimary s trackID f = some out ∧
      out.fTrackIDtoIndex = s.fTrackIDtoIndex ∧
      out.fTransmissionTolerance = s.fTransmissionTolerance ∧
      out.fPrimaryGammas.length = s.fPrimaryGammas.length ∧
      ∀ idx : Nat, out.fPrimaryGammas[idx]? =
        if s.fTrackIDtoIndex trackID = some idx then (s.fPrimaryGammas[idx]?).map f
        else s.fPrimaryGammas[idx]? := by
  unfold PuitsCouronne23.EventAction.withPrimary
  cases hm : s.fTrackIDtoIndex trackID with
  | none =>
    refine ⟨s, rfl, rfl, rfl, rfl, ?_⟩
    intro idx
    simp
  | some i =>
    have hi : i < s.fPrimaryGammas.length := hb trackID i hm
    dsimp only
    rw [List.getElem?_eq_getElem hi]
    refine ⟨_, rfl, rfl, rfl, by simp, ?_⟩
    intro idx
    by_cases hidx : i = idx
    · subst hidx
      simp only [if_true, List.getElem?_eq_getElem hi, Option.map_some']
      exact List.getElem?_set_self (by simpa using hi)
    · have hne : ¬ (some i = some idx) := fun h => hidx (Option.some.inj h)
      simp only [hne, if_false]
      exact List.getElem?_set_ne hidx

/-- One identity-keyed update on a consistent tracker keeps a property of all records that
the rewriting preserves. -/
theorem Filtre5mmWPETG.EventAction.withPrimary_invariant (s : Filtre5mmWPETG.EventAction K)
    (t : Int) (f : Filtre5mmWPETG.PrimaryGammaInfo K → Filtre5mmWPETG.PrimaryGammaInfo K)
    (P : Filtre5mmWPETG.PrimaryGammaInfo K → Prop)
    (hf : ∀ g, (f g).trackID = g.trackID) (hP : ∀ g, P g → P (f g))
    (hwf : Filtre5mmWPETG.TableConsistent s) (hs : ∀ g ∈ s.fPrimaryGammas, P g) :
    ∃ s1, Filtre5mmWPETG.EventAction.withPrimary s t f = some s1 ∧
      Filtre5mmWPETG.TableConsistent s1 ∧ ∀ g ∈ s1.fPrimaryGammas, P g := by
  obtain ⟨s1, hs1, hwf1, -, -, -⟩ :=
    Filtre5mmWPETG.EventAction.withPrimary_consistent s t f hf hwf
  refine ⟨s1, hs1, hwf1, ?_⟩
  unfold Filtre5mmWPETG.EventAction.withPrimary at hs1
  cases hm : s.fTrackIDtoIndex t with
  | none =>
    rw [hm] at hs1
    have h1 : s = s1 := Option.some.inj hs1
    rw [← h1]
    exact hs
  | some i =>
    rw [hm] at hs1
    dsimp only at hs1
    cases hg : s.fPrimaryGammas[i]? with
    | none =>
      rw [hg] at hs1
      exact absurd hs1 (by simp)
    | some g0 =>
      rw [hg] at hs1
      have h1 := Option.some.inj hs1
      rw [← h1]
      intro g hmem
      rcases List.mem_or_eq_of_mem_set hmem with h | h
      · exact hs g h
      · rw [h]
        exact hP g0 (hs g0 (List.getElem?_mem hg))

/-- Rewriting every record of a consistent table by a function that keeps the track
identifiers leaves the table consistent. -/
theorem Filtre5mmWPETG.tableConsistent_map (s : Filtre5mmWPETG.EventAction K)
    (f : Filtre5mmWPETG.PrimaryGammaInfo K → Filtre5mmWPETG.PrimaryGammaInfo K)
    (hf : ∀ g, (f g).trackID = g.trackID) (hwf : Filtre5mmWPETG.TableConsistent s) :
    Filtre5mmWPETG.TableConsistent { s with fPrimaryGammas := s.fPrimaryGammas.map f } := by
  intro k i hk
  obtain ⟨g, hg, hid⟩ := hwf k i hk
  refine ⟨f g, ?_, ?_⟩
  · simp only [List.getElem?_map, hg, Option.map_some']
  · rw [hf g, hid]

end PlainLemmas

section LemmasOnRuns

variable {K : Type} [LinearOrderedField K]

/-- The divisions of `EndOfRunAction` other than the one of `N_4pi` never meet a zero
divisor; the division of `N_4pi` does exactly when the solid-angle fraction is zero. -/
theorem RunAction.EndOfRunAction_divisions (cos sqrt : K → K) (gray : K) (r : RunAction K)
    (nofEvents : Int) (hgray : gray ≠ 0) (hn : nofEvents ≠ 0)
    (hsqrt : ∀ x : K, 0 < x → 0 < sqrt x) :
    ∃ summary, RunAction.EndOfRunAction cos sqrt gray r nofEvents = some summary ∧
      (summary.N_4pi = none ↔ RunAction.GetSolidAngleFraction cos r = 0) ∧
      summary.meanGammasPerEvent.isSome = true ∧ summary.fractionZeroGamma.isSome = true ∧
      summary.transmissionRate.isSome = true ∧ summary.absorptionRate.isSome = true ∧
      summary.simulatedTime_s.isSome = true ∧ summary.simulatedTime_min.isSome = true ∧
      summary.simulatedTime_h.isSome = true ∧ summary.timePerEvent_ms.isSome = true ∧
      summary.filterTransmission ≠ some none ∧ summary.waterReach ≠ some none ∧
      summary.transFilter ≠ some none ∧ summary.transWater ≠ some none ∧
      (∀ i, (summary.rings i).dose_Gy.isSome = true ∧
        (summary.rings i).doseRate_nGyPerH.isSome = true ∧
        (summary.rings i).convergence.isSome = true ∧
        (summary.rings i).doseRateError.isSome = true) ∧
      summary.totalConvergence.isSome = true ∧ summary.totalDose_Gy.isSome = true ∧
      summary.avgDose_Gy.isSome = true ∧ summary.totalDoseRate_nGyPerH.isSome = true := by
  have hnK : (nofEvents : K) ≠ 0 := by exact_mod_cast hn
  have hdose : ∃ total, ringIndices.foldl
      (fun acc i => acc.bind fun t =>
        (RunAction.ringDose_Gy gray r i).map fun d => t + d * r.fRingMasses i) (some 0) =
      some total := by
    simp only [ringIndices, List.foldl_cons, List.foldl_nil,
      RunAction.ringDose_Gy_eq gray hgray, Option.some_bind, Option.map_some']
    exact ⟨_, rfl⟩
  obtain ⟨total, htotal⟩ := hdose
  have havg : ∃ avg, (if ringIndices.foldl (fun acc i => acc + r.fRingMasses i) 0 > 0 then
      (some total).bind fun t =>
        fdiv t (ringIndices.foldl (fun acc i => acc + r.fRingMasses i) 0)
      else some 0) = some avg := by
    by_cases hm : ringIndices.foldl (fun acc i => acc + r.fRingMasses i) 0 > 0
    · exact ⟨total / ringIndices.foldl (fun acc i => acc + r.fRingMasses i) 0,
        by simp only [if_pos hm, Option.some_bind, fdiv_of_ne_zero _ hm.ne.symm]⟩
    · exact ⟨0, by simp only [if_neg hm]⟩
  obtain ⟨avg, havg⟩ := havg
  have hT : ∃ t, RunAction.CalculateIrradiationTime cos r nofEvents = some t := by
    by_cases h : 0 < RunAction.GetSolidAngleFraction cos r ∧ 0 < r.fActivity4pi
    · exact ⟨_, RunAction.CalculateIrradiationTime_of_pos cos r nofEvents h.1 h.2⟩
    · exact ⟨_, RunAction.CalculateIrradiationTime_of_not_pos cos r nofEvents h⟩
  obtain ⟨t, ht⟩ := hT
  have hguard : ∀ num den : Int,
      (RunAction.guardedPercent num den : Option (Option K)) ≠ some none := by
    intro num den
    unfold RunAction.guardedPercent
    by_cases hd : den > 0
    · have hdK : (den : K) ≠ 0 := by
        have : (0 : K) < (den : K) := by exact_mod_cast hd
        exact this.ne.symm
      simp [hd, fdiv_of_ne_zero _ hdK]
    · simp [hd]
  have hconv : ∀ count : Int, (RunAction.convergenceOf sqrt count).isSome = true := by
    intro count
    unfold RunAction.convergenceOf
    by_cases hc : count > 0
    · have hs : sqrt (count : K) ≠ 0 := by
        have : (0 : K) < (count : K) := by exact_mod_cast hc
        exact (hsqrt _ this).ne.symm
      simp [hc, fdiv_of_ne_zero _ hs]
    · simp [hc]
  have hrate : ∀ count : Int, ∃ c,
      RunAction.convergenceOf sqrt count = some c := by
    intro count
    exact Option.isSome_iff_exists.mp (hconv count)
  have hper : ∀ num den : Int, (if den > 0 then fdiv (100 * (num : K)) (den : K) else some 0).isSome
      = true := by
    intro num den
    by_cases hd : den > 0
    · have hdK : (den : K) ≠ 0 := by
        have : (0 : K) < (den : K) := by exact_mod_cast hd
        exact this.ne.symm
      simp [hd, fdiv_of_ne_zero _ hdK]
    · simp [hd]
  simp only [RunAction.EndOfRunAction, if_neg hn]
  refine ⟨_, rfl, ?_, ?_, ?_, hper _ _, hper _ _, ?_, ?_, ?_, ?_, hguard _ _, hguard _ _,
    hguard _ _, hguard _ _, ?_, hconv _, by simp only [htotal, Option.isSome_some],
    by simp only [htotal, havg, Option.isSome_some], ?_⟩
  · simp [fdiv]
  · simp [fdiv_of_ne_zero _ hnK]
  · simp [fdiv_of_ne_zero _ hnK]
  · simp [ht]
  · simp [ht]
  · simp [ht]
  · by_cases hp : nofEvents > 0
    · simp [hp, ht, fdiv_of_ne_zero _ hnK]
    · simp [hp]
  · intro i
    obtain ⟨rate, hr, -⟩ := RunAction.doseRate_nGyPerH_some cos r
      (if r.fRingMasses i > 0 then r.fRingTotalEnergy i / r.fRingMasses i / gray else 0)
      nofEvents
    obtain ⟨c, hc⟩ := hrate (r.fRingEventCount i)
    simp only [RunAction.ringReport, RunAction.ringDose_Gy_eq gray hgray, hr, hc]
    simp
  · obtain ⟨rate, hr, -⟩ := RunAction.doseRate_nGyPerH_some cos r avg nofEvents
    simp only [htotal, havg, hr, Option.isSome_some]

/-- One more term in a sum, its sum of squares and its count keeps the Cauchy-Schwarz
inequality between them. -/
theorem sq_sum_le_count_mul_sum_sq_step (S Q n x : K) (hn : 0 ≤ n) (hn1 : n = 0 ∨ 1 ≤ n)
    (hQ : 0 ≤ Q) (h : S ^ 2 ≤ n * Q) : (S + x) ^ 2 ≤ (n + 1) * (Q + x * x) := by
  have key : 0 ≤ Q + n * x ^ 2 - 2 * S * x := by
    rcases hn1 with h0 | h1
    · subst h0
      have hS : S = 0 := by
        have : S ^ 2 ≤ 0 := by simpa using h
        have h2 : S ^ 2 = 0 := le_antisymm this (sq_nonneg S)
        exact pow_eq_zero_iff (by norm_num) |>.mp h2
      subst hS
      simpa using hQ
    · by_contra hc
      have hneg : Q + n * x ^ 2 - 2 * S * x < 0 := not_le.mp hc
      have hpos : 0 < n := lt_of_lt_of_le one_pos h1
      have hmul : n * (Q + n * x ^ 2 - 2 * S * x) < 0 := mul_neg_of_pos_of_neg hpos hneg
      nlinarith [sq_nonneg (S - n * x)]
  nlinarith [key]

/-- The per-ring invariant of the energy sums of a run accumulator. -/
theorem RunAction.AddRingEnergy_cauchy_schwarz (r : RunAction K) (ringIndex : Int) (edep : K)
    (h : ∀ i, 0 ≤ r.fRingEventCount i ∧ 0 ≤ r.fRingTotalEnergy2 i ∧
      r.fRingTotalEnergy i ^ 2 ≤ (r.fRingEventCount i : K) * r.fRingTotalEnergy2 i) :
    ∀ i, 0 ≤ (RunAction.AddRingEnergy r ringIndex edep).fRingEventCount i ∧
      0 ≤ (RunAction.AddRingEnergy r ringIndex edep).fRingTotalEnergy2 i ∧
      (RunAction.AddRingEnergy r ringIndex edep).fRingTotalEnergy i ^ 2 ≤
        ((RunAction.AddRingEnergy r ringIndex edep).fRingEventCount i : K) *
          (RunAction.AddRingEnergy r ringIndex edep).fRingTotalEnergy2 i := by
  intro i
  unfold RunAction.AddRingEnergy
  cases ringSlot ringIndex with
  | none => exact h i
  | some j =>
    dsimp only
    by_cases hij : i = j
    · subst hij
      obtain ⟨hc, hq, hcs⟩ := h i
      simp only [Function.update_same]
      have hcK : (0 : K) ≤ (r.fRingEventCount i : K) := by exact_mod_cast hc
      have hc1 : (r.fRingEventCount i : K) = 0 ∨ 1 ≤ (r.fRingEventCount i : K) := by
        rcases eq_or_lt_of_le hc with h0 | h1
        · left
          rw [← h0]
          simp
        · right
          have : (1 : Int) ≤ r.fRingEventCount i := h1
          exact_mod_cast this
      refine ⟨by omega, ?_, ?_⟩
      · have := mul_self_nonneg edep
        linarith
      · push_cast
        exact sq_sum_le_count_mul_sum_sq_step _ _ _ edep hcK hc1 hq hcs
    · simp only [Function.update_noteq hij]
      exact h i

/-- The hand-over of an event is the ingestion of its report. -/
theorem PuitsCouronne23.EventAction.handOver_eq_ingest (s : PuitsCouronne23.EventAction K)
    (run : RunAction K) :
    PuitsCouronne23.EventAction.handOver s run =
      RunAction.ingest run (PuitsCouronne23.EventAction.report s) := rfl

/-- A function that commutes with every step of a fold commutes with the fold. -/
theorem foldl_comm_of_comm {α β : Type} (g : α → β → α) (f : α → α)
    (h : ∀ a b, f (g a b) = g (f a) b) (l : List β) (a : α) :
    f (l.foldl g a) = l.foldl g (f a) := by
  induction l generalizing a with
  | nil => rfl
  | cons b l ih => simp only [List.foldl_cons, ih, h]

/-- Two calls of `AddRingEnergy` can be exchanged. -/
theorem RunAction.AddRingEnergy_comm (r : RunAction K) (i j : Int) (x y : K) :
    RunAction.AddRingEnergy (RunAction.AddRingEnergy r i x) j y =
      RunAction.AddRingEnergy (RunAction.AddRingEnergy r j y) i x := by
  unfold RunAction.AddRingEnergy
  cases hi : ringSlot i with
  | none =>
    cases hj : ringSlot j with
    | none =>
      simp only [RunAction.mk.injEq, true_and, and_true]
      ring
    | some b =>
      simp only [RunAction.mk.injEq, true_and, and_true]
      ring
  | some a =>
    cases hj : ringSlot j with
    | none =>
      simp only [RunAction.mk.injEq, true_and, and_true]
      ring
    | some b =>
      simp only [RunAction.mk.injEq, true_and, and_true]
      by_cases hab : a = b
      · subst hab
        simp only [Function.update_same, Function.update_idem]
        refine ⟨?_, ?_, ?_, ?_⟩
        · rw [add_right_comm]
        · rw [add_right_comm]
        · trivial
        · rw [add_right_comm]
      · have hba : b ≠ a := fun h => hab h.symm
        simp only [Function.update_noteq hab, Function.update_noteq hba]
        refine ⟨?_, ?_, ?_, ?_⟩
        · exact Function.update_comm hab _ _ _
        · exact Function.update_comm hab _ _ _
        · exact Function.update_comm hab _ _ _
        · ring

/-- A call of `RecordEventStatistics` and a call of `AddRingEnergy` can be exchanged. -/
theorem RunAction.RecordEventStatistics_AddRingEnergy (r : RunAction K) (n : Int)
    (es : List K) (t a : Int) (d : K) (i : Int) (x : K) :
    RunAction.RecordEventStatistics (RunAction.AddRingEnergy r i x) n es t a d =
      RunAction.AddRingEnergy (RunAction.RecordEventStatistics r n es t a d) i x := by
  unfold RunAction.AddRingEnergy RunAction.RecordEventStatistics
  cases ringSlot i <;> rfl

/-- Two calls of `RecordEventStatistics` can be exchanged. -/
theorem RunAction.RecordEventStatistics_comm (r : RunAction K) (n m : Int)
    (es fs : List K) (t u a b : Int) (d e : K) :
    RunAction.RecordEventStatistics (RunAction.RecordEventStatistics r n es t a d) m fs u b e =
      RunAction.RecordEventStatistics (RunAction.RecordEventStatistics r m fs u b e)
        n es t a d := by
  unfold RunAction.RecordEventStatistics
  simp only [RunAction.mk.injEq, true_and, and_true]
  refine ⟨?_, ?_, ?_, ?_, ?_⟩
  · omega
  · split_ifs <;> omega
  · omega
  · omega
  · split_ifs <;> omega

/-- A call of `RecordEventStatistics` and a step of the ring loop can be exchanged. -/
theorem RunAction.RecordEventStatistics_addRingDeposit (d : Fin kNbWaterRings → K)
    (r : RunAction K) (i : Fin kNbWaterRings) (n : Int) (es : List K) (t a : Int) (e : K) :
    RunAction.RecordEventStatistics (RunAction.addRingDeposit d r i) n es t a e =
      RunAction.addRingDeposit d (RunAction.RecordEventStatistics r n es t a e) i := by
  unfold RunAction.addRingDeposit
  split_ifs
  · exact RunAction.RecordEventStatistics_AddRingEnergy r n es t a e _ _
  · rfl

/-- Two steps of ring loops can be exchanged. -/
theorem RunAction.addRingDeposit_comm (d e : Fin kNbWaterRings → K) (r : RunAction K)
    (i j : Fin kNbWaterRings) :
    RunAction.addRingDeposit e (RunAction.addRingDeposit d r i) j =
      RunAction.addRingDeposit d (RunAction.addRingDeposit e r j) i := by
  unfold RunAction.addRingDeposit
  split_ifs
  · exact RunAction.AddRingEnergy_comm r _ _ _ _
  · rfl
  · rfl
  · rfl

/-- The ingestions of two event reports can be exchanged. -/
theorem RunAction.ingest_comm (z : RunAction K) (x y : EventReport K) :
    RunAction.ingest (RunAction.ingest z x) y = RunAction.ingest (RunAction.ingest z y) x := by
  unfold RunAction.ingest
  have hstat : ∀ (w : EventReport K) (d : Fin kNbWaterRings → K) (a : RunAction K),
      RunAction.RecordEventStatistics (ringIndices.foldl (RunAction.addRingDeposit d) a)
          w.nPrimaries w.primaryEnergies w.nTransmitted w.nAbsorbed w.totalDeposit =
        ringIndices.foldl (RunAction.addRingDeposit d)
          (RunAction.RecordEventStatistics a w.nPrimaries w.primaryEnergies w.nTransmitted
            w.nAbsorbed w.totalDeposit) := by
    intro w d a
    exact foldl_comm_of_comm (RunAction.addRingDeposit d)
      (fun a => RunAction.RecordEventStatistics a w.nPrimaries w.primaryEnergies
        w.nTransmitted w.nAbsorbed w.totalDeposit)
      (fun a b => RunAction.RecordEventStatistics_addRingDeposit d a b _ _ _ _ _) ringIndices a
  have hloops : ∀ (d e : Fin kNbWaterRings → K) (a : RunAction K),
      ringIndices.foldl (RunAction.addRingDeposit e)
          (ringIndices.foldl (RunAction.addRingDeposit d) a) =
        ringIndices.foldl (RunAction.addRingDeposit d)
          (ringIndices.foldl (RunAction.addRingDeposit e) a) := by
    intro d e a
    refine (foldl_comm_of_comm (RunAction.addRingDeposit d)
      (fun a => ringIndices.foldl (RunAction.addRingDeposit e) a) ?_ ringIndices a)
    intro a b
    exact (foldl_comm_of_comm (RunAction.addRingDeposit e)
      (fun a => RunAction.addRingDeposit d a b)
      (fun a c => RunAction.addRingDeposit_comm e d a c b) ringIndices a).symm
  rw [hstat y x.ringDeposit, hstat x y.ringDeposit, hloops x.ringDeposit y.ringDeposit,
    RunAction.RecordEventStatistics_comm]

/-- The counters that the ring loop of the hand-over leaves alone, and the water total it
builds. -/
theorem RunAction.foldl_addRingDeposit_frame (d : Fin kNbWaterRings → K)
    (l : List (Fin kNbWaterRings)) (acc : RunAction K) :
    (l.foldl (RunAction.addRingDeposit d) acc).fTotalEvents = acc.fTotalEvents ∧
    (l.foldl (RunAction.addRingDeposit d) acc).fTotalWaterEventCount =
      acc.fTotalWaterEventCount ∧
    (l.foldl (RunAction.addRingDeposit d) acc).fTotalPrimariesGenerated =
      acc.fTotalPrimariesGenerated ∧
    (l.foldl (RunAction.addRingDeposit d) acc).fTotalTransmitted = acc.fTotalTransmitted ∧
    (l.foldl (RunAction.addRingDeposit d) acc).fTotalAbsorbed = acc.fTotalAbsorbed := by
  induction l generalizing acc with
  | nil => simp
  | cons j l ih =>
    simp only [List.foldl_cons]
    obtain ⟨h1, h2, h3, h4, h5⟩ := ih (RunAction.addRingDeposit d acc j)
    rw [h1, h2, h3, h4, h5]
    unfold RunAction.addRingDeposit RunAction.AddRingEnergy
    split_ifs
    · cases ringSlot ((j : Nat) : Int) <;> exact ⟨rfl, rfl, rfl, rfl, rfl⟩
    · exact ⟨rfl, rfl, rfl, rfl, rfl⟩

/-- A call of `AddRingEnergy` for one of the five rings keeps the water total equal to the
sum of the ring totals. -/
theorem RunAction.AddRingEnergy_water_total (r : RunAction K) (j : Fin kNbWaterRings) (x : K)
    (h : r.fTotalWaterEnergy = ∑ i : Fin kNbWaterRings, r.fRingTotalEnergy i) :
    (RunAction.AddRingEnergy r ((j : Nat) : Int) x).fTotalWaterEnergy =
      ∑ i : Fin kNbWaterRings,
        (RunAction.AddRingEnergy r ((j : Nat) : Int) x).fRingTotalEnergy i := by
  unfold RunAction.AddRingEnergy
  rw [ringSlot_coe]
  dsimp only
  have hu : Function.update r.fRingTotalEnergy j (r.fRingTotalEnergy j + x) =
      fun i => r.fRingTotalEnergy i + if i = j then x else 0 := by
    funext i
    by_cases hij : i = j
    · subst hij
      simp
    · simp [hij, Function.update_noteq hij]
  rw [hu, Finset.sum_add_distrib, Finset.sum_ite_eq', h]
  simp

/-- The ingestion of an event report keeps the water total equal to the sum of the ring
totals. -/
theorem RunAction.ingest_water_total (r : RunAction K) (report : EventReport K)
    (h : r.fTotalWaterEnergy = ∑ i : Fin kNbWaterRings, r.fRingTotalEnergy i) :
    (RunAction.ingest r report).fTotalWaterEnergy =
      ∑ i : Fin kNbWaterRings, (RunAction.ingest r report).fRingTotalEnergy i := by
  unfold RunAction.ingest
  have hloop : ∀ (l : List (Fin kNbWaterRings)) (acc : RunAction K),
      acc.fTotalWaterEnergy = ∑ i : Fin kNbWaterRings, acc.fRingTotalEnergy i →
      (l.foldl (RunAction.addRingDeposit report.ringDeposit) acc).fTotalWaterEnergy =
        ∑ i : Fin kNbWaterRings,
          (l.foldl (RunAction.addRingDeposit report.ringDeposit) acc).fRingTotalEnergy i := by
    intro l
    induction l with
    | nil => exact fun acc hacc => hacc
    | cons j l ih =>
      intro acc hacc
      simp only [List.foldl_cons]
      apply ih
      unfold RunAction.addRingDeposit
      split_ifs
      · exact RunAction.AddRingEnergy_water_total acc j _ hacc
      · exact hacc
  exact hloop ringIndices _ h

/-- The total deposit of an event is at least the deposit of each ring when no ring has a
negative deposit. -/
theorem PuitsCouronne23.EventAction.le_GetTotalWaterEnergy (s : PuitsCouronne23.EventAction K)
    (h : ∀ j, 0 ≤ s.fRingEnergyDeposit j) (i : Fin kNbWaterRings) :
    s.fRingEnergyDeposit i ≤ PuitsCouronne23.EventAction.GetTotalWaterEnergy s := by
  unfold PuitsCouronne23.EventAction.GetTotalWaterEnergy
  simp only [ringIndices, List.foldl]
  have h0 := h 0
  have h1 := h 1
  have h2 := h 2
  have h3 := h 3
  have h4 := h 4
  have hi : i = 0 ∨ i = 1 ∨ i = 2 ∨ i = 3 ∨ i = 4 := by
    revert i
    decide
  rcases hi with rfl | rfl | rfl | rfl | rfl <;> linarith

/-- Step deposits that are not negative leave no ring with a negative deposit. -/
theorem PuitsCouronne23.EventAction.depositSteps_nonneg (steps : List (Int × K))
    (s : PuitsCouronne23.EventAction K) (hs : ∀ j, 0 ≤ s.fRingEnergyDeposit j)
    (h : ∀ c ∈ steps, 0 ≤ c.2) :
    ∀ j, 0 ≤ (PuitsCouronne23.EventAction.depositSteps s steps).fRingEnergyDeposit j := by
  induction steps generalizing s with
  | nil => exact hs
  | cons c steps ih =>
    unfold PuitsCouronne23.EventAction.depositSteps
    simp only [List.foldl_cons]
    refine ih _ ?_ (fun c hc => h c (List.mem_cons_of_mem _ hc))
    intro j
    have hc : 0 ≤ c.2 := h c (List.mem_cons_self _ _)
    unfold PuitsCouronne23.EventAction.AddRingEnergy
    cases ringSlot c.1 with
    | none => exact hs j
    | some i =>
      dsimp only
      by_cases hji : j = i
      · subst hji
        rw [Function.update_same]
        exact add_nonneg (hs j) hc
      · rw [Function.update_noteq hji]
        exact hs j

/-- The hand-over of an event without negative ring deposit keeps the order of the three
event counters. -/
theorem PuitsCouronne23.EventAction.handOver_counts (s : PuitsCouronne23.EventAction K)
    (r : RunAction K) (hs : ∀ j, 0 ≤ s.fRingEnergyDeposit j)
    (h : (∀ i, r.fRingEventCount i ≤ r.fTotalWaterEventCount) ∧
      r.fTotalWaterEventCount ≤ r.fTotalEvents) :
    (∀ i, (PuitsCouronne23.EventAction.handOver s r).fRingEventCount i ≤
        (PuitsCouronne23.EventAction.handOver s r).fTotalWaterEventCount) ∧
      (PuitsCouronne23.EventAction.handOver s r).fTotalWaterEventCount ≤
        (PuitsCouronne23.EventAction.handOver s r).fTotalEvents := by
  rw [PuitsCouronne23.EventAction.handOver_eq_ingest]
  unfold RunAction.ingest
  obtain ⟨h1, h2, -, -, -⟩ := RunAction.foldl_addRingDeposit_frame
    (PuitsCouronne23.EventAction.report s).ringDeposit ringIndices
    (RunAction.RecordEventStatistics r (PuitsCouronne23.EventAction.report s).nPrimaries
      (PuitsCouronne23.EventAction.report s).primaryEnergies
      (PuitsCouronne23.EventAction.report s).nTransmitted
      (PuitsCouronne23.EventAction.report s).nAbsorbed
      (PuitsCouronne23.EventAction.report s).totalDeposit)
  rw [h1, h2]
  constructor
  · intro i
    have hc := (RunAction.foldl_AddRingEnergy
      (PuitsCouronne23.EventAction.report s).ringDeposit ringIndices nodup_ringIndices
      (RunAction.RecordEventStatistics r (PuitsCouronne23.EventAction.report s).nPrimaries
        (PuitsCouronne23.EventAction.report s).primaryEnergies
        (PuitsCouronne23.EventAction.report s).nTransmitted
        (PuitsCouronne23.EventAction.report s).nAbsorbed
        (PuitsCouronne23.EventAction.report s).totalDeposit) i).2.2
    have hfold : RunAction.addRingDeposit (PuitsCouronne23.EventAction.report s).ringDeposit =
        (fun a j =>
          if (PuitsCouronne23.EventAction.report s).ringDeposit j > 0 then
            RunAction.AddRingEnergy a ((j : Nat) : Int)
              ((PuitsCouronne23.EventAction.report s).ringDeposit j)
          else a) := rfl
    rw [hfold, hc]
    have hle := PuitsCouronne23.EventAction.le_GetTotalWaterEnergy s hs i
    have hri := h.1 i
    simp only [RunAction.RecordEventStatistics, PuitsCouronne23.EventAction.report,
      mem_ringIndices, true_and]
    by_cases hd : s.fRingEnergyDeposit i > 0
    · have ht : PuitsCouronne23.EventAction.GetTotalWaterEnergy s > 0 := lt_of_lt_of_le hd hle
      rw [if_pos hd, if_pos ht]
      omega
    · rw [if_neg hd]
      split_ifs <;> omega
  · have hw := h.2
    simp only [RunAction.RecordEventStatistics]
    split_ifs <;> omega

/-- The state left by `BeginOfEventAction` in the absolute-tolerance variant is the one
freshly built for the primaries of the event. -/
theorem PuitsCouronne23.EventAction.registered_BeginOfEventAction (acos : K → K)
    (atan2 : K → K → K) (s : PuitsCouronne23.EventAction K) (event : G4Event K) :
    PuitsCouronne23.Registered (PuitsCouronne23.EventAction.BeginOfEventAction acos atan2 s event)
      event.primaryVertices.flatten := by
  have hreg : PuitsCouronne23.Registered (PuitsCouronne23.EventAction.clearEvent s)
      ([] : List (G4PrimaryParticle K)) := by
    refine ⟨rfl, ?_, ?_⟩
    · intro k p hp
      simp at hp
    · intro k
      have hk : ¬ (1 ≤ k ∧ k ≤ (([] : List (G4PrimaryParticle K)).length : Int)) := by
        simp only [List.length_nil, Nat.cast_zero]
        omega
      rw [if_neg hk]
      rfl
  have h1 := PuitsCouronne23.EventAction.registered_vertices_absolute acos atan2
    event.primaryVertices (PuitsCouronne23.EventAction.clearEvent s, 1) [] ⟨hreg, by simp⟩
  rw [List.nil_append] at h1
  exact h1

/-- In a freshly built table every map entry is within bounds and no two tracks share an
index. -/
theorem PuitsCouronne23.registered_bounds (st : PuitsCouronne23.EventAction K)
    (gs : List (G4PrimaryParticle K)) (h : PuitsCouronne23.Registered st gs) :
    (∀ (k : Int) (i : Nat), st.fTrackIDtoIndex k = some i → i < st.fPrimaryGammas.length) ∧
    (∀ (k l : Int) (i : Nat), st.fTrackIDtoIndex k = some i → st.fTrackIDtoIndex l = some i →
      k = l) := by
  obtain ⟨hlen, -, hmap⟩ := h
  constructor
  · intro k i hk
    rw [hmap k] at hk
    split_ifs at hk with hr
    have hi : (k - 1).toNat = i := Option.some.inj hk
    omega
  · intro k l i hk hl
    rw [hmap k] at hk
    rw [hmap l] at hl
    split_ifs at hk hl with hr1 hr2
    have hi : (k - 1).toNat = i := Option.some.inj hk
    have hj : (l - 1).toNat = i := Option.some.inj hl
    omega

/-- The recording call for a crossing is the shared lookup with the effect of the
crossing. -/
theorem PuitsCouronne23.EventAction.recordCrossing_eq (s : PuitsCouronne23.EventAction K)
    (c : Filtre5mmWPETG.Crossing K) :
    PuitsCouronne23.EventAction.recordCrossing s c =
      PuitsCouronne23.EventAction.withPrimary s c.track
        (PuitsCouronne23.crossingEffect s.fTransmissionTolerance c) := by
  cases c <;> rfl

/-- A sequence of crossings, followed on the record of one track: the calls all return, the
map, the tolerance and the size of the table stay, and a property of the record that the
crossings of that track preserve still holds at the end. -/
theorem PuitsCouronne23.EventAction.recordCrossings_at (cs : List (Filtre5mmWPETG.Crossing K))
    (s : PuitsCouronne23.EventAction K) (t : Int) (idx : Nat)
    (Q : PuitsCouronne23.PrimaryGammaInfo K → Prop)
    (hb : ∀ (k : Int) (i : Nat), s.fTrackIDtoIndex k = some i → i < s.fPrimaryGammas.length)
    (hinj : ∀ (k l : Int) (i : Nat), s.fTrackIDtoIndex k = some i →
      s.fTrackIDtoIndex l = some i → k = l)
    (ht : s.fTrackIDtoIndex t = some idx)
    (hQ : ∀ c ∈ cs, c.track = t → ∀ g, Q g →
      Q (PuitsCouronne23.crossingEffect s.fTransmissionTolerance c g))
    (g : PuitsCouronne23.PrimaryGammaInfo K) (hg : s.fPrimaryGammas[idx]? = some g)
    (hQg : Q g) :
    ∃ out g', PuitsCouronne23.EventAction.recordCrossings s cs = some out ∧
      out.fTrackIDtoIndex = s.fTrackIDtoIndex ∧
      out.fTransmissionTolerance = s.fTransmissionTolerance ∧
      out.fPrimaryGammas.length = s.fPrimaryGammas.length ∧
      out.fPrimaryGammas[idx]? = some g' ∧ Q g' := by
  induction cs generalizing s g with
  | nil => exact ⟨s, g, rfl, rfl, rfl, rfl, hg, hQg⟩
  | cons c cs ih =>
    obtain ⟨s1, hs1, hmap, htol, hlen, hrec⟩ :=
      PuitsCouronne23.EventAction.withPrimary_effect s c.track
        (PuitsCouronne23.crossingEffect s.fTransmissionTolerance c) hb
    have hstep : ∃ g1, s1.fPrimaryGammas[idx]? = some g1 ∧ Q g1 := by
      rw [hrec idx]
      by_cases hc : s.fTrackIDtoIndex c.track = some idx
      · rw [if_pos hc, hg]
        have hct : c.track = t := hinj _ _ _ hc ht
        exact ⟨_, rfl, hQ c (List.mem_cons_self _ _) hct g hQg⟩
      · rw [if_neg hc]
        exact ⟨g, hg, hQg⟩
    obtain ⟨g1, hg1, hQg1⟩ := hstep
    obtain ⟨out, g', hout, hmap2, htol2, hlen2, hg', hQg'⟩ := ih s1
      (by rw [hmap, hlen]; exact hb) (by rw [hmap]; exact hinj) (by rw [hmap]; exact ht)
      (by
        rw [htol]
        exact fun c hc => hQ c (List.mem_cons_of_mem _ hc)) g1 hg1 hQg1
    refine ⟨out, g', ?_, hmap2.trans hmap, htol2.trans htol, hlen2.trans hlen, hg', hQg'⟩
    simp only [PuitsCouronne23.EventAction.recordCrossings,
      PuitsCouronne23.EventAction.recordCrossing_eq, hs1, Option.some_bind]
    exact hout

/-- The recording calls for two sequences of crossings, one after the other. -/
theorem PuitsCouronne23.EventAction.recordCrossings_append
    (cs ds : List (Filtre5mmWPETG.Crossing K)) (s : PuitsCouronne23.EventAction K) :
    PuitsCouronne23.EventAction.recordCrossings s (cs ++ ds) =
      (PuitsCouronne23.EventAction.recordCrossings s cs).bind fun s1 =>
        PuitsCouronne23.EventAction.recordCrossings s1 ds := by
  induction cs generalizing s with
  | nil => rfl
  | cons c cs ih =>
    simp only [List.cons_append, PuitsCouronne23.EventAction.recordCrossings]
    cases PuitsCouronne23.EventAction.recordCrossing s c with
    | none => rfl
    | some s1 => exact ih s1

/-- `BeginOfEventAction` of the absolute-tolerance variant keeps the tolerance. -/
theorem PuitsCouronne23.EventAction.BeginOfEventAction_tolerance (acos : K → K)
    (atan2 : K → K → K) (s : PuitsCouronne23.EventAction K) (event : G4Event K) :
    (PuitsCouronne23.EventAction.BeginOfEventAction acos atan2 s event).fTransmissionTolerance =
      s.fTransmissionTolerance := by
  obtain ⟨table, map, next, hf, -⟩ := PuitsCouronne23.EventAction.frame_vertices_absolute
    acos atan2 event.primaryVertices (PuitsCouronne23.EventAction.clearEvent s)
    (PuitsCouronne23.EventAction.clearEvent s) 1 ⟨rfl, rfl⟩
  simp only [PuitsCouronne23.EventAction.BeginOfEventAction, hf]
  rfl

/-- Resolving the fate of a primary keeps its track identifier. -/
theorem Filtre5mmWPETG.EventAction.finalizeGamma_trackID (tolerance : K)
    (g : Filtre5mmWPETG.PrimaryGammaInfo K) :
    (Filtre5mmWPETG.EventAction.finalizeGamma tolerance g).trackID = g.trackID := by
  unfold Filtre5mmWPETG.EventAction.finalizeGamma
  dsimp only
  split_ifs <;> rfl

/-- Resolving the fate of a primary keeps its downstream detection flag. -/
theorem Filtre5mmWPETG.EventAction.finalizeGamma_detectedDownstream (tolerance : K)
    (g : Filtre5mmWPETG.PrimaryGammaInfo K) :
    (Filtre5mmWPETG.EventAction.finalizeGamma tolerance g).detectedDownstream =
      g.detectedDownstream := by
  unfold Filtre5mmWPETG.EventAction.finalizeGamma
  dsimp only
  split_ifs <;> rfl

/-- Resolving the fate of a primary flags it transmitted only when it was detected
downstream, if that held before. -/
theorem Filtre5mmWPETG.EventAction.finalizeGamma_transmitted (tolerance : K)
    (g : Filtre5mmWPETG.PrimaryGammaInfo K)
    (h : g.transmitted = true → g.detectedDownstream = true) :
    (Filtre5mmWPETG.EventAction.finalizeGamma tolerance g).transmitted = true →
      (Filtre5mmWPETG.EventAction.finalizeGamma tolerance g).detectedDownstream = true := by
  rw [Filtre5mmWPETG.EventAction.finalizeGamma_detectedDownstream]
  by_cases hd : g.detectedDownstream = true
  · exact fun _ => hd
  · have hd' : g.detectedDownstream = false := by simpa using hd
    have htr : g.transmitted = false := by
      cases htr : g.transmitted with
      | false => rfl
      | true => exact absurd (h htr) hd
    intro hfin
    exfalso
    revert hfin
    unfold Filtre5mmWPETG.EventAction.finalizeGamma
    simp only [hd', Bool.and_false, Bool.false_eq_true, if_false, Bool.not_false, if_true]
    split_ifs <;> simp [htr]

/-- The state left by `BeginOfEventAction` in the relative-tolerance variant is the one
freshly built for the gammas of the event. -/
theorem Filtre5mmWPETG.EventAction.registered_BeginOfEventAction_relative (keV : K)
    (acos : K → K) (atan2 : K → K → K) (s : Filtre5mmWPETG.EventAction K) (event : G4Event K) :
    Filtre5mmWPETG.Registered (Filtre5mmWPETG.EventAction.BeginOfEventAction keV acos atan2 s event)
      (event.primaryVertices.flatten.filter fun p => decide (p.PDGcode = 22)) := by
  have hreg : Filtre5mmWPETG.Registered (Filtre5mmWPETG.EventAction.clearEvent s)
      ([] : List (G4PrimaryParticle K)) := by
    refine ⟨rfl, ?_, ?_⟩
    · intro k p hp
      simp at hp
    · intro k
      have hk : ¬ (1 ≤ k ∧ k ≤ (([] : List (G4PrimaryParticle K)).length : Int)) := by
        simp only [List.length_nil, Nat.cast_zero]
        omega
      rw [if_neg hk]
      rfl
  have h1 := Filtre5mmWPETG.EventAction.registered_vertices keV acos atan2
    event.primaryVertices (Filtre5mmWPETG.EventAction.clearEvent s) [] hreg
  rw [List.nil_append] at h1
  exact h1

/-- In a freshly built table no primary is flagged transmitted. -/
theorem Filtre5mmWPETG.transmittedDetected_of_registered (s : Filtre5mmWPETG.EventAction K)
    (gs : List (G4PrimaryParticle K)) (h : Filtre5mmWPETG.Registered s gs) :
    Filtre5mmWPETG.TransmittedDetected s := by
  obtain ⟨hlen, hent, -⟩ := h
  intro g hg htr
  obtain ⟨k, hk, hgk⟩ := List.getElem_of_mem hg
  have hk' : k < gs.length := by omega
  obtain ⟨g', hg', -, -, -, -, -, -, htr', -⟩ := hent k _ (List.getElem?_eq_getElem hk')
  rw [List.getElem?_eq_getElem hk, hgk] at hg'
  have hgg : g = g' := Option.some.inj hg'
  rw [hgg, htr'] at htr
  exact absurd htr (by simp)

/-- Every call on a consistent tracker in which transmitted primaries have been detected
downstream returns, and leaves such a tracker. -/
theorem Filtre5mmWPETG.EventAction.call_invariant (keV : K) (acos : K → K)
    (atan2 : K → K → K) (s : Filtre5mmWPETG.EventAction K) (c : Filtre5mmWPETG.TrackerCall K)
    (hwf : Filtre5mmWPETG.TableConsistent s) (htd : Filtre5mmWPETG.TransmittedDetected s) :
    ∃ s1, Filtre5mmWPETG.EventAction.call keV acos atan2 s c = some s1 ∧
      Filtre5mmWPETG.TableConsistent s1 ∧ Filtre5mmWPETG.TransmittedDetected s1 := by
  cases c with
  | beginOfEventAction event =>
    have hreg := Filtre5mmWPETG.EventAction.registered_BeginOfEventAction_relative keV acos
      atan2 s event
    exact ⟨_, rfl, Filtre5mmWPETG.tableConsistent_of_registered _ _ hreg,
      Filtre5mmWPETG.transmittedDetected_of_registered _ _ hreg⟩
  | recordPrimaryUpstream t e =>
    exact Filtre5mmWPETG.EventAction.withPrimary_invariant s t _
      (fun g => g.transmitted = true → g.detectedDownstream = true)
      (fun _ => rfl) (fun _ h => h) hwf htd
  | recordPrimaryDownstream t e =>
    exact Filtre5mmWPETG.EventAction.withPrimary_invariant s t _
      (fun g => g.transmitted = true → g.detectedDownstream = true)
      (fun _ => rfl) (fun _ _ _ => rfl) hwf htd
  | recordFilterExit t e =>
    exact Filtre5mmWPETG.EventAction.withPrimary_invariant s t _
      (fun g => g.transmitted = true → g.detectedDownstream = true)
      (fun _ => rfl) (fun _ h => h) hwf htd
  | recordWaterEntry t e =>
    exact Filtre5mmWPETG.EventAction.withPrimary_invariant s t _
      (fun g => g.transmitted = true → g.detectedDownstream = true)
      (fun _ => rfl) (fun _ h => h) hwf htd
  | recordGammaAbsorbed t name =>
    exact Filtre5mmWPETG.EventAction.withPrimary_invariant s t _
      (fun g => g.transmitted = true → g.detectedDownstream = true)
      (fun g => by split_ifs <;> rfl)
      (fun g h => by split_ifs <;> exact h) hwf htd
  | recordSecondaryDownstream t p code e process => exact ⟨_, rfl, hwf, htd⟩
  | recordPreContainerPhoton e => exact ⟨_, rfl, hwf, htd⟩
  | recordPostContainerPhotonBackward e => exact ⟨_, rfl, hwf, htd⟩
  | recordPostContainerElectronBackward e => exact ⟨_, rfl, hwf, htd⟩
  | recordPostContainerElectronForward e => exact ⟨_, rfl, hwf, htd⟩
  | addRingEnergy i e =>
    refine ⟨_, rfl, ?_, ?_⟩
    · unfold Filtre5mmWPETG.EventAction.AddRingEnergy
      cases ringSlot i <;> exact hwf
    · unfold Filtre5mmWPETG.EventAction.AddRingEnergy
      cases ringSlot i <;> exact htd
  | addRingEnergyByLine i l e =>
    refine ⟨_, rfl, ?_, ?_⟩
    · unfold Filtre5mmWPETG.EventAction.AddRingEnergyByLine
      cases ringSlot i <;> cases Filtre5mmWPETG.lineSlot l <;> exact hwf
    · unfold Filtre5mmWPETG.EventAction.AddRingEnergyByLine
      cases ringSlot i <;> cases Filtre5mmWPETG.lineSlot l <;> exact htd
  | endOfEventAction =>
    refine ⟨_, rfl, ?_, ?_⟩
    · exact Filtre5mmWPETG.tableConsistent_map s _
        (Filtre5mmWPETG.EventAction.finalizeGamma_trackID s.fTransmissionTolerance) hwf
    · intro g hg
      have hg' : g ∈ s.fPrimaryGammas.map
          (Filtre5mmWPETG.EventAction.finalizeGamma s.fTransmissionTolerance) := hg
      obtain ⟨g0, hg0, hgeq⟩ := List.mem_map.mp hg'
      rw [← hgeq]
      exact Filtre5mmWPETG.EventAction.finalizeGamma_transmitted _ g0 (htd g0 hg0)

/-- Every sequence of calls on such a tracker returns, and leaves such a tracker. -/
theorem Filtre5mmWPETG.EventAction.calls_invariant (keV : K) (acos : K → K)
    (atan2 : K → K → K) (cs : List (Filtre5mmWPETG.TrackerCall K))
    (s : Filtre5mmWPETG.EventAction K)
    (hwf : Filtre5mmWPETG.TableConsistent s) (htd : Filtre5mmWPETG.TransmittedDetected s) :
    ∃ out, Filtre5mmWPETG.EventAction.calls keV acos atan2 s cs = some out ∧
      Filtre5mmWPETG.TableConsistent out ∧ Filtre5mmWPETG.TransmittedDetected out := by
  induction cs generalizing s with
  | nil => exact ⟨s, rfl, hwf, htd⟩
  | cons c cs ih =>
    obtain ⟨s1, hs1, hwf1, htd1⟩ :=
      Filtre5mmWPETG.EventAction.call_invariant keV acos atan2 s c hwf htd
    obtain ⟨out, hout, hwf2, htd2⟩ := ih s1 hwf1 htd1
    refine ⟨out, ?_, hwf2, htd2⟩
    simp only [Filtre5mmWPETG.EventAction.calls, hs1, Option.some_bind]
    exact hout

end LemmasOnRuns

section Claims

variable {K : Type} [LinearOrderedField K]

/-- C1. Relative-tolerance tracker: a registered primary with both crossings recorded and a
positive upstream energy is flagged transmitted by `EndOfEventAction` exactly when
`energyDownstream / energyUpstream > 1 - fTransmissionTolerance`. -/
theorem C1_transmitted_iff_ratio_above (s : Filtre5mmWPETG.EventAction K) (i : Nat)
    (g : Filtre5mmWPETG.PrimaryGammaInfo K) (hg : s.fPrimaryGammas[i]? = some g)
    (hup : g.detectedUpstream = true) (hdown : g.detectedDownstream = true)
    (hpos : 0 < g.energyUpstream) :
    ∃ g1, (Filtre5mmWPETG.EventAction.EndOfEventAction s).1.fPrimaryGammas[i]? = some g1 ∧
      (g1.transmitted = true ↔
        g.energyDownstream / g.energyUpstream > 1 - s.fTransmissionTolerance) := by
  refine ⟨Filtre5mmWPETG.EventAction.finalizeGamma s.fTransmissionTolerance g, ?_, ?_⟩
  · simp [Filtre5mmWPETG.EventAction.EndOfEventAction, List.getElem?_map, hg]
  · simp [Filtre5mmWPETG.EventAction.finalizeGamma, hup, hdown, fdiv_of_ne_zero _ hpos.ne.symm]

/-- C1, at the values of the specification: with tolerance 0.01 and upstream energy 100, a
downstream energy 99.5 is transmitted and a downstream energy 98 is not. -/
theorem C1_transmitted_iff_ratio_above_witness :
    (∃ g1, (Filtre5mmWPETG.EventAction.EndOfEventAction
        (Examples.crossedEvent 100 (199 / 2))).1.fPrimaryGammas[0]? = some g1 ∧
      g1.transmitted = true) ∧
    (∃ g1, (Filtre5mmWPETG.EventAction.EndOfEventAction
        (Examples.crossedEvent 100 98)).1.fPrimaryGammas[0]? = some g1 ∧
      g1.transmitted = false) := by
  constructor
  · obtain ⟨g1, h1, h2⟩ := C1_transmitted_iff_ratio_above
      (Examples.crossedEvent 100 (199 / 2)) 0 (Examples.crossedGamma 100 (199 / 2))
      rfl rfl rfl (by norm_num [Examples.crossedGamma])
    exact ⟨g1, h1, h2.mpr (by
      norm_num [Examples.crossedGamma, Examples.crossedEvent, Filtre5mmWPETG.EventAction.ctor])⟩
  · obtain ⟨g1, h1, h2⟩ := C1_transmitted_iff_ratio_above
      (Examples.crossedEvent 100 98) 0 (Examples.crossedGamma 100 98)
      rfl rfl rfl (by norm_num [Examples.crossedGamma])
    refine ⟨g1, h1, ?_⟩
    cases ht : g1.transmitted
    · rfl
    · exact absurd (h2.mp ht) (by
        norm_num [Examples.crossedGamma, Examples.crossedEvent, Filtre5mmWPETG.EventAction.ctor])

/-- C2. `CalculateIrradiationTime(n)` is `n / (f * A)` whenever the solid-angle fraction
`f = (1 - cos(coneAngle)) / 2` and the activity `A` are positive. -/
theorem C2_irradiation_time_formula (cos : K → K) (r : RunAction K) (n : Int)
    (hf : 0 < (1 - cos r.fConeAngle) / 2) (hA : 0 < r.fActivity4pi) :
    RunAction.GetSolidAngleFraction cos r = (1 - cos r.fConeAngle) / 2 ∧
    RunAction.CalculateIrradiationTime cos r n =
      some ((n : K) / ((1 - cos r.fConeAngle) / 2 * r.fActivity4pi)) :=
  ⟨rfl, RunAction.CalculateIrradiationTime_of_pos cos r n hf hA⟩

/-- C2, at the values of the specification: over the reals, a cone of 60 degrees, an
activity of 44000 Bq and 1000 events give `f = 1/4` and `T = 1/11` s. -/
theorem C2_irradiation_time_formula_witness :
    RunAction.GetSolidAngleFraction Real.cos
        (RunAction.SetConeAngle (RunAction.ctor (Real.pi / 180) 10)
          (60 * (Real.pi / 180))) = 1 / 4 ∧
    RunAction.CalculateIrradiationTime Real.cos
        (RunAction.SetConeAngle (RunAction.ctor (Real.pi / 180) 10)
          (60 * (Real.pi / 180))) 1000 = some (1 / 11) := by
  have hc : Real.cos (60 * (Real.pi / 180)) = 1 / 2 := by
    rw [show 60 * (Real.pi / 180) = Real.pi / 3 by ring, Real.cos_pi_div_three]
  have h := C2_irradiation_time_formula Real.cos
    (RunAction.SetConeAngle (RunAction.ctor (Real.pi / 180) 10) (60 * (Real.pi / 180))) 1000
    (by simp only [RunAction.SetConeAngle, hc]; norm_num)
    (by simp only [RunAction.SetConeAngle, RunAction.ctor]; norm_num)
  refine ⟨?_, ?_⟩
  · rw [h.1]; simp only [RunAction.SetConeAngle, hc]; norm_num
  · rw [h.2]; simp only [RunAction.SetConeAngle, RunAction.ctor, hc]; norm_num

/-- C3. `CalculateDoseRate(D, n)` always returns, without dividing by zero: the value is
`D * f * A / n` when `f`, `A` and `n` are positive, and `0` in every other case. -/
theorem C3_dose_rate_total (cos : K → K) (r : RunAction K) (D : K) (n : Int) :
    RunAction.CalculateDoseRate cos r D n =
      some (if 0 < RunAction.GetSolidAngleFraction cos r ∧ 0 < r.fActivity4pi ∧ 0 < n then
        D * RunAction.GetSolidAngleFraction cos r * r.fActivity4pi / (n : K) else 0) := by
  by_cases h : 0 < RunAction.GetSolidAngleFraction cos r ∧ 0 < r.fActivity4pi
  · obtain ⟨hf, hA⟩ := h
    have hfA : 0 < RunAction.GetSolidAngleFraction cos r * r.fActivity4pi := mul_pos hf hA
    rw [RunAction.CalculateDoseRate, RunAction.CalculateIrradiationTime_of_pos cos r n hf hA]
    simp only [Option.some_bind]
    by_cases hn : 0 < n
    · have hnK : (0 : K) < (n : K) := by exact_mod_cast hn
      have hT : 0 < (n : K) / (RunAction.GetSolidAngleFraction cos r * r.fActivity4pi) :=
        div_pos hnK hfA
      rw [if_neg (not_le.mpr hT), fdiv_of_ne_zero _ hT.ne.symm, if_pos ⟨hf, hA, hn⟩]
      congr 1
      field_simp
      ring
    · have hnK : (n : K) ≤ 0 := by exact_mod_cast not_lt.mp hn
      have hT : (n : K) / (RunAction.GetSolidAngleFraction cos r * r.fActivity4pi) ≤ 0 :=
        div_nonpos_of_nonpos_of_nonneg hnK hfA.le
      rw [if_pos hT, if_neg (fun hc => hn hc.2.2)]
  · rw [RunAction.CalculateDoseRate, RunAction.CalculateIrradiationTime_of_not_pos cos r n h]
    simp only [Option.some_bind, le_refl, if_true]
    rw [if_neg (fun hc => h ⟨hc.1, hc.2.1⟩)]

/-- C4. `EndOfRunAction` on a run with events: the dose of ring `i` is
`(fRingTotalEnergy[i] / fRingMasses[i]) / gray` when the mass is positive and `0` otherwise,
and its dose rate in nGy/h is `CalculateDoseRate(dose_Gy, nofEvents) * 3600 * 10^9`, for
every accumulator state and configuration (`gray` is the non-zero unit constant). -/
theorem C4_ring_dose_and_rate (cos sqrt : K → K) (gray : K) (r : RunAction K) (nofEvents : Int)
    (hgray : gray ≠ 0) (hn : nofEvents ≠ 0) :
    ∃ summary, RunAction.EndOfRunAction cos sqrt gray r nofEvents = some summary ∧
      ∀ i : Fin kNbWaterRings,
        (summary.rings i).dose_Gy =
          some (if r.fRingMasses i > 0 then r.fRingTotalEnergy i / r.fRingMasses i / gray
            else 0) ∧
        (summary.rings i).doseRate_nGyPerH =
          (RunAction.CalculateDoseRate cos r
            (if r.fRingMasses i > 0 then r.fRingTotalEnergy i / r.fRingMasses i / gray else 0)
            nofEvents).map fun q => q * 3600 * 10 ^ 9 := by
  simp only [RunAction.EndOfRunAction, if_neg hn]
  refine ⟨_, rfl, fun i => ?_⟩
  simp only [RunAction.ringReport, RunAction.ringDose_Gy_eq gray hgray,
    RunAction.doseRate_nGyPerH_eq]
  norm_num

/-- C4 on a run with one deposit of 3 in ring 1 (mass 2), cosine 1/2, 1000 events. -/
theorem C4_ring_dose_and_rate_witness :
    ((1 : ℚ) / 10 ^ 12 ≠ 0 ∧ (1000 : Int) ≠ 0) ∧
    ∃ summary, RunAction.EndOfRunAction (fun _ => 1 / 2) (fun x => x) (1 / 10 ^ 12)
        Examples.sampleRun 1000 = some summary ∧
      ∀ i : Fin kNbWaterRings,
        (summary.rings i).dose_Gy =
          some (if Examples.sampleRun.fRingMasses i > 0 then
            Examples.sampleRun.fRingTotalEnergy i / Examples.sampleRun.fRingMasses i /
              (1 / 10 ^ 12) else 0) ∧
        (summary.rings i).doseRate_nGyPerH =
          (RunAction.CalculateDoseRate (fun _ => 1 / 2) Examples.sampleRun
            (if Examples.sampleRun.fRingMasses i > 0 then
              Examples.sampleRun.fRingTotalEnergy i / Examples.sampleRun.fRingMasses i /
                (1 / 10 ^ 12) else 0)
            1000).map fun q => q * 3600 * 10 ^ 9 :=
  ⟨⟨by norm_num, by norm_num⟩,
    C4_ring_dose_and_rate (fun _ => 1 / 2) (fun x => x) (1 / 10 ^ 12) Examples.sampleRun 1000
      (by norm_num) (by norm_num)⟩

/-- C5. Hand-over of an event to the run accumulator at the end of `EndOfEventAction`
(absolute-tolerance variant): a ring with a positive deposit `d` gains `d` in
`fRingTotalEnergy`, `d * d` in `fRingTotalEnergy2` and 1 in `fRingEventCount`; a ring with
deposit 0 keeps its three entries; an event without any deposit changes no entry of
`fRingEventCount` or `fRingTotalEnergy`. -/
theorem C5_ring_accumulation (s : PuitsCouronne23.EventAction K) (run : RunAction K) :
    ∃ out, PuitsCouronne23.EventAction.EndOfEventAction s (some run) = some out ∧
      (∀ i : Fin kNbWaterRings, s.fRingEnergyDeposit i > 0 →
        out.fRingTotalEnergy i = run.fRingTotalEnergy i + s.fRingEnergyDeposit i ∧
        out.fRingTotalEnergy2 i = run.fRingTotalEnergy2 i + s.fRingEnergyDeposit i ^ 2 ∧
        out.fRingEventCount i = run.fRingEventCount i + 1) ∧
      (∀ i : Fin kNbWaterRings, s.fRingEnergyDeposit i = 0 →
        out.fRingTotalEnergy i = run.fRingTotalEnergy i ∧
        out.fRingTotalEnergy2 i = run.fRingTotalEnergy2 i ∧
        out.fRingEventCount i = run.fRingEventCount i) ∧
      ((∀ i : Fin kNbWaterRings, s.fRingEnergyDeposit i = 0) →
        out.fRingEventCount = run.fRingEventCount ∧
        out.fRingTotalEnergy = run.fRingTotalEnergy) := by
  have key : ∀ i : Fin kNbWaterRings,
      (PuitsCouronne23.EventAction.handOver s run).fRingTotalEnergy i =
        (if s.fRingEnergyDeposit i > 0 then run.fRingTotalEnergy i + s.fRingEnergyDeposit i
          else run.fRingTotalEnergy i) ∧
      (PuitsCouronne23.EventAction.handOver s run).fRingTotalEnergy2 i =
        (if s.fRingEnergyDeposit i > 0 then
          run.fRingTotalEnergy2 i + s.fRingEnergyDeposit i * s.fRingEnergyDeposit i
          else run.fRingTotalEnergy2 i) ∧
      (PuitsCouronne23.EventAction.handOver s run).fRingEventCount i =
        (if s.fRingEnergyDeposit i > 0 then run.fRingEventCount i + 1
          else run.fRingEventCount i) := by
    intro i
    have hmem : i ∈ ringIndices := mem_ringIndices i
    have h := RunAction.foldl_AddRingEnergy s.fRingEnergyDeposit ringIndices
      nodup_ringIndices
      (RunAction.RecordEventStatistics run (s.fPrimaryGammas.length : Int)
        (s.fPrimaryGammas.map fun g => g.energyInitial)
        (s.fPrimaryGammas.foldl PuitsCouronne23.EventAction.classify (0, 0, 0)).1
        (s.fPrimaryGammas.foldl PuitsCouronne23.EventAction.classify (0, 0, 0)).2.1
        (PuitsCouronne23.EventAction.GetTotalWaterEnergy s)) i
    simpa [hmem, PuitsCouronne23.EventAction.handOver, RunAction.RecordEventStatistics] using h
  refine ⟨PuitsCouronne23.EventAction.handOver s run, rfl, ?_, ?_, ?_⟩
  · intro i hi
    obtain ⟨h1, h2, h3⟩ := key i
    rw [h1, h2, h3]
    simp [hi, pow_two]
  · intro i hi
    obtain ⟨h1, h2, h3⟩ := key i
    rw [h1, h2, h3]
    simp [hi]
  · intro hall
    constructor
    · funext i
      rw [(key i).2.2]
      simp [hall i]
    · funext i
      rw [(key i).1]
      simp [hall i]

/-- C5 on an event with one deposit of 3 in ring 1, handed to an accumulator that already
holds one deposit of 3 in that ring: ring 1 goes to energy 6, squared energy 18 and count 2,
ring 0 keeps count 0. -/
theorem C5_ring_accumulation_witness :
    ∃ out, PuitsCouronne23.EventAction.EndOfEventAction
        (PuitsCouronne23.EventAction.AddRingEnergy (PuitsCouronne23.EventAction.ctor (1 / 1000)) 1 3)
        (some Examples.sampleRun) = some out ∧
      out.fRingTotalEnergy 1 = 6 ∧ out.fRingTotalEnergy2 1 = 18 ∧ out.fRingEventCount 1 = 2 ∧
      out.fRingEventCount 0 = 0 := by
  have hslot : ringSlot 1 = some 1 := by decide
  obtain ⟨out, hout, hpos, hzero, -⟩ := C5_ring_accumulation
    (PuitsCouronne23.EventAction.AddRingEnergy (PuitsCouronne23.EventAction.ctor (1 / 1000)) 1 3)
    Examples.sampleRun
  have h1 := hpos 1 (by
    simp [PuitsCouronne23.EventAction.AddRingEnergy, PuitsCouronne23.EventAction.ctor, hslot])
  have h0 := hzero 0 (by
    simp [PuitsCouronne23.EventAction.AddRingEnergy, PuitsCouronne23.EventAction.ctor, hslot])
  refine ⟨out, hout, ?_, ?_, ?_, ?_⟩
  · rw [h1.1]
    simp [PuitsCouronne23.EventAction.AddRingEnergy, PuitsCouronne23.EventAction.ctor, hslot,
      Examples.sampleRun, RunAction.AddRingEnergy, RunAction.BeginOfRunAction]
    norm_num
  · rw [h1.2.1]
    simp [PuitsCouronne23.EventAction.AddRingEnergy, PuitsCouronne23.EventAction.ctor, hslot,
      Examples.sampleRun, RunAction.AddRingEnergy, RunAction.BeginOfRunAction]
    norm_num
  · rw [h1.2.2]
    simp [Examples.sampleRun, RunAction.AddRingEnergy, RunAction.BeginOfRunAction, hslot]
  · rw [h0.2.2]
    simp [Examples.sampleRun, RunAction.AddRingEnergy, RunAction.BeginOfRunAction, hslot]

/-- C6. When no counter leaves the range of a `G4int`, `RecordEventStatistics` adds 1 to
`fTotalEvents`, `nPrimaries` to `fTotalPrimariesGenerated`, `nTransmitted` to
`fTotalTransmitted`, `nAbsorbed` to `fTotalAbsorbed`, 1 to `fTotalEventsWithZeroGamma`
exactly when `nPrimaries = 0` and 1 to `fTotalWaterEventCount` exactly when
`totalDeposit > 0`; the ring arrays, the ring masses and `fTotalWaterEnergy` are unchanged,
and the six counters it leaves are values of a `G4int`. -/
theorem C6_record_event_statistics (r : RunAction K) (nPrimaries : Int) (energies : List K)
    (nTransmitted nAbsorbed : Int) (totalDeposit : K)
    (hEvents : InG4intRange (r.fTotalEvents + 1))
    (hPrimaries : InG4intRange (r.fTotalPrimariesGenerated + nPrimaries))
    (hTransmitted : InG4intRange (r.fTotalTransmitted + nTransmitted))
    (hAbsorbed : InG4intRange (r.fTotalAbsorbed + nAbsorbed))
    (hZeroGamma : InG4intRange
      (r.fTotalEventsWithZeroGamma + (if nPrimaries = 0 then 1 else 0)))
    (hWater : InG4intRange (r.fTotalWaterEventCount + (if totalDeposit > 0 then 1 else 0))) :
    let out := RunAction.RecordEventStatistics r nPrimaries energies nTransmitted nAbsorbed
      totalDeposit
    out.fTotalEvents = r.fTotalEvents + 1 ∧
    out.fTotalPrimariesGenerated = r.fTotalPrimariesGenerated + nPrimaries ∧
    out.fTotalTransmitted = r.fTotalTransmitted + nTransmitted ∧
    out.fTotalAbsorbed = r.fTotalAbsorbed + nAbsorbed ∧
    out.fTotalEventsWithZeroGamma =
      r.fTotalEventsWithZeroGamma + (if nPrimaries = 0 then 1 else 0) ∧
    out.fTotalWaterEventCount = r.fTotalWaterEventCount + (if totalDeposit > 0 then 1 else 0) ∧
    out.fRingTotalEnergy = r.fRingTotalEnergy ∧
    out.fRingTotalEnergy2 = r.fRingTotalEnergy2 ∧
    out.fRingEventCount = r.fRingEventCount ∧
    out.fRingMasses = r.fRingMasses ∧
    out.fTotalWaterEnergy = r.fTotalWaterEnergy ∧
    InG4intRange out.fTotalEvents ∧ InG4intRange out.fTotalPrimariesGenerated ∧
    InG4intRange out.fTotalTransmitted ∧ InG4intRange out.fTotalAbsorbed ∧
    InG4intRange out.fTotalEventsWithZeroGamma ∧
    InG4intRange out.fTotalWaterEventCount := by
  have hzero : (RunAction.RecordEventStatistics r nPrimaries energies nTransmitted nAbsorbed
      totalDeposit).fTotalEventsWithZeroGamma =
      r.fTotalEventsWithZeroGamma + (if nPrimaries = 0 then 1 else 0) := by
    by_cases h : nPrimaries = 0 <;> simp [RunAction.RecordEventStatistics, h]
  have hwater : (RunAction.RecordEventStatistics r nPrimaries energies nTransmitted nAbsorbed
      totalDeposit).fTotalWaterEventCount =
      r.fTotalWaterEventCount + (if totalDeposit > 0 then 1 else 0) := by
    by_cases h : totalDeposit > 0 <;> simp [RunAction.RecordEventStatistics, h]
  refine ⟨rfl, rfl, rfl, rfl, hzero, hwater, rfl, rfl, rfl, rfl, rfl, hEvents, hPrimaries,
    hTransmitted, hAbsorbed, ?_, ?_⟩
  · rw [hzero]
    exact hZeroGamma
  · rw [hwater]
    exact hWater

/-- C6 at the accumulator `Examples.sampleRun` (all counters 0) and an event with two
primaries, one transmitted and one absorbed, and a deposit of 3: the counters become 1, 2,
1, 1, 0 and 1. -/
theorem C6_record_event_statistics_witness :
    (RunAction.RecordEventStatistics Examples.sampleRun 2 [1, 2] 1 1 3).fTotalEvents = 1 ∧
    (RunAction.RecordEventStatistics Examples.sampleRun 2 [1, 2] 1 1
      3).fTotalPrimariesGenerated = 2 ∧
    (RunAction.RecordEventStatistics Examples.sampleRun 2 [1, 2] 1 1 3).fTotalTransmitted = 1 ∧
    (RunAction.RecordEventStatistics Examples.sampleRun 2 [1, 2] 1 1 3).fTotalAbsorbed = 1 ∧
    (RunAction.RecordEventStatistics Examples.sampleRun 2 [1, 2] 1 1
      3).fTotalEventsWithZeroGamma = 0 ∧
    (RunAction.RecordEventStatistics Examples.sampleRun 2 [1, 2] 1 1
      3).fTotalWaterEventCount = 1 := by
  have h1 : Examples.sampleRun.fTotalEvents = 0 := rfl
  have h2 : Examples.sampleRun.fTotalPrimariesGenerated = 0 := rfl
  have h3 : Examples.sampleRun.fTotalTransmitted = 0 := rfl
  have h4 : Examples.sampleRun.fTotalAbsorbed = 0 := rfl
  have h5 : Examples.sampleRun.fTotalEventsWithZeroGamma = 0 := rfl
  have h6 : Examples.sampleRun.fTotalWaterEventCount = 0 := rfl
  have h := C6_record_event_statistics Examples.sampleRun 2 [1, 2] 1 1 3
    (by rw [h1]; norm_num [InG4intRange]) (by rw [h2]; norm_num [InG4intRange])
    (by rw [h3]; norm_num [InG4intRange]) (by rw [h4]; norm_num [InG4intRange])
    (by rw [h5]; norm_num [InG4intRange]) (by rw [h6]; norm_num [InG4intRange])
  simp only at h
  obtain ⟨e1, e2, e3, e4, e5, e6, -⟩ := h
  rw [e1, e2, e3, e4, e5, e6, h1, h2, h3, h4, h5, h6]
  norm_num

/-- C7. From the state left by `BeginOfRunAction`, `N` events without primaries (`N` below
`2^31`) leave `fTotalEventsWithZeroGamma = N`, `fTotalEvents = N` and
`fTotalPrimariesGenerated = 0`, each within the range of a `G4int`. -/
theorem C7_zero_primary_events (r0 : RunAction K) (detector : Option (Fin kNbWaterRings → K))
    (calls : List (List K × Int × Int × K)) (hN : calls.length < 2 ^ 31) :
    let out := calls.foldl
      (fun r c => RunAction.RecordEventStatistics r 0 c.1 c.2.1 c.2.2.1 c.2.2.2)
      (RunAction.BeginOfRunAction r0 detector)
    out.fTotalEventsWithZeroGamma = (calls.length : Int) ∧
    out.fTotalEvents = (calls.length : Int) ∧
    out.fTotalPrimariesGenerated = 0 ∧
    (0 ≤ out.fTotalEventsWithZeroGamma ∧ out.fTotalEventsWithZeroGamma < 2 ^ 31) ∧
    (0 ≤ out.fTotalEvents ∧ out.fTotalEvents < 2 ^ 31) := by
  have h := RunAction.foldl_RecordEventStatistics_zero calls
    (RunAction.BeginOfRunAction r0 detector)
  simp only at h
  obtain ⟨h1, h2, h3⟩ := h
  have hN1 : (calls.length : Int) < 2 ^ 31 := by exact_mod_cast hN
  have hN0 : (0 : Int) ≤ (calls.length : Int) := Int.natCast_nonneg _
  have hb1 : (RunAction.BeginOfRunAction r0 detector).fTotalEventsWithZeroGamma = 0 := rfl
  have hb2 : (RunAction.BeginOfRunAction r0 detector).fTotalEvents = 0 := rfl
  have hb3 : (RunAction.BeginOfRunAction r0 detector).fTotalPrimariesGenerated = 0 := rfl
  rw [hb1, zero_add] at h1
  rw [hb2, zero_add] at h2
  rw [hb3] at h3
  simp only
  rw [h1, h2, h3]
  exact ⟨rfl, rfl, rfl, ⟨hN0, hN1⟩, ⟨hN0, hN1⟩⟩

/-- C7 on three events without primaries, after a run that had already counted events. -/
theorem C7_zero_primary_events_witness :
    Examples.threeEmptyEvents.length < 2 ^ 31 ∧
    (Examples.threeEmptyEvents.foldl
        (fun r c => RunAction.RecordEventStatistics r 0 c.1 c.2.1 c.2.2.1 c.2.2.2)
        (RunAction.BeginOfRunAction
          (RunAction.RecordEventStatistics Examples.sampleRun 2 [1, 2] 1 1 3)
          none)).fTotalEventsWithZeroGamma = 3 ∧
    (Examples.threeEmptyEvents.foldl
        (fun r c => RunAction.RecordEventStatistics r 0 c.1 c.2.1 c.2.2.1 c.2.2.2)
        (RunAction.BeginOfRunAction
          (RunAction.RecordEventStatistics Examples.sampleRun 2 [1, 2] 1 1 3)
          none)).fTotalEvents = 3 ∧
    (Examples.threeEmptyEvents.foldl
        (fun r c => RunAction.RecordEventStatistics r 0 c.1 c.2.1 c.2.2.1 c.2.2.2)
        (RunAction.BeginOfRunAction
          (RunAction.RecordEventStatistics Examples.sampleRun 2 [1, 2] 1 1 3)
          none)).fTotalPrimariesGenerated = 0 := by
  have hlen : Examples.threeEmptyEvents.length < 2 ^ 31 := by
    simp [Examples.threeEmptyEvents]
  have h := C7_zero_primary_events
    (RunAction.RecordEventStatistics Examples.sampleRun 2 [1, 2] 1 1 3) none
    Examples.threeEmptyEvents hlen
  exact ⟨hlen, h.1, h.2.1, h.2.2.1⟩

end Claims

section ClaimsOnAnyCarrier

variable {K : Type}

/-- C8. For a track that is not a key of `fTrackIDtoIndex`, each identity-keyed recording
method returns normally and leaves the whole state of the tracker unchanged. -/
theorem C8_unknown_identity_no_op (s : Filtre5mmWPETG.EventAction K) (trackID : Int)
    (energy : K) (volumeName : String) (h : s.fTrackIDtoIndex trackID = none) :
    Filtre5mmWPETG.EventAction.RecordPrimaryUpstream s trackID energy = some s ∧
    Filtre5mmWPETG.EventAction.RecordPrimaryDownstream s trackID energy = some s ∧
    Filtre5mmWPETG.EventAction.RecordFilterExit s trackID energy = some s ∧
    Filtre5mmWPETG.EventAction.RecordWaterEntry s trackID energy = some s ∧
    Filtre5mmWPETG.EventAction.RecordGammaAbsorbed s trackID volumeName = some s :=
  ⟨Filtre5mmWPETG.EventAction.withPrimary_of_none s trackID _ h,
    Filtre5mmWPETG.EventAction.withPrimary_of_none s trackID _ h,
    Filtre5mmWPETG.EventAction.withPrimary_of_none s trackID _ h,
    Filtre5mmWPETG.EventAction.withPrimary_of_none s trackID _ h,
    Filtre5mmWPETG.EventAction.withPrimary_of_none s trackID _ h⟩

/-- C8 on a tracker whose only registered track is 1, called with track 7. -/
theorem C8_unknown_identity_no_op_witness :
    (Examples.crossedEvent 100 98).fTrackIDtoIndex 7 = none ∧
    Filtre5mmWPETG.EventAction.RecordPrimaryUpstream (Examples.crossedEvent 100 98) 7 50 =
      some (Examples.crossedEvent 100 98) ∧
    Filtre5mmWPETG.EventAction.RecordPrimaryDownstream (Examples.crossedEvent 100 98) 7 50 =
      some (Examples.crossedEvent 100 98) ∧
    Filtre5mmWPETG.EventAction.RecordFilterExit (Examples.crossedEvent 100 98) 7 50 =
      some (Examples.crossedEvent 100 98) ∧
    Filtre5mmWPETG.EventAction.RecordWaterEntry (Examples.crossedEvent 100 98) 7 50 =
      some (Examples.crossedEvent 100 98) ∧
    Filtre5mmWPETG.EventAction.RecordGammaAbsorbed (Examples.crossedEvent 100 98) 7
      "FilterLog" = some (Examples.crossedEvent 100 98) :=
  ⟨by simp [Examples.crossedEvent, Function.update],
    C8_unknown_identity_no_op (Examples.crossedEvent 100 98) 7 50 "FilterLog"
      (by simp [Examples.crossedEvent, Function.update])⟩

end ClaimsOnAnyCarrier

section Claims

variable {K : Type} [LinearOrderedField K]

/-- C9. `EventAction::AddRingEnergy(ringIndex, edep)`, in both variants: the deposit array
gains `edep` at position `ringIndex` and is unchanged elsewhere, nothing else changes, and
for `ringIndex < 0` or `ringIndex >= 5` the state is left as it was. -/
theorem C9_event_add_ring_energy (s : Filtre5mmWPETG.EventAction K)
    (t : PuitsCouronne23.EventAction K) (ringIndex : Int) (edep : K) :
    (Filtre5mmWPETG.EventAction.AddRingEnergy s ringIndex edep =
        { s with
          fRingEnergyDeposit := fun j =>
            if ((j : Nat) : Int) = ringIndex then s.fRingEnergyDeposit j + edep
            else s.fRingEnergyDeposit j } ∧
      PuitsCouronne23.EventAction.AddRingEnergy t ringIndex edep =
        { t with
          fRingEnergyDeposit := fun j =>
            if ((j : Nat) : Int) = ringIndex then t.fRingEnergyDeposit j + edep
            else t.fRingEnergyDeposit j }) ∧
    ((0 ≤ ringIndex ∧ ringIndex < 5) →
      ∃ i : Fin kNbWaterRings, ((i : Nat) : Int) = ringIndex ∧
        (Filtre5mmWPETG.EventAction.AddRingEnergy s ringIndex edep).fRingEnergyDeposit i =
          s.fRingEnergyDeposit i + edep ∧
        (PuitsCouronne23.EventAction.AddRingEnergy t ringIndex edep).fRingEnergyDeposit i =
          t.fRingEnergyDeposit i + edep) ∧
    ((ringIndex < 0 ∨ 5 ≤ ringIndex) →
      Filtre5mmWPETG.EventAction.AddRingEnergy s ringIndex edep = s ∧
      PuitsCouronne23.EventAction.AddRingEnergy t ringIndex edep = t) := by
  have hupd : ∀ (dep : Fin kNbWaterRings → K) (i : Fin kNbWaterRings),
      ((i : Nat) : Int) = ringIndex →
      Function.update dep i (dep i + edep) =
        fun j : Fin kNbWaterRings =>
          if ((j : Nat) : Int) = ringIndex then dep j + edep else dep j := by
    intro dep i hi
    funext j
    by_cases hji : j = i
    · subst hji
      simp [hi]
    · have hne : ((j : Nat) : Int) ≠ ringIndex := by
        intro hc
        apply hji
        apply Fin.ext
        have : ((j : Nat) : Int) = ((i : Nat) : Int) := by rw [hc, hi]
        exact_mod_cast this
      simp [Function.update_noteq hji, hne]
  have hnone : ∀ (dep : Fin kNbWaterRings → K), ringSlot ringIndex = none →
      (fun j : Fin kNbWaterRings =>
        if ((j : Nat) : Int) = ringIndex then dep j + edep else dep j) = dep := by
    intro dep hr
    funext j
    have hne : ((j : Nat) : Int) ≠ ringIndex := by
      intro hc
      rw [← hc, ringSlot_coe] at hr
      exact absurd hr (by simp)
    simp [hne]
  have hs : Filtre5mmWPETG.EventAction.AddRingEnergy s ringIndex edep =
        { s with
          fRingEnergyDeposit := fun j =>
            if ((j : Nat) : Int) = ringIndex then s.fRingEnergyDeposit j + edep
            else s.fRingEnergyDeposit j } := by
    unfold Filtre5mmWPETG.EventAction.AddRingEnergy
    cases hr : ringSlot ringIndex with
    | none => rw [hnone _ hr]
    | some i =>
      dsimp only
      rw [hupd s.fRingEnergyDeposit i (ringSlot_eq_some hr)]
  have ht : PuitsCouronne23.EventAction.AddRingEnergy t ringIndex edep =
        { t with
          fRingEnergyDeposit := fun j =>
            if ((j : Nat) : Int) = ringIndex then t.fRingEnergyDeposit j + edep
            else t.fRingEnergyDeposit j } := by
    unfold PuitsCouronne23.EventAction.AddRingEnergy
    cases hr : ringSlot ringIndex with
    | none => rw [hnone _ hr]
    | some i =>
      dsimp only
      rw [hupd t.fRingEnergyDeposit i (ringSlot_eq_some hr)]
  refine ⟨⟨hs, ht⟩, ?_, ?_⟩
  · intro hin
    obtain ⟨h0, h5⟩ := hin
    have hlt : ringIndex.toNat < 5 := by omega
    have hval : ((ringIndex.toNat : Nat) : Int) = ringIndex := by omega
    refine ⟨⟨ringIndex.toNat, hlt⟩, hval, ?_, ?_⟩
    · rw [hs]
      simp [hval]
    · rw [ht]
      simp [hval]
  · intro hout
    have hr : ringSlot ringIndex = none := ringSlot_eq_none (by simpa using hout)
    constructor
    · rw [hs, hnone _ hr]
    · rw [ht, hnone _ hr]

/-- C9 on fresh trackers: index 2 receives the deposit, index 7 and index -1 change
nothing. -/
theorem C9_event_add_ring_energy_witness :
    ((Filtre5mmWPETG.EventAction.AddRingEnergy
        (Filtre5mmWPETG.EventAction.ctor : Filtre5mmWPETG.EventAction ℚ) 7 5 =
        Filtre5mmWPETG.EventAction.ctor ∧
      PuitsCouronne23.EventAction.AddRingEnergy
        (PuitsCouronne23.EventAction.ctor (1 / 1000) : PuitsCouronne23.EventAction ℚ) 7 5 =
        PuitsCouronne23.EventAction.ctor (1 / 1000)) ∧
      (Filtre5mmWPETG.EventAction.AddRingEnergy
        (Filtre5mmWPETG.EventAction.ctor : Filtre5mmWPETG.EventAction ℚ) (-1) 5 =
        Filtre5mmWPETG.EventAction.ctor ∧
      PuitsCouronne23.EventAction.AddRingEnergy
        (PuitsCouronne23.EventAction.ctor (1 / 1000) : PuitsCouronne23.EventAction ℚ) (-1) 5 =
        PuitsCouronne23.EventAction.ctor (1 / 1000))) ∧
    ∃ i : Fin kNbWaterRings, ((i : Nat) : Int) = 2 ∧
      (Filtre5mmWPETG.EventAction.AddRingEnergy
        (Filtre5mmWPETG.EventAction.ctor : Filtre5mmWPETG.EventAction ℚ) 2 5).fRingEnergyDeposit i =
        (Filtre5mmWPETG.EventAction.ctor : Filtre5mmWPETG.EventAction ℚ).fRingEnergyDeposit i + 5 ∧
      (PuitsCouronne23.EventAction.AddRingEnergy
        (PuitsCouronne23.EventAction.ctor (1 / 1000) : PuitsCouronne23.EventAction ℚ) 2
        5).fRingEnergyDeposit i =
        (PuitsCouronne23.EventAction.ctor (1 / 1000) :
          PuitsCouronne23.EventAction ℚ).fRingEnergyDeposit i + 5 :=
  ⟨⟨(C9_event_add_ring_energy Filtre5mmWPETG.EventAction.ctor
        (PuitsCouronne23.EventAction.ctor (1 / 1000)) 7 5).2.2 (Or.inr (by norm_num)),
      (C9_event_add_ring_energy Filtre5mmWPETG.EventAction.ctor
        (PuitsCouronne23.EventAction.ctor (1 / 1000)) (-1) 5).2.2 (Or.inl (by norm_num))⟩,
    (C9_event_add_ring_energy Filtre5mmWPETG.EventAction.ctor
      (PuitsCouronne23.EventAction.ctor (1 / 1000)) 2 5).2.1 ⟨by norm_num, by norm_num⟩⟩

/-- C10. `BeginOfEventAction`, in both variants, on an event carrying `n` primary gammas:
the table holds the `n` gammas in generation order with tracks `1..n`, zero crossing
energies and every flag false; the identity map sends exactly `k` in `1..n` to `k - 1`; the
ring deposits are zero and the secondary list is empty; and the result depends on the prior
state through the configuration (`fTransmissionTolerance`, `fVerboseLevel`) only.  The
relative-tolerance variant registers the primaries of PDG code 22; the absolute-tolerance
variant is stated for an event whose primaries are all gammas. -/
theorem C10_begin_of_event_action (keV : K) (acos : K → K) (atan2 : K → K → K)
    (s s2 : Filtre5mmWPETG.EventAction K) (t t2 : PuitsCouronne23.EventAction K)
    (event : G4Event K) :
    (Filtre5mmWPETG.Registered
        (Filtre5mmWPETG.EventAction.BeginOfEventAction keV acos atan2 s event)
        (event.primaryVertices.flatten.filter fun p => decide (p.PDGcode = 22)) ∧
      (Filtre5mmWPETG.EventAction.BeginOfEventAction keV acos atan2 s event).fRingEnergyDeposit =
        (fun _ => 0) ∧
      (Filtre5mmWPETG.EventAction.BeginOfEventAction keV acos atan2 s event).fRingEnergyByLine =
        (fun _ _ => 0) ∧
      (Filtre5mmWPETG.EventAction.BeginOfEventAction keV acos atan2 s
        event).fSecondariesDownstream = [] ∧
      (Filtre5mmWPETG.EventAction.BeginOfEventAction keV acos atan2 s event).fPreContainerData =
        { nPhotons := 0, sumEPhotons := 0 } ∧
      (Filtre5mmWPETG.EventAction.BeginOfEventAction keV acos atan2 s event).fPostContainerData =
        { nPhotons_backward := 0, sumEPhotons_backward := 0, nElectrons_backward := 0,
          sumEElectrons_backward := 0, nElectrons_forward := 0, sumEElectrons_forward := 0 } ∧
      Filtre5mmWPETG.EventAction.BeginOfEventAction keV acos atan2 s2 event =
        { Filtre5mmWPETG.EventAction.BeginOfEventAction keV acos atan2 s event with
          fTransmissionTolerance := s2.fTransmissionTolerance
          fVerboseLevel := s2.fVerboseLevel }) ∧
    ((∀ p ∈ event.primaryVertices.flatten, p.PDGcode = 22) →
      PuitsCouronne23.Registered
        (PuitsCouronne23.EventAction.BeginOfEventAction acos atan2 t event)
        (event.primaryVertices.flatten.filter fun p => decide (p.PDGcode = 22)) ∧
      (PuitsCouronne23.EventAction.BeginOfEventAction acos atan2 t event).fRingEnergyDeposit =
        (fun _ => 0) ∧
      (PuitsCouronne23.EventAction.BeginOfEventAction acos atan2 t
        event).fSecondariesDownstream = [] ∧
      PuitsCouronne23.EventAction.BeginOfEventAction acos atan2 t2 event =
        { PuitsCouronne23.EventAction.BeginOfEventAction acos atan2 t event with
          fTransmissionTolerance := t2.fTransmissionTolerance
          fVerboseLevel := t2.fVerboseLevel }) := by
  constructor
  · have hreg : Filtre5mmWPETG.Registered (Filtre5mmWPETG.EventAction.clearEvent s)
        ([] : List (G4PrimaryParticle K)) := by
      refine ⟨rfl, ?_, ?_⟩
      · intro k p hp
        simp at hp
      · intro k
        have hk : ¬ (1 ≤ k ∧ k ≤ (([] : List (G4PrimaryParticle K)).length : Int)) := by
          simp only [List.length_nil, Nat.cast_zero]
          omega
        rw [if_neg hk]
        rfl
    have h1 := Filtre5mmWPETG.EventAction.registered_vertices keV acos atan2
      event.primaryVertices _ _ hreg
    rw [List.nil_append] at h1
    obtain ⟨table, map, hf⟩ := Filtre5mmWPETG.EventAction.frame_vertices keV acos atan2
      event.primaryVertices (Filtre5mmWPETG.EventAction.clearEvent s)
    obtain ⟨table2, map2, hf2⟩ := Filtre5mmWPETG.EventAction.frame_vertices keV acos atan2
      event.primaryVertices (Filtre5mmWPETG.EventAction.clearEvent s2)
    have hag := Filtre5mmWPETG.EventAction.agree_vertices keV acos atan2 event.primaryVertices
      (Filtre5mmWPETG.EventAction.clearEvent s) (Filtre5mmWPETG.EventAction.clearEvent s2)
      ⟨rfl, rfl⟩
    rw [hf, hf2] at hag
    obtain ⟨ht, hm⟩ := hag
    simp only at ht hm
    refine ⟨h1, ?_, ?_, ?_, ?_, ?_, ?_⟩
    · simp only [Filtre5mmWPETG.EventAction.BeginOfEventAction, hf]
      rfl
    · simp only [Filtre5mmWPETG.EventAction.BeginOfEventAction, hf]
      rfl
    · simp only [Filtre5mmWPETG.EventAction.BeginOfEventAction, hf]
      rfl
    · simp only [Filtre5mmWPETG.EventAction.BeginOfEventAction, hf]
      rfl
    · simp only [Filtre5mmWPETG.EventAction.BeginOfEventAction, hf]
      rfl
    · simp only [Filtre5mmWPETG.EventAction.BeginOfEventAction, hf, hf2, ← ht, ← hm]
      rfl
  · intro hall
    have hreg : PuitsCouronne23.Registered (PuitsCouronne23.EventAction.clearEvent t)
        ([] : List (G4PrimaryParticle K)) := by
      refine ⟨rfl, ?_, ?_⟩
      · intro k p hp
        simp at hp
      · intro k
        have hk : ¬ (1 ≤ k ∧ k ≤ (([] : List (G4PrimaryParticle K)).length : Int)) := by
          simp only [List.length_nil, Nat.cast_zero]
          omega
        rw [if_neg hk]
        rfl
    have h1 := PuitsCouronne23.EventAction.registered_vertices_absolute acos atan2
      event.primaryVertices (PuitsCouronne23.EventAction.clearEvent t, 1) [] ⟨hreg, by simp⟩
    rw [List.nil_append] at h1
    have hfilter : (event.primaryVertices.flatten.filter fun p => decide (p.PDGcode = 22)) =
        event.primaryVertices.flatten := by
      rw [List.filter_eq_self]
      intro p hp
      simp [hall p hp]
    obtain ⟨table, map, next, hf, hf2⟩ := PuitsCouronne23.EventAction.frame_vertices_absolute acos atan2
      event.primaryVertices (PuitsCouronne23.EventAction.clearEvent t)
      (PuitsCouronne23.EventAction.clearEvent t2) 1 ⟨rfl, rfl⟩
    rw [hfilter]
    refine ⟨h1, ?_, ?_, ?_⟩
    · simp only [PuitsCouronne23.EventAction.BeginOfEventAction, hf]
      rfl
    · simp only [PuitsCouronne23.EventAction.BeginOfEventAction, hf]
      rfl
    · simp only [PuitsCouronne23.EventAction.BeginOfEventAction, hf, hf2]
      rfl

/-- C10 on an event with two gammas, from a tracker that still holds a previous event:
both variants register exactly the two gammas. -/
theorem C10_begin_of_event_action_witness :
    (∀ p ∈ Examples.twoGammaEvent.primaryVertices.flatten, p.PDGcode = 22) ∧
    Filtre5mmWPETG.Registered
      (Filtre5mmWPETG.EventAction.BeginOfEventAction (1 / 1000) (fun _ => 0) (fun _ _ => 0)
        (Examples.crossedEvent 100 98) Examples.twoGammaEvent)
      (Examples.twoGammaEvent.primaryVertices.flatten.filter fun p => decide (p.PDGcode = 22)) ∧
    PuitsCouronne23.Registered
      (PuitsCouronne23.EventAction.BeginOfEventAction (fun _ => 0) (fun _ _ => 0)
        (PuitsCouronne23.EventAction.ctor (1 / 1000)) Examples.twoGammaEvent)
      (Examples.twoGammaEvent.primaryVertices.flatten.filter fun p => decide (p.PDGcode = 22)) ∧
    (Examples.twoGammaEvent.primaryVertices.flatten.filter
      fun p => decide (p.PDGcode = 22)).length = 2 := by
  have hall : ∀ p ∈ Examples.twoGammaEvent.primaryVertices.flatten, p.PDGcode = 22 := by
    intro p hp
    simp only [Examples.twoGammaEvent, List.flatten_cons, List.flatten_nil, List.append_nil,
      List.mem_cons, List.mem_singleton, List.not_mem_nil, or_false] at hp
    rcases hp with hp | hp <;> rw [hp]
  have h := C10_begin_of_event_action (1 / 1000) (fun _ => 0) (fun _ _ => 0)
    (Examples.crossedEvent 100 98) (Examples.crossedEvent 100 98)
    (PuitsCouronne23.EventAction.ctor (1 / 1000)) (PuitsCouronne23.EventAction.ctor (1 / 1000))
    Examples.twoGammaEvent
  refine ⟨hall, h.1.1, (h.2 hall).1, ?_⟩
  simp [Examples.twoGammaEvent]

/-- C12. `EndOfEventAction` on a primary whose downstream crossing was never recorded sets
`absorbedInFilter` when it never exited the filter; otherwise sets `absorbedInWater` when it
entered the water; otherwise sets neither flag.  On a primary whose downstream crossing
was recorded it changes neither flag. -/
theorem C12_absorption_labels (s : Filtre5mmWPETG.EventAction K) (i : Nat)
    (g : Filtre5mmWPETG.PrimaryGammaInfo K) (hg : s.fPrimaryGammas[i]? = some g) :
    ∃ g1, (Filtre5mmWPETG.EventAction.EndOfEventAction s).1.fPrimaryGammas[i]? = some g1 ∧
      (g.detectedDownstream = false → g.exitedFilter = false →
        g1.absorbedInFilter = true ∧ g1.absorbedInWater = g.absorbedInWater) ∧
      (g.detectedDownstream = false → g.exitedFilter = true → g.enteredWater = true →
        g1.absorbedInWater = true ∧ g1.absorbedInFilter = g.absorbedInFilter) ∧
      (g.detectedDownstream = false → g.exitedFilter = true → g.enteredWater = false →
        g1.absorbedInFilter = g.absorbedInFilter ∧ g1.absorbedInWater = g.absorbedInWater) ∧
      (g.detectedDownstream = true →
        g1.absorbedInFilter = g.absorbedInFilter ∧ g1.absorbedInWater = g.absorbedInWater) := by
  refine ⟨Filtre5mmWPETG.EventAction.finalizeGamma s.fTransmissionTolerance g, ?_, ?_, ?_, ?_, ?_⟩
  · simp [Filtre5mmWPETG.EventAction.EndOfEventAction, List.getElem?_map, hg]
  · intro hd he
    cases hu : g.detectedUpstream <;> simp [Filtre5mmWPETG.EventAction.finalizeGamma, hu, hd, he]
  · intro hd he hw
    cases hu : g.detectedUpstream <;>
      simp [Filtre5mmWPETG.EventAction.finalizeGamma, hu, hd, he, hw]
  · intro hd he hw
    cases hu : g.detectedUpstream <;>
      simp [Filtre5mmWPETG.EventAction.finalizeGamma, hu, hd, he, hw]
  · intro hd
    cases hu : g.detectedUpstream <;> simp [Filtre5mmWPETG.EventAction.finalizeGamma, hu, hd]

/-- C12 on a primary seen upstream only that never exited the filter: it leaves
`EndOfEventAction` labelled absorbed in the filter, and not in the water. -/
theorem C12_absorption_labels_witness :
    Examples.lostEvent.fPrimaryGammas[0]? = some Examples.lostGamma ∧
    ∃ g1, (Filtre5mmWPETG.EventAction.EndOfEventAction Examples.lostEvent).1.fPrimaryGammas[0]? =
        some g1 ∧
      g1.absorbedInFilter = true ∧ g1.absorbedInWater = false := by
  refine ⟨rfl, ?_⟩
  obtain ⟨g1, h1, h2, -⟩ := C12_absorption_labels Examples.lostEvent 0 Examples.lostGamma rfl
  exact ⟨g1, h1, h2 rfl rfl⟩

/-- C13 as stated fails: a primary not detected downstream that never exited the filter
and never entered the water, without absorption label before `EndOfEventAction`, leaves it
with `absorbedInFilter` set. -/
theorem C13_counterexample :
    Examples.lostGamma.detectedDownstream = false ∧ Examples.lostGamma.exitedFilter = false ∧
    Examples.lostGamma.enteredWater = false ∧ Examples.lostGamma.absorbedInFilter = false ∧
    Examples.lostEvent.fPrimaryGammas[0]? = some Examples.lostGamma ∧
    ((Filtre5mmWPETG.EventAction.EndOfEventAction Examples.lostEvent).1.fPrimaryGammas[0]?).map
      (fun g1 => g1.absorbedInFilter) = some true := by
  refine ⟨rfl, rfl, rfl, rfl, rfl, ?_⟩
  simp [Filtre5mmWPETG.EventAction.EndOfEventAction, Examples.lostEvent,
    Filtre5mmWPETG.EventAction.finalizeGamma, Examples.lostGamma]

/-- C13, amended. A primary not detected downstream that never exited the filter and never
entered the water is labelled absorbed in the filter by `EndOfEventAction`:
`absorbedInFilter` is set and `absorbedInWater` is left as it was. -/
theorem C13_never_exited_is_absorbed_in_filter (s : Filtre5mmWPETG.EventAction K) (i : Nat)
    (g : Filtre5mmWPETG.PrimaryGammaInfo K) (hg : s.fPrimaryGammas[i]? = some g)
    (hdown : g.detectedDownstream = false) (hexit : g.exitedFilter = false)
    (hwater : g.enteredWater = false) :
    ∃ g1, (Filtre5mmWPETG.EventAction.EndOfEventAction s).1.fPrimaryGammas[i]? = some g1 ∧
      g1.absorbedInFilter = true ∧ g1.absorbedInWater = g.absorbedInWater := by
  refine ⟨Filtre5mmWPETG.EventAction.finalizeGamma s.fTransmissionTolerance g, ?_, ?_⟩
  · simp [Filtre5mmWPETG.EventAction.EndOfEventAction, List.getElem?_map, hg]
  · cases hu : g.detectedUpstream <;>
      simp [Filtre5mmWPETG.EventAction.finalizeGamma, hu, hdown, hexit, hwater]

/-- C13, amended, on the primary of the counterexample. -/
theorem C13_never_exited_is_absorbed_in_filter_witness :
    (Examples.lostEvent.fPrimaryGammas[0]? = some Examples.lostGamma ∧
      Examples.lostGamma.detectedDownstream = false ∧ Examples.lostGamma.exitedFilter = false ∧
      Examples.lostGamma.enteredWater = false) ∧
    ∃ g1, (Filtre5mmWPETG.EventAction.EndOfEventAction Examples.lostEvent).1.fPrimaryGammas[0]? =
        some g1 ∧
      g1.absorbedInFilter = true ∧ g1.absorbedInWater = Examples.lostGamma.absorbedInWater :=
  ⟨⟨rfl, rfl, rfl, rfl⟩,
    C13_never_exited_is_absorbed_in_filter Examples.lostEvent 0 Examples.lostGamma rfl rfl rfl
      rfl⟩

/-- C14. An event whose single registered primary has both crossings recorded with
`energyDownstream / energyUpstream > 1 - tolerance`: `EndOfEventAction` reports 1 primary,
1 transmitted and 0 absorbed (in its one `RecordEventStatistics` call), and
`RunAction::RecordEventStatistics` with these numbers, on an accumulator reset by
`BeginOfRunAction` that has received the ring deposits of the event, leaves
`fTotalPrimariesGenerated = 1`, `fTotalTransmitted = 1` and `fTotalAbsorbed = 0`. -/
theorem C14_single_transmitted_primary (s : Filtre5mmWPETG.EventAction K)
    (g : Filtre5mmWPETG.PrimaryGammaInfo K) (hs : s.fPrimaryGammas = [g])
    (hup : g.detectedUpstream = true) (hdown : g.detectedDownstream = true)
    (hne : g.energyUpstream ≠ 0)
    (hratio : g.energyDownstream / g.energyUpstream > 1 - s.fTransmissionTolerance) :
    (Filtre5mmWPETG.EventAction.EndOfEventAction s).1.fPrimaryGammas.length = 1 ∧
    Filtre5mmWPETG.EventAction.GetNumberTransmitted
      (Filtre5mmWPETG.EventAction.EndOfEventAction s).1 = 1 ∧
    Filtre5mmWPETG.EventAction.GetNumberAbsorbed
      (Filtre5mmWPETG.EventAction.EndOfEventAction s).1 = 0 ∧
    (∃ energies totalDeposit ringDeposit,
      Filtre5mmWPETG.RunActionCall.RecordEventStatistics 1 energies 1 0 totalDeposit ringDeposit ∈
        (Filtre5mmWPETG.EventAction.EndOfEventAction s).2) ∧
    ∀ nPrimaries energies nTransmitted nAbsorbed totalDeposit ringDeposit,
      Filtre5mmWPETG.RunActionCall.RecordEventStatistics nPrimaries energies nTransmitted
          nAbsorbed totalDeposit ringDeposit ∈
        (Filtre5mmWPETG.EventAction.EndOfEventAction s).2 →
      (nPrimaries = 1 ∧ nTransmitted = 1 ∧ nAbsorbed = 0) ∧
      ∀ (r0 : RunAction K) (detector : Option (Fin kNbWaterRings → K))
        (deposits : List (Int × K)),
        (RunAction.RecordEventStatistics
          (deposits.foldl (fun r a => RunAction.AddRingEnergy r a.1 a.2)
            (RunAction.BeginOfRunAction r0 detector))
          nPrimaries energies nTransmitted nAbsorbed totalDeposit).fTotalPrimariesGenerated = 1 ∧
        (RunAction.RecordEventStatistics
          (deposits.foldl (fun r a => RunAction.AddRingEnergy r a.1 a.2)
            (RunAction.BeginOfRunAction r0 detector))
          nPrimaries energies nTransmitted nAbsorbed totalDeposit).fTotalTransmitted = 1 ∧
        (RunAction.RecordEventStatistics
          (deposits.foldl (fun r a => RunAction.AddRingEnergy r a.1 a.2)
            (RunAction.BeginOfRunAction r0 detector))
          nPrimaries energies nTransmitted nAbsorbed totalDeposit).fTotalAbsorbed = 0 := by
  have hfin : (Filtre5mmWPETG.EventAction.EndOfEventAction s).1.fPrimaryGammas =
      [{ g with transmitted := true }] := by
    simp [Filtre5mmWPETG.EventAction.EndOfEventAction, hs,
      Filtre5mmWPETG.EventAction.finalizeGamma_of_crossed _ g hup hdown hne, hratio]
  have hT : Filtre5mmWPETG.EventAction.GetNumberTransmitted
      (Filtre5mmWPETG.EventAction.EndOfEventAction s).1 = 1 := by
    simp [Filtre5mmWPETG.EventAction.GetNumberTransmitted, hfin]
  have hA : Filtre5mmWPETG.EventAction.GetNumberAbsorbed
      (Filtre5mmWPETG.EventAction.EndOfEventAction s).1 = 0 := by
    simp [Filtre5mmWPETG.EventAction.GetNumberAbsorbed, hfin, hdown]
  have hframe : ∀ (deposits : List (Int × K)) (r : RunAction K),
      (deposits.foldl (fun r a => RunAction.AddRingEnergy r a.1 a.2) r).fTotalPrimariesGenerated =
        r.fTotalPrimariesGenerated ∧
      (deposits.foldl (fun r a => RunAction.AddRingEnergy r a.1 a.2) r).fTotalTransmitted =
        r.fTotalTransmitted ∧
      (deposits.foldl (fun r a => RunAction.AddRingEnergy r a.1 a.2) r).fTotalAbsorbed =
        r.fTotalAbsorbed := by
    intro deposits
    induction deposits with
    | nil => exact fun r => ⟨rfl, rfl, rfl⟩
    | cons a deposits ih =>
      intro r
      simp only [List.foldl_cons]
      obtain ⟨h1, h2, h3⟩ := ih (RunAction.AddRingEnergy r a.1 a.2)
      rw [h1, h2, h3]
      unfold RunAction.AddRingEnergy
      cases ringSlot a.1 <;> exact ⟨rfl, rfl, rfl⟩
  have hcalls : (Filtre5mmWPETG.EventAction.EndOfEventAction s).2 =
      ((Filtre5mmWPETG.EventAction.EndOfEventAction s).1.fPrimaryGammas.filter
          fun gamma => decide (gamma.gammaLineIndex ≥ 0)).map
        (fun gamma => Filtre5mmWPETG.RunActionCall.RecordGammaLineStatistics gamma.gammaLineIndex
          gamma.exitedFilter gamma.absorbedInFilter gamma.enteredWater gamma.absorbedInWater) ++
      (Filtre5mmWPETG.EventAction.ringCalls (Filtre5mmWPETG.EventAction.EndOfEventAction s).1).1 ++
      [Filtre5mmWPETG.RunActionCall.RecordEventStatistics
          ((Filtre5mmWPETG.EventAction.EndOfEventAction s).1.fPrimaryGammas.length : Int)
          ((Filtre5mmWPETG.EventAction.EndOfEventAction s).1.fPrimaryGammas.map
            fun gamma => gamma.energyInitial)
          (Filtre5mmWPETG.EventAction.GetNumberTransmitted
            (Filtre5mmWPETG.EventAction.EndOfEventAction s).1)
          (Filtre5mmWPETG.EventAction.GetNumberAbsorbed
            (Filtre5mmWPETG.EventAction.EndOfEventAction s).1)
          (Filtre5mmWPETG.EventAction.ringCalls
            (Filtre5mmWPETG.EventAction.EndOfEventAction s).1).2
          (Filtre5mmWPETG.EventAction.EndOfEventAction s).1.fRingEnergyDeposit,
        Filtre5mmWPETG.RunActionCall.RecordPreContainerPlaneData
          (Filtre5mmWPETG.EventAction.EndOfEventAction s).1.fPreContainerData,
        Filtre5mmWPETG.RunActionCall.RecordPostContainerPlaneData
          (Filtre5mmWPETG.EventAction.EndOfEventAction s).1.fPostContainerData] := rfl
  have hlen : ((Filtre5mmWPETG.EventAction.EndOfEventAction s).1.fPrimaryGammas.length : Int) =
      1 := by
    rw [hfin]
    rfl
  refine ⟨by rw [hfin]; rfl, hT, hA, ?_, ?_⟩
  · refine ⟨(Filtre5mmWPETG.EventAction.EndOfEventAction s).1.fPrimaryGammas.map
        fun gamma => gamma.energyInitial,
      (Filtre5mmWPETG.EventAction.ringCalls
        (Filtre5mmWPETG.EventAction.EndOfEventAction s).1).2,
      (Filtre5mmWPETG.EventAction.EndOfEventAction s).1.fRingEnergyDeposit, ?_⟩
    rw [hcalls, hlen, hT, hA]
    simp
  · intro nP energies nT nA totalDeposit ringDeposit hmem
    have hnum : nP = 1 ∧ nT = 1 ∧ nA = 0 := by
      rw [hcalls] at hmem
      simp only [List.mem_append, List.mem_map, List.mem_cons, List.mem_singleton,
        List.not_mem_nil, or_false] at hmem
      rcases hmem with (⟨gamma, -, hc⟩ | hc) | hc | hc | hc
      · exact absurd hc (by simp)
      · rcases Filtre5mmWPETG.EventAction.ringCalls_no_statistics _ _ hc with
          ⟨i, e, h⟩ | ⟨i, j, e, h⟩
        · exact absurd h (by simp)
        · exact absurd h (by simp)
      · injection hc with h1 h2 h3 h4
        rw [h1, h3, h4, hlen, hT, hA]
        exact ⟨rfl, rfl, rfl⟩
      · exact absurd hc (by simp)
      · exact absurd hc (by simp)
    obtain ⟨h1, h2, h3⟩ := hnum
    subst h1 h2 h3
    refine ⟨⟨rfl, rfl, rfl⟩, ?_⟩
    intro r0 detector deposits
    obtain ⟨f1, f2, f3⟩ := hframe deposits (RunAction.BeginOfRunAction r0 detector)
    simp only [RunAction.RecordEventStatistics, f1, f2, f3]
    exact ⟨rfl, rfl, rfl⟩

/-- C14 at the values of the specification: upstream 122 keV, downstream 121 keV,
tolerance 0.01. -/
theorem C14_single_transmitted_primary_witness :
    ((Examples.crossedGamma 122 121).energyUpstream ≠ 0 ∧
      (Examples.crossedGamma 122 121).energyDownstream /
        (Examples.crossedGamma 122 121).energyUpstream >
          1 - (Examples.crossedEvent 122 121).fTransmissionTolerance) ∧
    (Filtre5mmWPETG.EventAction.EndOfEventAction
      (Examples.crossedEvent 122 121)).1.fPrimaryGammas.length = 1 ∧
    Filtre5mmWPETG.EventAction.GetNumberTransmitted
      (Filtre5mmWPETG.EventAction.EndOfEventAction (Examples.crossedEvent 122 121)).1 = 1 ∧
    Filtre5mmWPETG.EventAction.GetNumberAbsorbed
      (Filtre5mmWPETG.EventAction.EndOfEventAction (Examples.crossedEvent 122 121)).1 = 0 := by
  have hne : (Examples.crossedGamma 122 121).energyUpstream ≠ 0 := by
    norm_num [Examples.crossedGamma]
  have hratio : (Examples.crossedGamma 122 121).energyDownstream /
      (Examples.crossedGamma 122 121).energyUpstream >
        1 - (Examples.crossedEvent 122 121).fTransmissionTolerance := by
    norm_num [Examples.crossedGamma, Examples.crossedEvent, Filtre5mmWPETG.EventAction.ctor]
  have h := C14_single_transmitted_primary (Examples.crossedEvent 122 121)
    (Examples.crossedGamma 122 121) rfl rfl rfl hne hratio
  exact ⟨⟨hne, hratio⟩, h.1, h.2.1, h.2.2.1⟩

/-- C11. Relative-tolerance tracker, for a registered track: after any sequence of
`RecordPrimaryUpstream` / `RecordPrimaryDownstream` calls and `EndOfEventAction`, its
finalized record is the finalization of its initial record with the last energy of each
plane written in.  Two sequences that agree on the last upstream and the last downstream
energy of the track (a plane recorded twice against its second value alone, an upstream
and a downstream recording interchanged) therefore finalize to the same record. -/
theorem C11_last_crossing_wins (s : Filtre5mmWPETG.EventAction K) (trackID : Int)
    (index : Nat) (cs1 cs2 : List (Filtre5mmWPETG.Crossing K))
    (hwf : Filtre5mmWPETG.TableConsistent s) (hid : s.fTrackIDtoIndex trackID = some index)
    (hup : Filtre5mmWPETG.lastUpstream trackID cs1 = Filtre5mmWPETG.lastUpstream trackID cs2)
    (hdown :
      Filtre5mmWPETG.lastDownstream trackID cs1 = Filtre5mmWPETG.lastDownstream trackID cs2) :
    ∃ s1 s2 g0,
      Filtre5mmWPETG.EventAction.recordCrossings s cs1 = some s1 ∧
      Filtre5mmWPETG.EventAction.recordCrossings s cs2 = some s2 ∧
      s.fPrimaryGammas[index]? = some g0 ∧
      (Filtre5mmWPETG.EventAction.EndOfEventAction s1).1.fPrimaryGammas[index]? =
        some (Filtre5mmWPETG.EventAction.finalizeGamma s.fTransmissionTolerance
          (Filtre5mmWPETG.withLastCrossings g0 (Filtre5mmWPETG.lastUpstream trackID cs1)
            (Filtre5mmWPETG.lastDownstream trackID cs1))) ∧
      (Filtre5mmWPETG.EventAction.EndOfEventAction s2).1.fPrimaryGammas[index]? =
        (Filtre5mmWPETG.EventAction.EndOfEventAction s1).1.fPrimaryGammas[index]? := by
  obtain ⟨g0, hg0, -⟩ := hwf trackID index hid
  obtain ⟨s1, h1, htol1, hrec1⟩ :=
    Filtre5mmWPETG.EventAction.recordCrossings_consistent cs1 s hwf trackID index g0 hid hg0
  obtain ⟨s2, h2, htol2, hrec2⟩ :=
    Filtre5mmWPETG.EventAction.recordCrossings_consistent cs2 s hwf trackID index g0 hid hg0
  have e1 : (Filtre5mmWPETG.EventAction.EndOfEventAction s1).1.fPrimaryGammas[index]? =
      some (Filtre5mmWPETG.EventAction.finalizeGamma s.fTransmissionTolerance
        (Filtre5mmWPETG.withLastCrossings g0 (Filtre5mmWPETG.lastUpstream trackID cs1)
          (Filtre5mmWPETG.lastDownstream trackID cs1))) := by
    simp [Filtre5mmWPETG.EventAction.EndOfEventAction, List.getElem?_map, hrec1, htol1]
  have e2 : (Filtre5mmWPETG.EventAction.EndOfEventAction s2).1.fPrimaryGammas[index]? =
      some (Filtre5mmWPETG.EventAction.finalizeGamma s.fTransmissionTolerance
        (Filtre5mmWPETG.withLastCrossings g0 (Filtre5mmWPETG.lastUpstream trackID cs2)
          (Filtre5mmWPETG.lastDownstream trackID cs2))) := by
    simp [Filtre5mmWPETG.EventAction.EndOfEventAction, List.getElem?_map, hrec2, htol2]
  refine ⟨s1, s2, g0, h1, h2, hg0, e1, ?_⟩
  rw [e1, e2, hup, hdown]

/-- C11 on track 1 of a tracker: upstream at 50, upstream again at 60, then downstream at
59, against downstream at 59 then upstream at 60: the finalized records coincide. -/
theorem C11_last_crossing_wins_witness :
    (Filtre5mmWPETG.TableConsistent (Examples.crossedEvent 100 98) ∧
      (Examples.crossedEvent 100 98).fTrackIDtoIndex 1 = some 0 ∧
      Filtre5mmWPETG.lastUpstream 1 Examples.crossingsInOrder =
        Filtre5mmWPETG.lastUpstream 1 Examples.crossingsSwapped ∧
      Filtre5mmWPETG.lastDownstream 1 Examples.crossingsInOrder =
        Filtre5mmWPETG.lastDownstream 1 Examples.crossingsSwapped) ∧
    ∃ s1 s2,
      Filtre5mmWPETG.EventAction.recordCrossings (Examples.crossedEvent 100 98)
        Examples.crossingsInOrder = some s1 ∧
      Filtre5mmWPETG.EventAction.recordCrossings (Examples.crossedEvent 100 98)
        Examples.crossingsSwapped = some s2 ∧
      (Filtre5mmWPETG.EventAction.EndOfEventAction s2).1.fPrimaryGammas[0]? =
        (Filtre5mmWPETG.EventAction.EndOfEventAction s1).1.fPrimaryGammas[0]? := by
  have hwf : Filtre5mmWPETG.TableConsistent (Examples.crossedEvent 100 98) := by
    intro k i h
    by_cases hk : k = 1
    · subst hk
      have hi : i = 0 := by
        simpa [Examples.crossedEvent, Function.update] using h.symm
      subst hi
      exact ⟨Examples.crossedGamma 100 98, rfl, rfl⟩
    · simp [Examples.crossedEvent, Function.update, hk] at h
  have hid : (Examples.crossedEvent 100 98).fTrackIDtoIndex 1 = some 0 := by
    simp [Examples.crossedEvent, Function.update]
  have hup : Filtre5mmWPETG.lastUpstream 1 Examples.crossingsInOrder =
      Filtre5mmWPETG.lastUpstream 1 Examples.crossingsSwapped := by
    simp [Filtre5mmWPETG.lastUpstream, Examples.crossingsInOrder, Examples.crossingsSwapped]
  have hdown : Filtre5mmWPETG.lastDownstream 1 Examples.crossingsInOrder =
      Filtre5mmWPETG.lastDownstream 1 Examples.crossingsSwapped := by
    simp [Filtre5mmWPETG.lastDownstream, Examples.crossingsInOrder, Examples.crossingsSwapped]
  obtain ⟨s1, s2, g0, h1, h2, -, -, h5⟩ := C11_last_crossing_wins (Examples.crossedEvent 100 98)
    1 0 Examples.crossingsInOrder Examples.crossingsSwapped hwf hid hup hdown
  exact ⟨⟨hwf, hid, hup, hdown⟩, s1, s2, h1, h2, h5⟩

/-- C15. For every ring index `i`, `GetRingOuterRadius(i) = GetRingInnerRadius(i + 1)`, and
`GetRingInnerRadius(0) = 0`; with a positive unit `mm`, every radius in `[0, 25 mm)` lies in
the half-open interval `[GetRingInnerRadius(i), GetRingOuterRadius(i))` of exactly one of the
rings `0..4`, and `GetRingOuterRadius(4) = 25 mm`. -/
theorem C15_rings_tile_the_disc (mm : K) :
    (∀ i : Int, DetectorConstruction.GetRingOuterRadius mm i =
        DetectorConstruction.GetRingInnerRadius mm (i + 1)) ∧
    DetectorConstruction.GetRingInnerRadius mm 0 = 0 ∧
    DetectorConstruction.GetRingOuterRadius mm 4 = 25 * mm ∧
    (0 < mm → ∀ radius : K, 0 ≤ radius → radius < 25 * mm →
      ∃! i : Fin kNbWaterRings,
        DetectorConstruction.GetRingInnerRadius mm ((i : Nat) : Int) ≤ radius ∧
        radius < DetectorConstruction.GetRingOuterRadius mm ((i : Nat) : Int)) := by
  refine ⟨fun i => rfl, ?_, ?_, ?_⟩
  · simp [DetectorConstruction.GetRingInnerRadius]
  · simp only [DetectorConstruction.GetRingOuterRadius]
    norm_num
  · intro hmm radius h0 h25
    have hin : ∀ i : Fin kNbWaterRings,
        DetectorConstruction.GetRingInnerRadius mm ((i : Nat) : Int) = ((i : Nat) : K) * 5 * mm := by
      intro i
      simp [DetectorConstruction.GetRingInnerRadius]
    have hout : ∀ i : Fin kNbWaterRings,
        DetectorConstruction.GetRingOuterRadius mm ((i : Nat) : Int) =
          (((i : Nat) : K) + 1) * 5 * mm := by
      intro i
      simp [DetectorConstruction.GetRingOuterRadius]
    have huniq : ∀ i j : Fin kNbWaterRings,
        (((i : Nat) : K) * 5 * mm ≤ radius ∧ radius < (((i : Nat) : K) + 1) * 5 * mm) →
        (((j : Nat) : K) * 5 * mm ≤ radius ∧ radius < (((j : Nat) : K) + 1) * 5 * mm) →
        (i : Nat) ≤ (j : Nat) := by
      intro i j hi hj
      by_contra hc
      have hlt : (j : Nat) + 1 ≤ (i : Nat) := by omega
      have hK : ((j : Nat) : K) + 1 ≤ ((i : Nat) : K) := by exact_mod_cast hlt
      have h5 : (((j : Nat) : K) + 1) * 5 * mm ≤ ((i : Nat) : K) * 5 * mm := by
        have h5mm : (0 : K) ≤ 5 * mm := by positivity
        calc (((j : Nat) : K) + 1) * 5 * mm = (((j : Nat) : K) + 1) * (5 * mm) := by ring
          _ ≤ ((i : Nat) : K) * (5 * mm) := mul_le_mul_of_nonneg_right hK h5mm
          _ = ((i : Nat) : K) * 5 * mm := by ring
      linarith [hi.1, hj.2]
    have hex : ∃ i : Fin kNbWaterRings,
        ((i : Nat) : K) * 5 * mm ≤ radius ∧ radius < (((i : Nat) : K) + 1) * 5 * mm := by
      by_cases h1 : radius < 5 * mm
      · exact ⟨0, by simpa using h0, by simpa using h1⟩
      · by_cases h2 : radius < 10 * mm
        · refine ⟨1, ?_, ?_⟩
          · have : ((1 : Fin kNbWaterRings) : Nat) = 1 := rfl
            rw [this]
            push_cast
            linarith [not_lt.mp h1]
          · have : ((1 : Fin kNbWaterRings) : Nat) = 1 := rfl
            rw [this]
            push_cast
            linarith
        · by_cases h3 : radius < 15 * mm
          · refine ⟨2, ?_, ?_⟩
            · have : ((2 : Fin kNbWaterRings) : Nat) = 2 := rfl
              rw [this]
              push_cast
              linarith [not_lt.mp h2]
            · have : ((2 : Fin kNbWaterRings) : Nat) = 2 := rfl
              rw [this]
              push_cast
              linarith
          · by_cases h4 : radius < 20 * mm
            · refine ⟨3, ?_, ?_⟩
              · have : ((3 : Fin kNbWaterRings) : Nat) = 3 := rfl
                rw [this]
                push_cast
                linarith [not_lt.mp h3]
              · have : ((3 : Fin kNbWaterRings) : Nat) = 3 := rfl
                rw [this]
                push_cast
                linarith
            · refine ⟨4, ?_, ?_⟩
              · have : ((4 : Fin kNbWaterRings) : Nat) = 4 := rfl
                rw [this]
                push_cast
                linarith [not_lt.mp h4]
              · have : ((4 : Fin kNbWaterRings) : Nat) = 4 := rfl
                rw [this]
                push_cast
                linarith
    obtain ⟨i, hi⟩ := hex
    refine ⟨i, ?_, ?_⟩
    · simp only [hin, hout]
      exact hi
    · intro j hj
      simp only [hin, hout] at hj
      apply Fin.ext
      exact le_antisymm (huniq j i hj hi) (huniq i j hi hj)

/-- C15 with `mm = 1`: the radius 12 lies in ring 2 and in no other ring. -/
theorem C15_rings_tile_the_disc_witness :
    ((0 : ℚ) < 1 ∧ (0 : ℚ) ≤ 12 ∧ (12 : ℚ) < 25 * 1) ∧
    ∃! i : Fin kNbWaterRings,
      DetectorConstruction.GetRingInnerRadius (1 : ℚ) ((i : Nat) : Int) ≤ 12 ∧
      (12 : ℚ) < DetectorConstruction.GetRingOuterRadius (1 : ℚ) ((i : Nat) : Int) :=
  ⟨⟨by norm_num, by norm_num, by norm_num⟩,
    (C15_rings_tile_the_disc (1 : ℚ)).2.2.2 (by norm_num) 12 (by norm_num) (by norm_num)⟩

/-- C16. The ring masses that `Construct` stores, `pi * (rOut^2 - rIn^2) * fWaterThickness *
waterDensity`, add up to the mass of the full disc,
`pi * GetRingOuterRadius(4)^2 * fWaterThickness * waterDensity`, for every thickness and
density. -/
theorem C16_ring_masses_sum_to_disc (pi mm waterDensity : K) (d : DetectorConstruction K) :
    (∀ i : Fin kNbWaterRings,
      (DetectorConstruction.Construct pi mm waterDensity d).1.fRingMasses i =
        pi * (DetectorConstruction.GetRingOuterRadius mm ((i : Nat) : Int) ^ 2 -
          DetectorConstruction.GetRingInnerRadius mm ((i : Nat) : Int) ^ 2) *
          d.fWaterThickness * waterDensity) ∧
    (DetectorConstruction.Construct pi mm waterDensity d).2 =
      pi * DetectorConstruction.GetRingOuterRadius mm
        (((kNbWaterRings - 1 : Nat) : Int)) ^ 2 * d.fWaterThickness * waterDensity ∧
    (ringIndices.map (DetectorConstruction.Construct pi mm waterDensity d).1.fRingMasses).sum =
      pi * DetectorConstruction.GetRingOuterRadius mm
        (((kNbWaterRings - 1 : Nat) : Int)) ^ 2 * d.fWaterThickness * waterDensity := by
  have h0 : ((0 : Fin kNbWaterRings) : Nat) = 0 := rfl
  have h1 : ((1 : Fin kNbWaterRings) : Nat) = 1 := rfl
  have h2 : ((2 : Fin kNbWaterRings) : Nat) = 2 := rfl
  have h3 : ((3 : Fin kNbWaterRings) : Nat) = 3 := rfl
  have h4 : ((4 : Fin kNbWaterRings) : Nat) = 4 := rfl
  refine ⟨?_, ?_, ?_⟩
  · intro i
    simp only [DetectorConstruction.Construct, DetectorConstruction.ringMass]
    ring
  · simp only [DetectorConstruction.Construct, DetectorConstruction.ringMass, ringIndices,
      List.foldl_cons, List.foldl_nil, DetectorConstruction.GetRingOuterRadius,
      DetectorConstruction.GetRingInnerRadius, h0, h1, h2, h3, h4]
    push_cast
    ring
  · simp only [DetectorConstruction.Construct, DetectorConstruction.ringMass, ringIndices,
      List.map_cons, List.map_nil, List.sum_cons, List.sum_nil,
      DetectorConstruction.GetRingOuterRadius, DetectorConstruction.GetRingInnerRadius,
      h0, h1, h2, h3, h4]
    push_cast
    ring

/-- C19. The twelve emission probabilities of `PrimaryGeneratorAction` (intensity in
percent over 100) add up to exactly 1.924, the value `RunAction` stores in
`fMeanGammasPerDecay`; each of them lies in `[0, 1]`. -/
theorem C19_emission_probabilities (deg mm cm : K) :
    (PuitsCouronne23.PrimaryGeneratorAction.ctor deg mm cm).fGammaProbabilities.length = 12 ∧
    (PuitsCouronne23.PrimaryGeneratorAction.ctor deg mm cm).fGammaProbabilities.sum =
      1924 / 1000 ∧
    (PuitsCouronne23.PrimaryGeneratorAction.ctor deg mm cm).fGammaProbabilities.sum =
      (RunAction.ctor deg cm).fMeanGammasPerDecay ∧
    ∀ p ∈ (PuitsCouronne23.PrimaryGeneratorAction.ctor deg mm cm).fGammaProbabilities,
      0 ≤ p ∧ p ≤ 1 := by
  have hsum : (PuitsCouronne23.PrimaryGeneratorAction.ctor deg mm cm).fGammaProbabilities.sum =
      1924 / 1000 := by
    simp only [PuitsCouronne23.PrimaryGeneratorAction.ctor,
      PuitsCouronne23.PrimaryGeneratorAction.intensities, List.map_cons, List.map_nil,
      List.sum_cons, List.sum_nil]
    norm_num
  refine ⟨rfl, hsum, ?_, ?_⟩
  · rw [hsum]
    rfl
  · intro p hp
    simp only [PuitsCouronne23.PrimaryGeneratorAction.ctor,
      PuitsCouronne23.PrimaryGeneratorAction.intensities, List.map_cons, List.map_nil,
      List.mem_cons, List.mem_singleton, List.not_mem_nil, or_false] at hp
    rcases hp with h | h | h | h | h | h | h | h | h | h | h | h <;> rw [h] <;>
      constructor <;> norm_num

/-- C20. `EndOfRunAction` on a run with events: for a ring with `fRingEventCount[i] > 0`
the error is `100 / sqrt(count)` percent, that is `1 / sqrt(count)` relative, and
`doseRate / sqrt(count)` absolute; for a count of 0 both are exactly 0; a ring with zero
energy and zero count is reported with dose 0, dose rate 0 and error 0, whatever its mass
and the irradiation time.  `sqrt` is positive on positive arguments and `gray` is not zero. -/
theorem C20_ring_statistical_error (cos sqrt : K → K) (gray : K) (r : RunAction K)
    (nofEvents : Int) (hgray : gray ≠ 0) (hn : nofEvents ≠ 0)
    (hsqrt : ∀ x : K, 0 < x → 0 < sqrt x) :
    ∃ summary, RunAction.EndOfRunAction cos sqrt gray r nofEvents = some summary ∧
      ∀ i : Fin kNbWaterRings,
        (0 < r.fRingEventCount i →
          ∃ rate, (summary.rings i).doseRate_nGyPerH = some rate ∧
            (summary.rings i).convergence = some (100 / sqrt (r.fRingEventCount i : K)) ∧
            100 / sqrt (r.fRingEventCount i : K) / 100 = 1 / sqrt (r.fRingEventCount i : K) ∧
            (summary.rings i).doseRateError = some (rate / sqrt (r.fRingEventCount i : K))) ∧
        (r.fRingEventCount i = 0 →
          (summary.rings i).convergence = some 0 ∧ (summary.rings i).doseRateError = some 0) ∧
        (r.fRingTotalEnergy i = 0 → r.fRingEventCount i = 0 →
          (summary.rings i).dose_Gy = some 0 ∧ (summary.rings i).doseRate_nGyPerH = some 0 ∧
          (summary.rings i).convergence = some 0 ∧
          (summary.rings i).doseRateError = some 0) := by
  simp only [RunAction.EndOfRunAction, if_neg hn]
  refine ⟨_, rfl, fun i => ?_⟩
  simp only [RunAction.ringReport, RunAction.ringDose_Gy_eq gray hgray]
  obtain ⟨rate, hrate, hzero⟩ := RunAction.doseRate_nGyPerH_some cos r
    (if r.fRingMasses i > 0 then r.fRingTotalEnergy i / r.fRingMasses i / gray else 0) nofEvents
  rw [hrate]
  refine ⟨?_, ?_, ?_⟩
  · intro hcount
    have hK : (0 : K) < (r.fRingEventCount i : K) := by exact_mod_cast hcount
    have hs : sqrt (r.fRingEventCount i : K) ≠ 0 := (hsqrt _ hK).ne.symm
    refine ⟨rate, rfl, ?_, ?_, ?_⟩
    · simp [RunAction.convergenceOf, hcount, fdiv_of_ne_zero _ hs]
    · field_simp
      ring
    · simp only [RunAction.convergenceOf, if_pos hcount, fdiv_of_ne_zero _ hs, Option.some_bind,
        Option.map_some']
      congr 1
      field_simp
      ring
  · intro hcount
    simp [RunAction.convergenceOf, hcount]
  · intro henergy hcount
    have hd : (if r.fRingMasses i > 0 then r.fRingTotalEnergy i / r.fRingMasses i / gray
        else 0) = 0 := by
      rw [henergy]
      simp
    have hr : rate = 0 := hzero hd
    rw [hd, hr]
    simp [RunAction.convergenceOf, hcount]

/-- C20 over the reals with the real square root, on a run with one deposit in ring 1. -/
theorem C20_ring_statistical_error_witness :
    ((1 : ℝ) / 10 ^ 12 ≠ 0 ∧ (1000 : Int) ≠ 0 ∧ ∀ x : ℝ, 0 < x → 0 < Real.sqrt x) ∧
    ∃ summary, RunAction.EndOfRunAction Real.cos Real.sqrt (1 / 10 ^ 12)
        (Examples.ringRun : RunAction ℝ) 1000 = some summary ∧
      (summary.rings 1).convergence = some 100 ∧
      (summary.rings 0).convergence = some 0 ∧ (summary.rings 0).doseRateError = some 0 := by
  have hsqrt : ∀ x : ℝ, 0 < x → 0 < Real.sqrt x := fun x hx => Real.sqrt_pos.mpr hx
  have hslot : ringSlot 1 = some 1 := by decide
  have hc1 : (Examples.ringRun : RunAction ℝ).fRingEventCount 1 = 1 := by
    simp [Examples.ringRun, RunAction.AddRingEnergy, RunAction.BeginOfRunAction, hslot]
  have hc0 : (Examples.ringRun : RunAction ℝ).fRingEventCount 0 = 0 := by
    simp [Examples.ringRun, RunAction.AddRingEnergy, RunAction.BeginOfRunAction, hslot]
  obtain ⟨summary, hsum, hall⟩ := C20_ring_statistical_error Real.cos Real.sqrt (1 / 10 ^ 12)
    (Examples.ringRun : RunAction ℝ) 1000 (by norm_num) (by norm_num) hsqrt
  refine ⟨⟨by norm_num, by norm_num, hsqrt⟩, summary, hsum, ?_, ?_, ?_⟩
  · obtain ⟨rate, -, hconv, -, -⟩ := (hall 1).1 (by rw [hc1]; norm_num)
    rw [hconv, hc1]
    simp
  · exact ((hall 0).2.1 hc0).1
  · exact ((hall 0).2.1 hc0).2

end Claims

section ClaimsOverTheReals

/-- C18. `GenerateDirectionInCone` over the reals, for draws `u1`, `u2` in `[0, 1)` and any
cone half-angle: `cos(theta) = 1 - u1 * (1 - cos(coneAngle))` lies in `[cos(coneAngle), 1]`,
`phi = 2 * pi * u2` lies in `[0, 2 * pi)`, and the direction is
`(sin(theta) cos(phi), sin(theta) sin(phi), cos(theta))`, of Euclidean norm exactly 1. -/
theorem C18_direction_in_cone (coneAngle u1 u2 : ℝ) (hu1 : 0 ≤ u1 ∧ u1 < 1)
    (hu2 : 0 ≤ u2 ∧ u2 < 1) :
    Real.cos (PuitsCouronne23.PrimaryGeneratorAction.GenerateDirectionInCone Real.cos
        Real.arccos Real.sin Real.pi coneAngle u1 u2).1 =
      1 - u1 * (1 - Real.cos coneAngle) ∧
    Real.cos coneAngle ≤ Real.cos (PuitsCouronne23.PrimaryGeneratorAction.GenerateDirectionInCone
        Real.cos Real.arccos Real.sin Real.pi coneAngle u1 u2).1 ∧
    Real.cos (PuitsCouronne23.PrimaryGeneratorAction.GenerateDirectionInCone Real.cos
        Real.arccos Real.sin Real.pi coneAngle u1 u2).1 ≤ 1 ∧
    (PuitsCouronne23.PrimaryGeneratorAction.GenerateDirectionInCone Real.cos Real.arccos
        Real.sin Real.pi coneAngle u1 u2).2.1 = 2 * Real.pi * u2 ∧
    0 ≤ (PuitsCouronne23.PrimaryGeneratorAction.GenerateDirectionInCone Real.cos Real.arccos
        Real.sin Real.pi coneAngle u1 u2).2.1 ∧
    (PuitsCouronne23.PrimaryGeneratorAction.GenerateDirectionInCone Real.cos Real.arccos
        Real.sin Real.pi coneAngle u1 u2).2.1 < 2 * Real.pi ∧
    (PuitsCouronne23.PrimaryGeneratorAction.GenerateDirectionInCone Real.cos Real.arccos
        Real.sin Real.pi coneAngle u1 u2).2.2 =
      (Real.sin (PuitsCouronne23.PrimaryGeneratorAction.GenerateDirectionInCone Real.cos
            Real.arccos Real.sin Real.pi coneAngle u1 u2).1 *
          Real.cos (PuitsCouronne23.PrimaryGeneratorAction.GenerateDirectionInCone Real.cos
            Real.arccos Real.sin Real.pi coneAngle u1 u2).2.1,
        Real.sin (PuitsCouronne23.PrimaryGeneratorAction.GenerateDirectionInCone Real.cos
            Real.arccos Real.sin Real.pi coneAngle u1 u2).1 *
          Real.sin (PuitsCouronne23.PrimaryGeneratorAction.GenerateDirectionInCone Real.cos
            Real.arccos Real.sin Real.pi coneAngle u1 u2).2.1,
        Real.cos (PuitsCouronne23.PrimaryGeneratorAction.GenerateDirectionInCone Real.cos
            Real.arccos Real.sin Real.pi coneAngle u1 u2).1) ∧
    Real.sqrt
      ((PuitsCouronne23.PrimaryGeneratorAction.GenerateDirectionInCone Real.cos Real.arccos
          Real.sin Real.pi coneAngle u1 u2).2.2.1 ^ 2 +
        (PuitsCouronne23.PrimaryGeneratorAction.GenerateDirectionInCone Real.cos Real.arccos
          Real.sin Real.pi coneAngle u1 u2).2.2.2.1 ^ 2 +
        (PuitsCouronne23.PrimaryGeneratorAction.GenerateDirectionInCone Real.cos Real.arccos
          Real.sin Real.pi coneAngle u1 u2).2.2.2.2 ^ 2) = 1 := by
  have hc1 : Real.cos coneAngle ≤ 1 := Real.cos_le_one coneAngle
  have hc2 : -1 ≤ Real.cos coneAngle := Real.neg_one_le_cos coneAngle
  have hx1 : 1 - u1 * (1 - Real.cos coneAngle) ≤ 1 := by
    have : 0 ≤ u1 * (1 - Real.cos coneAngle) := mul_nonneg hu1.1 (by linarith)
    linarith
  have hx2 : Real.cos coneAngle ≤ 1 - u1 * (1 - Real.cos coneAngle) := by
    have : 0 ≤ (1 - u1) * (1 - Real.cos coneAngle) :=
      mul_nonneg (by linarith [hu1.2]) (by linarith)
    nlinarith
  have hcos : Real.cos (Real.arccos (1 - u1 * (1 - Real.cos coneAngle))) =
      1 - u1 * (1 - Real.cos coneAngle) := Real.cos_arccos (by linarith) hx1
  have hpi : 0 < Real.pi := Real.pi_pos
  simp only [PuitsCouronne23.PrimaryGeneratorAction.GenerateDirectionInCone]
  refine ⟨hcos, by rw [hcos]; exact hx2, by rw [hcos]; exact hx1, by ring, ?_, ?_, ?_, ?_⟩
  · have := mul_nonneg hu2.1 hpi.le
    linarith
  · have := mul_lt_mul_of_pos_right hu2.2 hpi
    linarith
  · rw [hcos]
  · have hsq := Real.sin_sq_add_cos_sq (Real.arccos (1 - u1 * (1 - Real.cos coneAngle)))
    have hsq2 := Real.sin_sq_add_cos_sq (u2 * 2 * Real.pi)
    rw [hcos] at hsq
    have hone : (Real.sin (Real.arccos (1 - u1 * (1 - Real.cos coneAngle))) *
          Real.cos (u2 * 2 * Real.pi)) ^ 2 +
        (Real.sin (Real.arccos (1 - u1 * (1 - Real.cos coneAngle))) *
          Real.sin (u2 * 2 * Real.pi)) ^ 2 +
        (1 - u1 * (1 - Real.cos coneAngle)) ^ 2 = 1 := by
      nlinarith [hsq, hsq2]
    rw [hone, Real.sqrt_one]

/-- C18 for a cone of 60 degrees and the draws 1/2 and 1/4. -/
theorem C18_direction_in_cone_witness :
    (((0 : ℝ) ≤ 1 / 2 ∧ (1 / 2 : ℝ) < 1) ∧ ((0 : ℝ) ≤ 1 / 4 ∧ (1 / 4 : ℝ) < 1)) ∧
    Real.cos (PuitsCouronne23.PrimaryGeneratorAction.GenerateDirectionInCone Real.cos
        Real.arccos Real.sin Real.pi (Real.pi / 3) (1 / 2) (1 / 4)).1 = 3 / 4 ∧
    (PuitsCouronne23.PrimaryGeneratorAction.GenerateDirectionInCone Real.cos Real.arccos
        Real.sin Real.pi (Real.pi / 3) (1 / 2) (1 / 4)).2.1 = Real.pi / 2 ∧
    Real.sqrt
      ((PuitsCouronne23.PrimaryGeneratorAction.GenerateDirectionInCone Real.cos Real.arccos
          Real.sin Real.pi (Real.pi / 3) (1 / 2) (1 / 4)).2.2.1 ^ 2 +
        (PuitsCouronne23.PrimaryGeneratorAction.GenerateDirectionInCone Real.cos Real.arccos
          Real.sin Real.pi (Real.pi / 3) (1 / 2) (1 / 4)).2.2.2.1 ^ 2 +
        (PuitsCouronne23.PrimaryGeneratorAction.GenerateDirectionInCone Real.cos Real.arccos
          Real.sin Real.pi (Real.pi / 3) (1 / 2) (1 / 4)).2.2.2.2 ^ 2) = 1 := by
  have h1 : (0 : ℝ) ≤ 1 / 2 ∧ (1 / 2 : ℝ) < 1 := by constructor <;> norm_num
  have h2 : (0 : ℝ) ≤ 1 / 4 ∧ (1 / 4 : ℝ) < 1 := by constructor <;> norm_num
  have h := C18_direction_in_cone (Real.pi / 3) (1 / 2) (1 / 4) h1 h2
  refine ⟨⟨h1, h2⟩, ?_, ?_, h.2.2.2.2.2.2.2⟩
  · rw [h.1, Real.cos_pi_div_three]
    norm_num
  · rw [h.2.2.2.1]
    ring

end ClaimsOverTheReals

section Claims

variable {K : Type} [LinearOrderedField K]

/-- C21. `EndOfRunAction` on a run with events: `avgDose_Gy` is the sum of the ring doses
weighted by the ring masses over the total mass; when every ring mass is positive this is
`(sum of fRingTotalEnergy) / (sum of fRingMasses) / gray`; when the total mass is not
positive it is 0.  `gray` is the non-zero unit constant. -/
theorem C21_mass_weighted_mean_dose (cos sqrt : K → K) (gray : K) (r : RunAction K)
    (nofEvents : Int) (hgray : gray ≠ 0) (hn : nofEvents ≠ 0) :
    ∃ summary, RunAction.EndOfRunAction cos sqrt gray r nofEvents = some summary ∧
      summary.totalMass = (ringIndices.map r.fRingMasses).sum ∧
      (∃ doses : Fin kNbWaterRings → K,
        (∀ i, (summary.rings i).dose_Gy = some (doses i)) ∧
        (0 < (ringIndices.map r.fRingMasses).sum →
          summary.avgDose_Gy =
            some ((ringIndices.map fun i => doses i * r.fRingMasses i).sum /
              (ringIndices.map r.fRingMasses).sum))) ∧
      ((∀ i, 0 < r.fRingMasses i) →
        summary.avgDose_Gy =
          some ((ringIndices.map r.fRingTotalEnergy).sum / (ringIndices.map r.fRingMasses).sum /
            gray)) ∧
      (¬ 0 < (ringIndices.map r.fRingMasses).sum → summary.avgDose_Gy = some 0) := by
  have hmass : ringIndices.foldl (fun acc i => acc + r.fRingMasses i) 0 =
      (ringIndices.map r.fRingMasses).sum := by
    simp only [ringIndices, List.foldl_cons, List.foldl_nil, List.map_cons, List.map_nil,
      List.sum_cons, List.sum_nil]
    ring
  have hdose : ringIndices.foldl
      (fun acc i => acc.bind fun t =>
        (RunAction.ringDose_Gy gray r i).map fun d => t + d * r.fRingMasses i) (some 0) =
      some ((ringIndices.map fun i =>
        (if r.fRingMasses i > 0 then r.fRingTotalEnergy i / r.fRingMasses i / gray else 0) *
          r.fRingMasses i).sum) := by
    simp only [ringIndices, List.foldl_cons, List.foldl_nil, List.map_cons, List.map_nil,
      List.sum_cons, List.sum_nil, RunAction.ringDose_Gy_eq gray hgray, Option.some_bind,
      Option.map_some']
    congr 1
    ring
  simp only [RunAction.EndOfRunAction, if_neg hn]
  refine ⟨_, rfl, hmass, ?_, ?_, ?_⟩
  · refine ⟨fun i =>
      if r.fRingMasses i > 0 then r.fRingTotalEnergy i / r.fRingMasses i / gray else 0, ?_, ?_⟩
    · intro i
      simp only [RunAction.ringReport, RunAction.ringDose_Gy_eq gray hgray]
    · intro hpos
      simp only [hmass, hdose, if_pos hpos, Option.some_bind, fdiv_of_ne_zero _ hpos.ne.symm]
  · intro hall
    have hpos : 0 < (ringIndices.map r.fRingMasses).sum := by
      simp only [ringIndices, List.map_cons, List.map_nil, List.sum_cons, List.sum_nil]
      have h0 := hall 0
      have h1 := hall 1
      have h2 := hall 2
      have h3 := hall 3
      have h4 := hall 4
      linarith
    simp only [hmass, hdose, if_pos hpos, Option.some_bind, fdiv_of_ne_zero _ hpos.ne.symm]
    congr 1
    have hterm : ∀ i : Fin kNbWaterRings,
        (if r.fRingMasses i > 0 then r.fRingTotalEnergy i / r.fRingMasses i / gray else 0) *
          r.fRingMasses i = r.fRingTotalEnergy i / gray := by
      intro i
      rw [if_pos (hall i)]
      have hm : r.fRingMasses i ≠ 0 := (hall i).ne.symm
      field_simp
      ring
    simp only [hterm]
    simp only [ringIndices, List.map_cons, List.map_nil, List.sum_cons, List.sum_nil]
    field_simp
    ring
  · intro hneg
    simp only [hmass, if_neg hneg]

/-- C21 on a run with rings of mass 2 and one deposit of 3 in ring 1: the mean dose is
`3 / 10 / gray`. -/
theorem C21_mass_weighted_mean_dose_witness :
    ((1 : ℚ) / 10 ^ 12 ≠ 0 ∧ (1000 : Int) ≠ 0 ∧
      ∀ i, 0 < (Examples.ringRun : RunAction ℚ).fRingMasses i) ∧
    ∃ summary, RunAction.EndOfRunAction (fun _ => 1 / 2) (fun x => x) (1 / 10 ^ 12)
        (Examples.ringRun : RunAction ℚ) 1000 = some summary ∧
      summary.avgDose_Gy = some (3 / 10 / (1 / 10 ^ 12)) := by
  have hslot : ringSlot 1 = some 1 := by decide
  have hm : ∀ i, (Examples.ringRun : RunAction ℚ).fRingMasses i = 2 := by
    intro i
    simp [Examples.ringRun, RunAction.AddRingEnergy, RunAction.BeginOfRunAction, hslot]
  have hpos : ∀ i, 0 < (Examples.ringRun : RunAction ℚ).fRingMasses i := by
    intro i
    rw [hm i]
    norm_num
  obtain ⟨summary, hsum, -, -, hall, -⟩ := C21_mass_weighted_mean_dose (fun _ => 1 / 2)
    (fun x => x) (1 / 10 ^ 12) (Examples.ringRun : RunAction ℚ) 1000 (by norm_num)
    (by norm_num)
  refine ⟨⟨by norm_num, by norm_num, hpos⟩, summary, hsum, ?_⟩
  rw [hall hpos]
  congr 1
  simp only [ringIndices, List.map_cons, List.map_nil, List.sum_cons, List.sum_nil, hm]
  simp [Examples.ringRun, RunAction.AddRingEnergy, RunAction.BeginOfRunAction, hslot,
    Function.update]
  norm_num

end Claims

section ClaimsOverTheReals

/-- C30, at the failing input: with a cone half-angle of 0 (in `[0, pi]`) and one processed
event, the solid-angle fraction is 0 and the division `nofEvents / solidAngleFraction` of
`N_4pi` in `EndOfRunAction` has a zero divisor. -/
theorem C30_zero_cone_divides_by_zero :
    ((0 : ℝ) ≤ 0 ∧ (0 : ℝ) ≤ Real.pi) ∧
    ∃ summary, RunAction.EndOfRunAction Real.cos Real.sqrt (1 / 10 ^ 12)
        (RunAction.SetConeAngle (Examples.ringRun : RunAction ℝ) 0) 1 = some summary ∧
      summary.solidAngleFraction = 0 ∧ summary.N_4pi = none := by
  refine ⟨⟨le_refl 0, Real.pi_pos.le⟩, ?_⟩
  have hf : RunAction.GetSolidAngleFraction Real.cos
      (RunAction.SetConeAngle (Examples.ringRun : RunAction ℝ) 0) = 0 := by
    simp [RunAction.GetSolidAngleFraction, RunAction.SetConeAngle]
  simp only [RunAction.EndOfRunAction]
  rw [if_neg (by norm_num)]
  refine ⟨_, rfl, hf, ?_⟩
  simp only [hf]
  simp [fdiv]

end ClaimsOverTheReals

section Claims

variable {K : Type} [LinearOrderedField K]

/-- C28. From the state left by `BeginOfRunAction`, after any sequence of
`RunAction::AddRingEnergy` calls (any ring indices, any deposits), for every ring `i`:
`fRingTotalEnergy[i]^2 <= fRingEventCount[i] * fRingTotalEnergy2[i]`, with a count and a
sum of squares that are not negative. -/
theorem C28_energy_sums_cauchy_schwarz (r0 : RunAction K)
    (detector : Option (Fin kNbWaterRings → K)) (calls : List (Int × K))
    (i : Fin kNbWaterRings) :
    (calls.foldl (fun r c => RunAction.AddRingEnergy r c.1 c.2)
        (RunAction.BeginOfRunAction r0 detector)).fRingTotalEnergy i ^ 2 ≤
      ((calls.foldl (fun r c => RunAction.AddRingEnergy r c.1 c.2)
        (RunAction.BeginOfRunAction r0 detector)).fRingEventCount i : K) *
      (calls.foldl (fun r c => RunAction.AddRingEnergy r c.1 c.2)
        (RunAction.BeginOfRunAction r0 detector)).fRingTotalEnergy2 i ∧
    0 ≤ (calls.foldl (fun r c => RunAction.AddRingEnergy r c.1 c.2)
        (RunAction.BeginOfRunAction r0 detector)).fRingEventCount i ∧
    0 ≤ (calls.foldl (fun r c => RunAction.AddRingEnergy r c.1 c.2)
        (RunAction.BeginOfRunAction r0 detector)).fRingTotalEnergy2 i := by
  have hfold : ∀ (cs : List (Int × K)) (r : RunAction K),
      (∀ i, 0 ≤ r.fRingEventCount i ∧ 0 ≤ r.fRingTotalEnergy2 i ∧
        r.fRingTotalEnergy i ^ 2 ≤ (r.fRingEventCount i : K) * r.fRingTotalEnergy2 i) →
      ∀ i, 0 ≤ (cs.foldl (fun r c => RunAction.AddRingEnergy r c.1 c.2) r).fRingEventCount i ∧
        0 ≤ (cs.foldl (fun r c => RunAction.AddRingEnergy r c.1 c.2) r).fRingTotalEnergy2 i ∧
        (cs.foldl (fun r c => RunAction.AddRingEnergy r c.1 c.2) r).fRingTotalEnergy i ^ 2 ≤
          ((cs.foldl (fun r c => RunAction.AddRingEnergy r c.1 c.2) r).fRingEventCount i : K) *
            (cs.foldl (fun r c => RunAction.AddRingEnergy r c.1 c.2) r).fRingTotalEnergy2 i := by
    intro cs
    induction cs with
    | nil => exact fun r h => h
    | cons c cs ih =>
      intro r h
      simp only [List.foldl_cons]
      exact ih _ (RunAction.AddRingEnergy_cauchy_schwarz r c.1 c.2 h)
  have hreset : ∀ i, 0 ≤ (RunAction.BeginOfRunAction r0 detector).fRingEventCount i ∧
      0 ≤ (RunAction.BeginOfRunAction r0 detector).fRingTotalEnergy2 i ∧
      (RunAction.BeginOfRunAction r0 detector).fRingTotalEnergy i ^ 2 ≤
        ((RunAction.BeginOfRunAction r0 detector).fRingEventCount i : K) *
          (RunAction.BeginOfRunAction r0 detector).fRingTotalEnergy2 i := by
    intro i
    simp [RunAction.BeginOfRunAction]
  obtain ⟨h1, h2, h3⟩ := hfold calls _ hreset i
  exact ⟨h3, h1, h2⟩

/-- C22. From the state left by `BeginOfRunAction`, the accumulator reached by ingesting a
list of event reports (`RecordEventStatistics`, then `AddRingEnergy` for each ring with a
positive deposit) is the same for every permutation of the list: the whole state, hence
every counter, energy sum, energy-squared sum and event count. -/
theorem C22_ingestion_order_independent (r0 : RunAction K)
    (detector : Option (Fin kNbWaterRings → K)) (reports reordered : List (EventReport K))
    (h : reports.Perm reordered) :
    reports.foldl RunAction.ingest (RunAction.BeginOfRunAction r0 detector) =
      reordered.foldl RunAction.ingest (RunAction.BeginOfRunAction r0 detector) :=
  List.Perm.foldl_eq' h (fun x _ y _ z => RunAction.ingest_comm z x y) _

/-- C22 at two reports taken in both orders. -/
theorem C22_ingestion_order_independent_witness :
    [Examples.reportA, Examples.reportB].Perm [Examples.reportB, Examples.reportA] ∧
    [Examples.reportA, Examples.reportB].foldl RunAction.ingest
        (RunAction.BeginOfRunAction (RunAction.ctor (1 / 57) 10) none) =
      [Examples.reportB, Examples.reportA].foldl RunAction.ingest
        (RunAction.BeginOfRunAction (RunAction.ctor (1 / 57) 10) none) :=
  ⟨List.Perm.swap _ _ _,
    C22_ingestion_order_independent (RunAction.ctor (1 / 57) 10) none _ _
      (List.Perm.swap _ _ _)⟩

/-- C26. After `BeginOfRunAction` and any number of events finalized through
`EndOfEventAction`, `fTotalWaterEnergy` is the sum over the five rings of
`fRingTotalEnergy[i]`. -/
theorem C26_water_total_is_ring_sum (r0 : RunAction K)
    (detector : Option (Fin kNbWaterRings → K))
    (events : List (PuitsCouronne23.EventAction K)) :
    (PuitsCouronne23.EventAction.finalizeEvents (RunAction.BeginOfRunAction r0 detector)
        events).fTotalWaterEnergy =
      ∑ i : Fin kNbWaterRings,
        (PuitsCouronne23.EventAction.finalizeEvents (RunAction.BeginOfRunAction r0 detector)
          events).fRingTotalEnergy i := by
  have hfold : ∀ (l : List (PuitsCouronne23.EventAction K)) (r : RunAction K),
      r.fTotalWaterEnergy = ∑ i : Fin kNbWaterRings, r.fRingTotalEnergy i →
      (PuitsCouronne23.EventAction.finalizeEvents r l).fTotalWaterEnergy =
        ∑ i : Fin kNbWaterRings,
          (PuitsCouronne23.EventAction.finalizeEvents r l).fRingTotalEnergy i := by
    intro l
    induction l with
    | nil => exact fun r hr => hr
    | cons s l ih =>
      intro r hr
      unfold PuitsCouronne23.EventAction.finalizeEvents
      simp only [List.foldl_cons]
      apply ih
      rw [PuitsCouronne23.EventAction.handOver_eq_ingest]
      exact RunAction.ingest_water_total r _ hr
  apply hfold
  simp [RunAction.BeginOfRunAction]

/-- C27. After `BeginOfRunAction` and any number of events finalized through
`EndOfEventAction`, each with recorded step deposits that are not negative, for every ring
`i`: `fRingEventCount[i] <= fTotalWaterEventCount <= fTotalEvents`. -/
theorem C27_event_counters_ordered (r0 : RunAction K)
    (detector : Option (Fin kNbWaterRings → K))
    (events : List (PuitsCouronne23.EventAction K))
    (h : ∀ s ∈ events, PuitsCouronne23.NonNegativeSteps s) (i : Fin kNbWaterRings) :
    (PuitsCouronne23.EventAction.finalizeEvents (RunAction.BeginOfRunAction r0 detector)
        events).fRingEventCount i ≤
      (PuitsCouronne23.EventAction.finalizeEvents (RunAction.BeginOfRunAction r0 detector)
        events).fTotalWaterEventCount ∧
    (PuitsCouronne23.EventAction.finalizeEvents (RunAction.BeginOfRunAction r0 detector)
        events).fTotalWaterEventCount ≤
      (PuitsCouronne23.EventAction.finalizeEvents (RunAction.BeginOfRunAction r0 detector)
        events).fTotalEvents := by
  have hfold : ∀ (l : List (PuitsCouronne23.EventAction K)) (r : RunAction K),
      (∀ s ∈ l, PuitsCouronne23.NonNegativeSteps s) →
      ((∀ i, r.fRingEventCount i ≤ r.fTotalWaterEventCount) ∧
        r.fTotalWaterEventCount ≤ r.fTotalEvents) →
      (∀ i, (PuitsCouronne23.EventAction.finalizeEvents r l).fRingEventCount i ≤
          (PuitsCouronne23.EventAction.finalizeEvents r l).fTotalWaterEventCount) ∧
        (PuitsCouronne23.EventAction.finalizeEvents r l).fTotalWaterEventCount ≤
          (PuitsCouronne23.EventAction.finalizeEvents r l).fTotalEvents := by
    intro l
    induction l with
    | nil => exact fun r _ hr => hr
    | cons s l ih =>
      intro r hl hr
      unfold PuitsCouronne23.EventAction.finalizeEvents
      simp only [List.foldl_cons]
      apply ih _ (fun s hs => hl s (List.mem_cons_of_mem _ hs))
      obtain ⟨s0, steps, hsteps, hdep⟩ := hl s (List.mem_cons_self _ _)
      refine PuitsCouronne23.EventAction.handOver_counts s r ?_ hr
      intro j
      rw [hdep]
      exact PuitsCouronne23.EventAction.depositSteps_nonneg steps _ (fun _ => le_refl _)
        hsteps j
  have hreset : (∀ i, (RunAction.BeginOfRunAction r0 detector).fRingEventCount i ≤
        (RunAction.BeginOfRunAction r0 detector).fTotalWaterEventCount) ∧
      (RunAction.BeginOfRunAction r0 detector).fTotalWaterEventCount ≤
        (RunAction.BeginOfRunAction r0 detector).fTotalEvents :=
    ⟨fun _ => le_refl _, le_refl _⟩
  obtain ⟨h1, h2⟩ := hfold events _ h hreset
  exact ⟨h1 i, h2⟩

/-- C27 at a run of two events, each with the steps of `Examples.depositList`. -/
theorem C27_event_counters_ordered_witness :
    (∀ s ∈ [Examples.depositEvent, Examples.depositEvent],
      PuitsCouronne23.NonNegativeSteps s) ∧
    (PuitsCouronne23.EventAction.finalizeEvents
        (RunAction.BeginOfRunAction (RunAction.ctor (1 / 57 : ℚ) 10) none)
        [Examples.depositEvent, Examples.depositEvent]).fRingEventCount 1 ≤
      (PuitsCouronne23.EventAction.finalizeEvents
        (RunAction.BeginOfRunAction (RunAction.ctor (1 / 57 : ℚ) 10) none)
        [Examples.depositEvent, Examples.depositEvent]).fTotalWaterEventCount ∧
    (PuitsCouronne23.EventAction.finalizeEvents
        (RunAction.BeginOfRunAction (RunAction.ctor (1 / 57 : ℚ) 10) none)
        [Examples.depositEvent, Examples.depositEvent]).fTotalWaterEventCount ≤
      (PuitsCouronne23.EventAction.finalizeEvents
        (RunAction.BeginOfRunAction (RunAction.ctor (1 / 57 : ℚ) 10) none)
        [Examples.depositEvent, Examples.depositEvent]).fTotalEvents :=
  have hsteps : ∀ s ∈ [Examples.depositEvent, Examples.depositEvent],
      PuitsCouronne23.NonNegativeSteps s := by
    intro s hs
    have hs1 : s = Examples.depositEvent := by simpa using hs
    subst hs1
    refine ⟨PuitsCouronne23.EventAction.ctor 1, Examples.depositList, ?_, rfl⟩
    intro c hc
    simp only [Examples.depositList, List.mem_cons, List.mem_singleton, List.not_mem_nil,
      or_false] at hc
    rcases hc with rfl | rfl | rfl <;> norm_num
  ⟨hsteps, C27_event_counters_ordered (RunAction.ctor (1 / 57) 10) none _ hsteps 1⟩

/-- C24, counterexample. With tolerance 1, a primary reported downstream at 100 and then
upstream at 100 ends with both crossings recorded and equal energies, yet `transmitted` is
false; a primary reported upstream at 100, downstream at 100 and downstream again at 50
ends with `|100 - 50| >= 1`, yet `transmitted` is true. -/
theorem C24_counterexample :
    Examples.oneGammaTracker.fTransmissionTolerance = 1 ∧
    (PuitsCouronne23.EventAction.recordCrossings Examples.oneGammaTracker
        [Filtre5mmWPETG.Crossing.downstream 1 100, Filtre5mmWPETG.Crossing.upstream 1 100]).map
      (fun out => out.fPrimaryGammas.map Examples.crossingSummary) =
      some [(true, true, 100, 100, false)] ∧
    |(100 : ℚ) - 100| < 1 ∧
    (PuitsCouronne23.EventAction.recordCrossings Examples.oneGammaTracker
        [Filtre5mmWPETG.Crossing.upstream 1 100, Filtre5mmWPETG.Crossing.downstream 1 100,
         Filtre5mmWPETG.Crossing.downstream 1 50]).map
      (fun out => out.fPrimaryGammas.map Examples.crossingSummary) =
      some [(true, true, 100, 50, true)] ∧
    ¬ |(100 : ℚ) - 50| < 1 := by
  have htracker : Examples.oneGammaTracker =
      { fPrimaryGammas :=
          [{ trackID := 1, energyInitial := 100, energyUpstream := 0, energyDownstream := 0,
             theta := 0, phi := 0, detectedUpstream := false, detectedDownstream := false,
             transmitted := false }]
        fSecondariesDownstream := []
        fTrackIDtoIndex := Function.update (fun _ => none) 1 (some 0)
        fRingEnergyDeposit := fun _ => 0
        fTransmissionTolerance := 1
        fVerboseLevel := 1 } := by
    simp [Examples.oneGammaTracker, Examples.oneGammaEvent,
      PuitsCouronne23.EventAction.BeginOfEventAction, PuitsCouronne23.EventAction.clearEvent,
      PuitsCouronne23.EventAction.registerPrimary, PuitsCouronne23.EventAction.ctor]
  refine ⟨?_, ?_, ?_, ?_, ?_⟩
  · rw [htracker]
  · rw [htracker]
    norm_num [PuitsCouronne23.EventAction.recordCrossings,
      PuitsCouronne23.EventAction.recordCrossing,
      PuitsCouronne23.EventAction.RecordPrimaryUpstream,
      PuitsCouronne23.EventAction.RecordPrimaryDownstream,
      PuitsCouronne23.EventAction.withPrimary, Examples.crossingSummary]
  · norm_num
  · rw [htracker]
    norm_num [PuitsCouronne23.EventAction.recordCrossings,
      PuitsCouronne23.EventAction.recordCrossing,
      PuitsCouronne23.EventAction.RecordPrimaryUpstream,
      PuitsCouronne23.EventAction.RecordPrimaryDownstream,
      PuitsCouronne23.EventAction.withPrimary, Examples.crossingSummary]
  · norm_num

/-- C24, amended. In the absolute-tolerance variant, for a registered primary `t` whose
recordings during the event are any number of `RecordPrimaryUpstream` calls followed by
exactly one `RecordPrimaryDownstream` call (recordings for other tracks in any number and
order), every call returns and at event end the record of `t` has `transmitted = true` if
and only if `|energyUpstream - energyDownstream| < tolerance` for the energies finally
stored in it. -/
theorem C24_transmitted_after_single_downstream (acos : K → K) (atan2 : K → K → K)
    (s : PuitsCouronne23.EventAction K) (event : G4Event K)
    (before after : List (Filtre5mmWPETG.Crossing K)) (t : Int) (e : K)
    (ht : 1 ≤ t ∧ t ≤ (event.primaryVertices.flatten.length : Int))
    (hbefore : ∀ c ∈ before, c.track = t → c.isDownstream = false)
    (hafter : ∀ c ∈ after, c.track ≠ t) :
    ∃ out g,
      PuitsCouronne23.EventAction.recordCrossings
          (PuitsCouronne23.EventAction.BeginOfEventAction acos atan2 s event)
          (before ++ Filtre5mmWPETG.Crossing.downstream t e :: after) = some out ∧
      out.fTransmissionTolerance = s.fTransmissionTolerance ∧
      out.fTrackIDtoIndex t = some (t - 1).toNat ∧
      out.fPrimaryGammas[(t - 1).toNat]? = some g ∧ g.trackID = t ∧
      g.detectedDownstream = true ∧ g.energyDownstream = e ∧
      (g.transmitted = true ↔
        |g.energyUpstream - g.energyDownstream| < out.fTransmissionTolerance) := by
  have hreg := PuitsCouronne23.EventAction.registered_BeginOfEventAction acos atan2 s event
  obtain ⟨hb, hinj⟩ := PuitsCouronne23.registered_bounds _ _ hreg
  have htol0 := PuitsCouronne23.EventAction.BeginOfEventAction_tolerance acos atan2 s event
  obtain ⟨hlen, hent, hmap⟩ := hreg
  have hidx : (t - 1).toNat < event.primaryVertices.flatten.length := by omega
  have hmap0 : (PuitsCouronne23.EventAction.BeginOfEventAction acos atan2 s
      event).fTrackIDtoIndex t = some (t - 1).toNat := by
    rw [hmap t, if_pos ht]
  obtain ⟨g0, hg0, hid0, -, -, -, -, -, htr0⟩ :=
    hent (t - 1).toNat _ (List.getElem?_eq_getElem hidx)
  have hid0' : g0.trackID = t := by
    rw [hid0]
    omega
  obtain ⟨s1, g1, hs1, hmap1, htol1, hlen1, hg1, htr1, hid1⟩ :=
    PuitsCouronne23.EventAction.recordCrossings_at before _ t (t - 1).toNat
      (fun g => g.transmitted = false ∧ g.trackID = t) hb hinj hmap0
      (by
        intro c hc hct g hg
        have hup := hbefore c hc hct
        cases c with
        | upstream k x => exact hg
        | downstream k x => simp [Filtre5mmWPETG.Crossing.isDownstream] at hup)
      g0 hg0 ⟨htr0, hid0'⟩
  have hb1 : ∀ (k : Int) (i : Nat), s1.fTrackIDtoIndex k = some i →
      i < s1.fPrimaryGammas.length := by
    rw [hmap1, hlen1]
    exact hb
  have hinj1 : ∀ (k l : Int) (i : Nat), s1.fTrackIDtoIndex k = some i →
      s1.fTrackIDtoIndex l = some i → k = l := by
    rw [hmap1]
    exact hinj
  obtain ⟨s2, hs2, hmap2, htol2, hlen2, hrec2⟩ :=
    PuitsCouronne23.EventAction.withPrimary_effect s1 t
      (PuitsCouronne23.crossingEffect s1.fTransmissionTolerance
        (Filtre5mmWPETG.Crossing.downstream t e)) hb1
  have hg2 := hrec2 (t - 1).toNat
  rw [hmap1, if_pos hmap0, hg1, Option.map_some'] at hg2
  obtain ⟨out, g, hout, hmap3, htol3, -, hg, hgeq⟩ :=
    PuitsCouronne23.EventAction.recordCrossings_at after s2 t (t - 1).toNat
      (fun g => g = PuitsCouronne23.crossingEffect s1.fTransmissionTolerance
        (Filtre5mmWPETG.Crossing.downstream t e) g1)
      (by rw [hmap2, hlen2]; exact hb1) (by rw [hmap2]; exact hinj1)
      (by rw [hmap2, hmap1]; exact hmap0)
      (fun c hc hct => absurd hct (hafter c hc)) _ hg2 rfl
  have htolout : out.fTransmissionTolerance = s1.fTransmissionTolerance := htol3.trans htol2
  refine ⟨out, g, ?_, ?_, ?_, hg, ?_, ?_, ?_, ?_⟩
  · rw [PuitsCouronne23.EventAction.recordCrossings_append, hs1, Option.some_bind]
    simp only [PuitsCouronne23.EventAction.recordCrossings,
      PuitsCouronne23.EventAction.recordCrossing_eq, Filtre5mmWPETG.Crossing.track, hs2,
      Option.some_bind]
    exact hout
  · rw [htolout, htol1, htol0]
  · rw [hmap3, hmap2, hmap1]
    exact hmap0
  · rw [hgeq]
    simp only [PuitsCouronne23.crossingEffect]
    split_ifs <;> exact hid1
  · rw [hgeq]
    simp only [PuitsCouronne23.crossingEffect]
    split_ifs <;> rfl
  · rw [hgeq]
    simp only [PuitsCouronne23.crossingEffect]
    split_ifs <;> rfl
  · rw [hgeq, htolout]
    simp only [PuitsCouronne23.crossingEffect]
    split_ifs with hlt
    · exact ⟨fun _ => hlt, fun _ => rfl⟩
    · constructor
      · intro h
        rw [htr1] at h
        exact absurd h (by simp)
      · intro h
        exact absurd h hlt

/-- C24, amended, at one primary reported upstream at 100 and then downstream at 99.5 with
tolerance 1. -/
theorem C24_transmitted_after_single_downstream_witness :
    ((1 : Int) ≤ 1 ∧ (1 : Int) ≤ (Examples.oneGammaEvent.primaryVertices.flatten.length : Int)) ∧
    ∃ out g,
      PuitsCouronne23.EventAction.recordCrossings
          (PuitsCouronne23.EventAction.BeginOfEventAction (fun _ => 0) (fun _ _ => 0)
            (PuitsCouronne23.EventAction.ctor 1) Examples.oneGammaEvent)
          ([Filtre5mmWPETG.Crossing.upstream 1 100] ++
            Filtre5mmWPETG.Crossing.downstream 1 (199 / 2) :: []) = some out ∧
      out.fTransmissionTolerance =
        (PuitsCouronne23.EventAction.ctor (1 : ℚ)).fTransmissionTolerance ∧
      out.fTrackIDtoIndex 1 = some ((1 : Int) - 1).toNat ∧
      out.fPrimaryGammas[((1 : Int) - 1).toNat]? = some g ∧ g.trackID = 1 ∧
      g.detectedDownstream = true ∧ g.energyDownstream = 199 / 2 ∧
      (g.transmitted = true ↔
        |g.energyUpstream - g.energyDownstream| < out.fTransmissionTolerance) :=
  have hregistered : (1 : Int) ≤ 1 ∧
      (1 : Int) ≤ (Examples.oneGammaEvent.primaryVertices.flatten.length : Int) := by
    simp [Examples.oneGammaEvent]
  ⟨hregistered,
    C24_transmitted_after_single_downstream (fun _ => 0) (fun _ _ => 0)
      (PuitsCouronne23.EventAction.ctor 1) Examples.oneGammaEvent
      [Filtre5mmWPETG.Crossing.upstream 1 100] [] 1 (199 / 2) hregistered
      (by
        intro c hc _
        rw [List.mem_singleton] at hc
        subst hc
        rfl)
      (by simp)⟩

/-- C29. After `BeginOfEventAction` and any sequence of calls (recording operations,
`EndOfEventAction`, further `BeginOfEventAction`), every call has returned without an access
out of bounds, every pair `(trackID, index)` of `fTrackIDtoIndex` has
`index < fPrimaryGammas.size()` and `fPrimaryGammas[index].trackID = trackID`, and
`GetGammaLineForTrack` and every further call read `fPrimaryGammas` within bounds. -/
theorem C29_identity_map_within_bounds (keV : K) (acos : K → K) (atan2 : K → K → K)
    (s0 : Filtre5mmWPETG.EventAction K) (event : G4Event K)
    (cs : List (Filtre5mmWPETG.TrackerCall K)) :
    ∃ out,
      Filtre5mmWPETG.EventAction.calls keV acos atan2
        (Filtre5mmWPETG.EventAction.BeginOfEventAction keV acos atan2 s0 event) cs = some out ∧
      (∀ (trackID : Int) (index : Nat), out.fTrackIDtoIndex trackID = some index →
        index < out.fPrimaryGammas.length ∧
        ∃ g, out.fPrimaryGammas[index]? = some g ∧ g.trackID = trackID) ∧
      (∀ trackID : Int,
        (Filtre5mmWPETG.EventAction.GetGammaLineForTrack out trackID).isSome = true) ∧
      (∀ c : Filtre5mmWPETG.TrackerCall K,
        (Filtre5mmWPETG.EventAction.call keV acos atan2 out c).isSome = true) := by
  have hreg := Filtre5mmWPETG.EventAction.registered_BeginOfEventAction_relative keV acos
    atan2 s0 event
  obtain ⟨out, hout, hwf, htd⟩ := Filtre5mmWPETG.EventAction.calls_invariant keV acos atan2 cs _
    (Filtre5mmWPETG.tableConsistent_of_registered _ _ hreg)
    (Filtre5mmWPETG.transmittedDetected_of_registered _ _ hreg)
  refine ⟨out, hout, ?_, ?_, ?_⟩
  · intro trackID index hmap
    obtain ⟨g, hg, hid⟩ := hwf trackID index hmap
    obtain ⟨hlt, -⟩ := List.getElem?_eq_some_iff.mp hg
    exact ⟨hlt, g, hg, hid⟩
  · intro trackID
    unfold Filtre5mmWPETG.EventAction.GetGammaLineForTrack
    cases hmap : out.fTrackIDtoIndex trackID with
    | none => rfl
    | some index =>
      obtain ⟨g, hg, -⟩ := hwf trackID index hmap
      simp only [hg, Option.map_some', Option.isSome_some]
  · intro c
    obtain ⟨s1, hs1, -, -⟩ :=
      Filtre5mmWPETG.EventAction.call_invariant keV acos atan2 out c hwf htd
    rw [hs1]
    rfl

end Claims

end PuitsCouronne
